import Mathlib

/-!
# SceneLab3D: the numeric primitives of `src/util/math.cpp`

A shallow embedding of the square root, sine, cosine, tangent, arctangent,
arcsine and arccosine routines of `src/util/math.cpp` and of its helpers
`normalize`, `inRange`, `getAngle` and `rolloverAngle`, and proofs about them.

Number model.  The C++ routines compute on `double` and `float`.  Two models of
that arithmetic are used.

* Exact arithmetic.  A number is a rational (`ℚ`) and every operation is the exact
  one.  The functions `sqrt`, `sin`, `cos`, `tan`, `arctan`, `arcsin`, `arccos` and
  `getAngle` are the routines in this model.  It carries the statements that leave
  room for the rounding of the machine: sentinel values, branch structure, error
  bounds with slack.
* Rounded arithmetic.  Every operation is followed by the IEEE 754 rounding to
  nearest, ties to even, to 53 significant bits (`roundDouble`) or to 24
  (`roundFloat`).  The routines in this model carry the suffix `D` (on `double`) or
  `F` (on `float`); the `float` helpers `normalize`, `inRange` and `rolloverAngle`
  are given in this model only.  It carries the statements that depend on a single
  rounding: strict inequalities at a boundary, exact periods, termination of a
  loop whose step can be absorbed.  The exponent range is unbounded below (no
  underflow).  Overflow is modelled where a statement depends on it: `FloatVal` has
  the infinities and NaN, and `floatOf` is undefined past the largest `float`.
  Multiplying or dividing a `double` by `2` is exact and is not rounded again.
  A decimal literal of the source stands for the `double` nearest to it.

Loops.  The Newton loop of `sqrt` counts its passes itself.  The reduction loops
of `sin` and `cos` and the loops of `rolloverAngle` terminate in exact arithmetic
and are total functions there; under rounding a step can be absorbed and the loop
never ends, so the rounded loops take a bound on the number of passes and return
`none` when it is used up.

The only non-finite values the code produces on purpose, the `inf` and `-inf`
returned by `tan`, are constructors of `TanResult`.

Diagnostics.  `logWrite` only appends to a log and does not change the value
returned; it is left out.  Where a statement is about the branch that logs, the
function returns a flag next to its value (`arcsinRun`, `arccosRun`).

Constants.  `util/Math.h` (the constants `pi`, `inf`, the default tolerance of
`sqrt` and the helpers `abs` and `toDegrees`) is not among the sources.  `pi`
is a field of `MathConsts`; theorems that need its numeric value assume
`3.1415926 ≤ pi ≤ 3.1415927` (or the lower bound alone), or take the `double`
nearest to π (`ieeeConsts`).  `abs` is the absolute value, the default tolerance
is `0.001` and `toDegrees` multiplies by `180` and divides by `pi`.
-/

namespace SceneLab

/-! ## Definitions -/

/-- Modelled from the spec: the constant table of `util/Math.h`, which is not among the
sources.  `pi` is the library's constant for π.  It is positive; this is what makes the
range-reduction loops terminate. -/
structure MathConsts where
  /-- The constant `pi` of `util/Math.h`. -/
  pi : ℚ
  /-- The constant is a positive number. -/
  pi_pos : 0 < pi

/-- A constant table whose `pi` is π to fifteen decimals, used for the concrete instances. -/
def stdConsts : MathConsts where
  pi := 3.141592653589793
  pi_pos := by norm_num

/-- The Newton loop `while (true) { ... }` of `sqrt(double, double)` (math.cpp 56-74).
The first argument after `x` and `tolerance` is the counter `maxIterations`, the second
the current `y`.  The result is the value returned together with a flag telling which
`return` fired: `true` for the tolerance test `return yNext`, `false` for the exhausted
counter `return y`. -/
def sqrtLoop (x tolerance : ℚ) : ℕ → ℚ → ℚ × Bool
  | 0, y => (y, false)
  | maxIterations + 1, y =>
    let yNext := 0.5 * (y + x / y)
    if |y - yNext| < tolerance then (yNext, true)
    else sqrtLoop x tolerance maxIterations yNext

/-- The function `double sqrt(double x, double tolerance)` (math.cpp 8-76). -/
def sqrt (x tolerance : ℚ) : ℚ :=
  if x < 0 then -1
  else if x = 0 then 0
  else (sqrtLoop x tolerance 25 x).1

/-- The Newton sequence in the words of the spec (section 4.1): `y_0 = x` and
`y_{n+1} = 0.5 * (y_n + x / y_n)`.  It is the reference `sqrt` is compared with. -/
def newtonSpec (x : ℚ) : ℕ → ℚ
  | 0 => x
  | n + 1 => 0.5 * (newtonSpec x n + x / newtonSpec x n)

/-- The loop `while (value > pi) value -= (2 * pi);` that opens `sin`, `cos` and `tan`
(math.cpp 106, 156, 205).  It terminates because `pi` is positive. -/
def wrapDown (c : MathConsts) (value : ℚ) : ℚ :=
  if c.pi < value then wrapDown c (value - 2 * c.pi) else value
termination_by (⌈(value - c.pi) / (2 * c.pi)⌉).toNat
decreasing_by
  have hpos : 0 < 2 * c.pi := by have := c.pi_pos; linarith
  have h1 : (value - 2 * c.pi - c.pi) / (2 * c.pi) = (value - c.pi) / (2 * c.pi) - 1 := by
    field_simp; ring
  rw [h1, Int.ceil_sub_one]
  have h2 : 0 < ⌈(value - c.pi) / (2 * c.pi)⌉ :=
    Int.ceil_pos.mpr (div_pos (by linarith) hpos)
  exact (Int.toNat_lt_toNat h2).mpr (by linarith)

/-- The loop `while (value < -pi) value += (2 * pi);` that follows it (math.cpp 107, 157,
206). -/
def wrapUp (c : MathConsts) (value : ℚ) : ℚ :=
  if value < -c.pi then wrapUp c (value + 2 * c.pi) else value
termination_by (⌈(-c.pi - value) / (2 * c.pi)⌉).toNat
decreasing_by
  have hpos : 0 < 2 * c.pi := by have := c.pi_pos; linarith
  have h1 : (-c.pi - (value + 2 * c.pi)) / (2 * c.pi) = (-c.pi - value) / (2 * c.pi) - 1 := by
    field_simp; ring
  rw [h1, Int.ceil_sub_one]
  have h2 : 0 < ⌈(-c.pi - value) / (2 * c.pi)⌉ :=
    Int.ceil_pos.mpr (div_pos (by linarith) hpos)
  exact (Int.toNat_lt_toNat h2).mpr (by linarith)

/-- The function `double sin(double x)` (math.cpp 87-131): range reduction, then the five
terms `value - exp3/fac3 + exp5/fac5 - exp7/fac7 + exp9/fac9`. -/
def sin (c : MathConsts) (x : ℚ) : ℚ :=
  let value := wrapUp c (wrapDown c x)
  let exp3 := value * value * value
  let exp5 := exp3 * value * value
  let exp7 := exp5 * value * value
  let exp9 := exp7 * value * value
  let fac3 : ℚ := 2 * 3
  let fac5 := fac3 * 4 * 5
  let fac7 := fac5 * 6 * 7
  let fac9 := fac7 * 8 * 9
  value - exp3 / fac3 + exp5 / fac5 - exp7 / fac7 + exp9 / fac9

/-- The function `double cos(double x)` (math.cpp 137-187): range reduction, the six terms
of the cosine series, and the snap to `0` of a result of magnitude below `1e-6`. -/
def cos (c : MathConsts) (x : ℚ) : ℚ :=
  let value := wrapUp c (wrapDown c x)
  let exp2 := value * value
  let exp4 := exp2 * value * value
  let exp6 := exp4 * value * value
  let exp8 := exp6 * value * value
  let exp10 := exp8 * value * value
  let fac2 : ℚ := 2
  let fac4 := fac2 * 3 * 4
  let fac6 := fac4 * 5 * 6
  let fac8 := fac6 * 7 * 8
  let fac10 := fac8 * 9 * 10
  let returnValue := 1 - exp2 / fac2 + exp4 / fac4 - exp6 / fac6 + exp8 / fac8 - exp10 / fac10
  if |returnValue| < 1e-6 then 0 else returnValue

/-- The values `tan` can return: a finite number, or the constants `inf` and `-inf` of
`util/Math.h`. -/
inductive TanResult where
  | finite (value : ℚ)
  | posInf
  | negInf
  deriving DecidableEq

/-- The function `double tan(double x)` (math.cpp 193-218). -/
def tan (c : MathConsts) (x : ℚ) : TanResult :=
  let value := wrapUp c (wrapDown c x)
  let sinValue := sin c value
  let cosValue := cos c value
  if cosValue = 0 then (if sinValue > 0 then TanResult.posInf else TanResult.negInf)
  else TanResult.finite (sinValue / cosValue)

/-- The function `double arctan(double x)` (math.cpp 224-313). -/
def arctan (c : MathConsts) (x : ℚ) : ℚ :=
  let value := if |x| > 1 then 1 / x else x
  let inverseFlag : Bool := decide (|x| > 1)
  let returnValue :=
    if |value| < 0.05 then value
    else if value < -0.76 then (0.55 * value) - 0.235
    else if value > 0.76 then (0.55 * value) + 0.235
    else
      let exp3 := value * value * value
      let exp5 := exp3 * value * value
      let exp7 := exp5 * value * value
      let exp9 := exp7 * value * value
      value - exp3 / 3 + exp5 / 5 - exp7 / 7 + exp9 / 9
  if inverseFlag then
    let offset := if returnValue > 0 then c.pi / 2 else -(c.pi / 2)
    offset - returnValue
  else returnValue

/-- The branch selection of `arctan` on the (possibly inverted) `value` (math.cpp 268-299)
as a function of its own: the passthrough, the two linear fits and the five-term series.
It is what `arctan` computes before the inverse fix-up (`arctan_eq_branches`). -/
def arctanBranches (value : ℚ) : ℚ :=
  if |value| < 0.05 then value
  else if value < -0.76 then (0.55 * value) - 0.235
  else if value > 0.76 then (0.55 * value) + 0.235
  else
    let exp3 := value * value * value
    let exp5 := exp3 * value * value
    let exp7 := exp5 * value * value
    let exp9 := exp7 * value * value
    value - exp3 / 3 + exp5 / 5 - exp7 / 7 + exp9 / 9

/-- The first `n` terms of the sine series, `x - x^3/3! + x^5/5! - ...`, over any field.
A mathematical reference, not code of the library. -/
def sinSeries {K : Type} [Field K] : ℕ → K → K
  | 0, _ => 0
  | n + 1, x => sinSeries n x + (-1) ^ n * x ^ (2 * n + 1) / ((2 * n + 1).factorial : K)

/-- The first `n` terms of the cosine series, `1 - x^2/2! + x^4/4! - ...`, over any field.
A mathematical reference, not code of the library. -/
def cosSeries {K : Type} [Field K] : ℕ → K → K
  | 0, _ => 0
  | n + 1, x => cosSeries n x + (-1) ^ n * x ^ (2 * n) / ((2 * n).factorial : K)

/-- Modelled from the spec: the default value `0.001` of the `tolerance` parameter of `sqrt`,
declared in `util/Math.h`, which is not among the sources (spec sections 3 and 4.1). -/
def defaultTolerance : ℚ := 0.001

/-- Modelled from the spec: the helper `toDegrees` of `util/Math.h`, which is not among the
sources; it converts radians to degrees with the library's own `pi`. -/
def toDegrees (c : MathConsts) (radians : ℚ) : ℚ := radians * 180 / c.pi

/-- The function `double arcsin(double x)` (math.cpp 319-356).  The flag is `true` when the
out-of-domain branch, the one that writes the diagnostic and returns `0`, was taken. -/
def arcsinRun (c : MathConsts) (x : ℚ) : ℚ × Bool :=
  if |x| > 1 then (0, true)
  else
    let y := 1 - (x * x)
    if y = 0 then (if x > 0 then c.pi / 2 else -c.pi / 2, false)
    else
      let y := sqrt y defaultTolerance
      let y := x / y
      (arctan c y, false)

/-- The value returned by `arcsin`. -/
def arcsin (c : MathConsts) (x : ℚ) : ℚ := (arcsinRun c x).1

/-- The function `double arccos(double x)` (math.cpp 362-405), with the same flag as
`arcsinRun`. -/
def arccosRun (c : MathConsts) (x : ℚ) : ℚ × Bool :=
  if |x| > 1 then (0, true)
  else if x = 0 then (c.pi / 2, false)
  else
    let y := 1 - (x * x)
    let y := sqrt y defaultTolerance
    let y := y / x
    let returnValue := arctan c y
    (if returnValue < 0 ∨ x < 0 then returnValue + c.pi else returnValue, false)

/-- The value returned by `arccos`. -/
def arccos (c : MathConsts) (x : ℚ) : ℚ := (arccosRun c x).1

/-- The function `float getAngle(float x1, float y1, float x2, float y2)` (math.cpp
454-491). -/
def getAngle (c : MathConsts) (x1 y1 x2 y2 : ℚ) : ℚ :=
  if x1 = x2 then (if y1 ≥ y2 then 0 else 180)
  else if y1 = y2 then (if x1 ≥ x2 then 90 else 270)
  else
    let radians := if x1 ≠ x2 then arctan c |(x1 - x2) / (y1 - y2)| else 0
    let radians := if y1 < y2 then c.pi - radians else radians
    let radians := if x1 < x2 then (2 * c.pi) - radians else radians
    toDegrees c radians

/-- Rounding of a rational to the nearest integer, a tie going to the even neighbour. -/
def roundHalfEven (t : ℚ) : ℤ :=
  let f := ⌊t⌋
  if t - f < 1 / 2 then f
  else if 1 / 2 < t - f then f + 1
  else if f % 2 = 0 then f else f + 1

/-- IEEE 754 rounding to nearest, ties to even, to `p` significant bits: `q` is divided by
the unit in the last place of its binade, `2 ^ (⌊log₂ |q|⌋ - (p - 1))`, rounded to an integer
and multiplied back.  The exponent is not bounded. -/
def roundNearest (p : ℕ) (q : ℚ) : ℚ :=
  if q = 0 then 0
  else
    let ulp : ℚ := 2 ^ (Int.log 2 |q| - ((p : ℤ) - 1))
    roundHalfEven (q / ulp) * ulp

/-- The rounding that follows one `double` operation: 53 significant bits. -/
def roundDouble (q : ℚ) : ℚ := roundNearest 53 q

/-- The rounding that follows one `float` operation: 24 significant bits. -/
def roundFloat (q : ℚ) : ℚ := roundNearest 24 q

/-- The largest finite `float`, `(2^24 - 1) * 2^104`. -/
def floatMax : ℚ := (2 ^ 24 - 1) * 2 ^ 104

/-- Modelled from the spec: the constant table of `util/Math.h` with `pi` the `double`
nearest to π, `884279719003555 / 2^48`. -/
def ieeeConsts : MathConsts where
  pi := 884279719003555 / 281474976710656
  pi_pos := by norm_num

/-- The values a `float` expression can take: a finite number, an infinity or NaN. -/
inductive FloatVal where
  | finite (value : ℚ)
  | posInf
  | negInf
  | nan
  deriving DecidableEq

/-- The `float` that holds the exact result `q` of an operation on finite operands: `q`
rounded, or an infinity when the rounded value exceeds `floatMax`. -/
def FloatVal.ofExact (q : ℚ) : FloatVal :=
  if floatMax < roundFloat q then FloatVal.posInf
  else if roundFloat q < -floatMax then FloatVal.negInf
  else FloatVal.finite (roundFloat q)

/-- The quotient of two `float` values by the IEEE rules: a finite value over an infinity
is `0`, a non-zero value over `0` and an infinity over a finite value are infinities, and
`0 / 0` and infinity over infinity are NaN.  The sign of a zero is not kept: a zero divisor
counts as positive. -/
def FloatVal.div : FloatVal → FloatVal → FloatVal
  | FloatVal.finite a, FloatVal.finite b =>
    if b = 0 then
      (if a = 0 then FloatVal.nan else if a > 0 then FloatVal.posInf else FloatVal.negInf)
    else FloatVal.ofExact (a / b)
  | FloatVal.finite _, FloatVal.posInf => FloatVal.finite 0
  | FloatVal.finite _, FloatVal.negInf => FloatVal.finite 0
  | FloatVal.posInf, FloatVal.finite b => if b < 0 then FloatVal.negInf else FloatVal.posInf
  | FloatVal.negInf, FloatVal.finite b => if b < 0 then FloatVal.posInf else FloatVal.negInf
  | _, _ => FloatVal.nan

/-- The function `float normalize(float num, float from, float to)` (math.cpp 431-440), on
finite arguments: two `float` subtractions and a `float` division. -/
def normalize (num from' to' : ℚ) : FloatVal :=
  FloatVal.div (FloatVal.ofExact (num - from')) (FloatVal.ofExact (to' - from'))

/-- The function `float inRange(float num, float from, float to)` (math.cpp 442-452), on
finite arguments. -/
def inRange (num from' to' : ℚ) : FloatVal :=
  if num < from' ∨ num > to' then FloatVal.finite (-1)
  else FloatVal.div (FloatVal.ofExact (num - from')) (FloatVal.ofExact (to' - from'))

/-- The loop `while (*pAngle < 0) *pAngle += 360;` of `rolloverAngle` (math.cpp 495-497),
on the `float` stored at `pAngle`.  The first argument bounds the number of times the loop
test is evaluated; the result is `none` when the loop has not ended within it. -/
def rollUp : ℕ → ℚ → Option ℚ
  | 0, _ => none
  | fuel + 1, angle => if angle < 0 then rollUp fuel (roundFloat (angle + 360)) else some angle

/-- The loop `while (*pAngle > 360) *pAngle -= 360;` of `rolloverAngle` (math.cpp
499-501), with the same bound. -/
def rollDown : ℕ → ℚ → Option ℚ
  | 0, _ => none
  | fuel + 1, angle =>
    if angle > 360 then rollDown fuel (roundFloat (angle - 360)) else some angle

/-- The function `void rolloverAngle(float* pAngle)` (math.cpp 493-505) as a function from
the value stored before the call to the value stored after it; `none` when one of the two
loops has not ended within `fuel` tests. -/
def rolloverAngle (fuel : ℕ) (angle : ℚ) : Option ℚ :=
  (rollUp fuel angle).bind (rollDown fuel)

/-- The Newton loop of `sqrt(double, double)` (math.cpp 56-74) in rounded arithmetic: the
quotient, the sum, the product by `0.5` and the difference in the loop test are each
rounded to `double`.  Arguments and result as for `sqrtLoop`. -/
def sqrtLoopD (x tolerance : ℚ) : ℕ → ℚ → ℚ × Bool
  | 0, y => (y, false)
  | maxIterations + 1, y =>
    let yNext := roundDouble (0.5 * roundDouble (y + roundDouble (x / y)))
    if |roundDouble (y - yNext)| < tolerance then (yNext, true)
    else sqrtLoopD x tolerance maxIterations yNext

/-- The function `double sqrt(double x, double tolerance)` (math.cpp 8-76) in rounded
arithmetic. -/
def sqrtD (x tolerance : ℚ) : ℚ :=
  if x < 0 then -1
  else if x = 0 then 0
  else (sqrtLoopD x tolerance 25 x).1

/-- The loop `while (value > pi) value -= (2 * pi);` (math.cpp 106) in rounded arithmetic.
The first argument bounds the number of times the loop test is evaluated; the result is
`none` when the loop has not ended within it. -/
def wrapDownD (c : MathConsts) : ℕ → ℚ → Option ℚ
  | 0, _ => none
  | fuel + 1, value =>
    if c.pi < value then wrapDownD c fuel (roundDouble (value - 2 * c.pi)) else some value

/-- The loop `while (value < -pi) value += (2 * pi);` (math.cpp 107) in rounded
arithmetic, with the same bound. -/
def wrapUpD (c : MathConsts) : ℕ → ℚ → Option ℚ
  | 0, _ => none
  | fuel + 1, value =>
    if value < -c.pi then wrapUpD c fuel (roundDouble (value + 2 * c.pi)) else some value

/-- The two reduction loops of `sin` and `cos` one after the other, in rounded
arithmetic. -/
def reduceD (c : MathConsts) (fuel : ℕ) (x : ℚ) : Option ℚ :=
  (wrapDownD c fuel x).bind (wrapUpD c fuel)

/-- The function `double arctan(double x)` (math.cpp 224-313) in rounded arithmetic. -/
def arctanD (c : MathConsts) (x : ℚ) : ℚ :=
  let value := if |x| > 1 then roundDouble (1 / x) else x
  let inverseFlag : Bool := decide (|x| > 1)
  let returnValue :=
    if |value| < roundDouble 0.05 then value
    else if value < -roundDouble 0.76 then
      roundDouble (roundDouble (roundDouble 0.55 * value) - roundDouble 0.235)
    else if value > roundDouble 0.76 then
      roundDouble (roundDouble (roundDouble 0.55 * value) + roundDouble 0.235)
    else
      let exp3 := roundDouble (roundDouble (value * value) * value)
      let exp5 := roundDouble (roundDouble (exp3 * value) * value)
      let exp7 := roundDouble (roundDouble (exp5 * value) * value)
      let exp9 := roundDouble (roundDouble (exp7 * value) * value)
      let returnValue := roundDouble (value - roundDouble (exp3 / 3))
      let returnValue := roundDouble (returnValue + roundDouble (exp5 / 5))
      let returnValue := roundDouble (returnValue - roundDouble (exp7 / 7))
      roundDouble (returnValue + roundDouble (exp9 / 9))
  if inverseFlag then
    let offset := if returnValue > 0 then c.pi / 2 else -(c.pi / 2)
    roundDouble (offset - returnValue)
  else returnValue

/-- The branch selection of `arctanD` on the (possibly inverted) `value` (math.cpp 268-299)
as a function of its own; it is what `arctanD` computes before the inverse fix-up
(`arctanD_eq_branches`). -/
def arctanBranchesD (value : ℚ) : ℚ :=
  if |value| < roundDouble 0.05 then value
  else if value < -roundDouble 0.76 then
    roundDouble (roundDouble (roundDouble 0.55 * value) - roundDouble 0.235)
  else if value > roundDouble 0.76 then
    roundDouble (roundDouble (roundDouble 0.55 * value) + roundDouble 0.235)
  else
    let exp3 := roundDouble (roundDouble (value * value) * value)
    let exp5 := roundDouble (roundDouble (exp3 * value) * value)
    let exp7 := roundDouble (roundDouble (exp5 * value) * value)
    let exp9 := roundDouble (roundDouble (exp7 * value) * value)
    let returnValue := roundDouble (value - roundDouble (exp3 / 3))
    let returnValue := roundDouble (returnValue + roundDouble (exp5 / 5))
    let returnValue := roundDouble (returnValue - roundDouble (exp7 / 7))
    roundDouble (returnValue + roundDouble (exp9 / 9))

/-- A `float` result that has to be finite: the rounded value, or `none` when it exceeds
`floatMax` (the code then goes on with an infinity). -/
def floatOf (q : ℚ) : Option ℚ :=
  if |roundFloat q| ≤ floatMax then some (roundFloat q) else none

/-- Modelled from the spec: the helper `toDegrees` of `util/Math.h`, which is not among the
sources, in rounded arithmetic: the product by `180` and the quotient by `pi` are `double`
operations and the result is stored in the `float` that `getAngle` returns. -/
def toDegreesF (c : MathConsts) (radians : ℚ) : ℚ :=
  roundFloat (roundDouble (roundDouble (radians * 180) / c.pi))

/-- The function `float getAngle(float x1, float y1, float x2, float y2)` (math.cpp
454-491) in rounded arithmetic, on finite arguments.  The two differences and their
quotient are `float` operations; the arctangent is the `double` routine called through the
`float` overload (math.cpp 220-222), so its result is rounded to `float`; `pi - radians`
and `(2 * pi) - radians` are `double` operations stored in a `float`.  The result is `none`
when a difference or the quotient is not finite. -/
def getAngleF (c : MathConsts) (x1 y1 x2 y2 : ℚ) : Option ℚ :=
  if x1 = x2 then some (if y1 ≥ y2 then 0 else 180)
  else if y1 = y2 then some (if x1 ≥ x2 then 90 else 270)
  else
    (floatOf (x1 - x2)).bind fun dx =>
    (floatOf (y1 - y2)).bind fun dy =>
    (floatOf (dx / dy)).bind fun m =>
      let radians := roundFloat (arctanD c |m|)
      let radians := if y1 < y2 then roundFloat (roundDouble (c.pi - radians)) else radians
      let radians := if x1 < x2 then roundFloat (roundDouble ((2 * c.pi) - radians)) else radians
      some (toDegreesF c radians)

/-! ## Square root -/

theorem sqrtLoop_stop (x tol : ℚ) (n : ℕ) (y z : ℚ) (hz : 0.5 * (y + x / y) = z)
    (h : |y - z| < tol) : sqrtLoop x tol (n + 1) y = (z, true) := by
  subst hz
  simp only [sqrtLoop]
  rw [if_pos h]

theorem sqrtLoop_go (x tol : ℚ) (n : ℕ) (y z : ℚ) (hz : 0.5 * (y + x / y) = z)
    (h : ¬ |y - z| < tol) : sqrtLoop x tol (n + 1) y = sqrtLoop x tol n z := by
  subst hz
  simp only [sqrtLoop]
  rw [if_neg h]

theorem newton_step_pos (x y : ℚ) (hx : 0 < x) (hy : 0 < y) : 0 < 0.5 * (y + x / y) := by
  have : 0 < x / y := div_pos hx hy
  norm_num
  linarith

theorem sqrtLoop_pos (x tol : ℚ) (hx : 0 < x) :
    ∀ (n : ℕ) (y : ℚ), 0 < y → 0 < (sqrtLoop x tol n y).1 := by
  intro n
  induction n with
  | zero => intro y hy; simpa [sqrtLoop] using hy
  | succ n ih =>
    intro y hy
    have hz := newton_step_pos x y hx hy
    by_cases h : |y - 0.5 * (y + x / y)| < tol
    · rw [sqrtLoop_stop x tol n y _ rfl h]; exact hz
    · rw [sqrtLoop_go x tol n y _ rfl h]; exact ih _ hz

theorem sqrt_neg (x tol : ℚ) (hx : x < 0) : sqrt x tol = -1 := by
  simp [sqrt, hx]

theorem sqrt_zero (tol : ℚ) : sqrt 0 tol = 0 := by
  simp [sqrt]

theorem sqrt_of_pos (x tol : ℚ) (hx : 0 < x) : sqrt x tol = (sqrtLoop x tol 25 x).1 := by
  simp [sqrt, not_lt.mpr hx.le, hx.ne']

theorem sqrt_pos (x tol : ℚ) (hx : 0 < x) : 0 < sqrt x tol := by
  rw [sqrt_of_pos x tol hx]
  exact sqrtLoop_pos x tol hx 25 x hx

/-- C1: for every tolerance, `sqrt` returns exactly `-1` on a negative input, exactly `0`
on input `0` and a strictly positive value on a positive input; so the result is negative
if and only if the input is negative. -/
theorem sqrt_sentinel_sign (x tol : ℚ) :
    (x < 0 → sqrt x tol = -1) ∧ (x = 0 → sqrt x tol = 0) ∧ (0 < x → 0 < sqrt x tol) ∧
      (sqrt x tol < 0 ↔ x < 0) := by
  refine ⟨sqrt_neg x tol, ?_, sqrt_pos x tol, ?_⟩
  · rintro rfl; exact sqrt_zero tol
  · constructor
    · intro h
      by_contra hx
      rcases (not_lt.mp hx).eq_or_lt with h0 | hpos
      · rw [← h0, sqrt_zero] at h; exact lt_irrefl _ h
      · exact lt_asymm h (sqrt_pos x tol hpos)
    · intro hx
      rw [sqrt_neg x tol hx]; norm_num

/-- C1 at concrete inputs: `sqrt(-3, 1) = -1`, `sqrt(0, 1) = 0`, `0 < sqrt(2, 1)`. -/
theorem sqrt_sentinel_sign_witness :
    sqrt (-3) 1 = -1 ∧ sqrt 0 1 = 0 ∧ 0 < sqrt 2 1 :=
  ⟨(sqrt_sentinel_sign (-3) 1).1 (by norm_num), (sqrt_sentinel_sign 0 1).2.1 rfl,
    (sqrt_sentinel_sign 2 1).2.2.1 (by norm_num)⟩

theorem sqrtLoop_skip (x tol : ℚ) :
    ∀ (m k n : ℕ),
      (∀ j, j < m → ¬ |newtonSpec x (k + j) - newtonSpec x (k + j + 1)| < tol) →
      sqrtLoop x tol (n + m) (newtonSpec x k) = sqrtLoop x tol n (newtonSpec x (k + m)) := by
  intro m
  induction m with
  | zero => intro k n _; rfl
  | succ m ih =>
    intro k n h
    have h0 := h 0 (Nat.succ_pos m)
    rw [← Nat.add_assoc, sqrtLoop_go x tol (n + m) (newtonSpec x k) (newtonSpec x (k + 1)) rfl h0]
    rw [ih (k + 1) n]
    · rw [Nat.add_assoc k 1 m, Nat.add_comm 1 m]
    · intro j hj
      have := h (j + 1) (Nat.succ_lt_succ hj)
      rwa [Nat.add_assoc k 1 j, Nat.add_comm 1 j]

theorem sqrtLoop_first_stop (x tol : ℚ) (n : ℕ) (hn1 : 1 ≤ n) (hn : n ≤ 25)
    (hstop : |newtonSpec x (n - 1) - newtonSpec x n| < tol)
    (hmin : ∀ m, 1 ≤ m → m < n → ¬ |newtonSpec x (m - 1) - newtonSpec x m| < tol) :
    sqrtLoop x tol 25 x = (newtonSpec x n, true) := by
  obtain ⟨p, rfl⟩ : ∃ p, n = p + 1 := ⟨n - 1, by omega⟩
  obtain ⟨q, hq⟩ : ∃ q, 25 = (q + 1) + p := ⟨24 - p, by omega⟩
  have hskip := sqrtLoop_skip x tol p 0 (q + 1) (by
    intro j hj
    have := hmin (j + 1) (by omega) (by omega)
    simpa using this)
  rw [hq]
  change sqrtLoop x tol (q + 1 + p) (newtonSpec x 0) = _
  rw [hskip, Nat.zero_add]
  exact sqrtLoop_stop x tol q (newtonSpec x p) (newtonSpec x (p + 1)) rfl (by simpa using hstop)

theorem sqrtLoop_no_stop (x tol : ℚ)
    (hno : ∀ n, 1 ≤ n → n ≤ 25 → ¬ |newtonSpec x (n - 1) - newtonSpec x n| < tol) :
    sqrtLoop x tol 25 x = (newtonSpec x 25, false) := by
  have hskip := sqrtLoop_skip x tol 25 0 0 (by
    intro j hj
    have := hno (j + 1) (by omega) (by omega)
    simpa using this)
  change sqrtLoop x tol (0 + 25) (newtonSpec x 0) = _
  rw [hskip]
  rfl

/-- C3: for every `x > 0` and every tolerance, `sqrt(x, tolerance)` is the Newton iterate
`y_n` of the spec for the least `n` in `1..25` with `|y_{n-1} - y_n| < tolerance`, and it
is `y_25` when there is no such `n`; the result is always one of `y_1 .. y_25` (at most 25
updates) and never the failure sentinel `-1`. -/
theorem sqrt_refines_newton (x tol : ℚ) (hx : 0 < x) :
    (∀ n, 1 ≤ n → n ≤ 25 → |newtonSpec x (n - 1) - newtonSpec x n| < tol →
        (∀ m, 1 ≤ m → m < n → ¬ |newtonSpec x (m - 1) - newtonSpec x m| < tol) →
        sqrt x tol = newtonSpec x n) ∧
      ((∀ n, 1 ≤ n → n ≤ 25 → ¬ |newtonSpec x (n - 1) - newtonSpec x n| < tol) →
        sqrt x tol = newtonSpec x 25) ∧
      (∃ n, 1 ≤ n ∧ n ≤ 25 ∧ sqrt x tol = newtonSpec x n) ∧
      sqrt x tol ≠ -1 := by
  have h1 : ∀ n, 1 ≤ n → n ≤ 25 → |newtonSpec x (n - 1) - newtonSpec x n| < tol →
      (∀ m, 1 ≤ m → m < n → ¬ |newtonSpec x (m - 1) - newtonSpec x m| < tol) →
      sqrt x tol = newtonSpec x n := by
    intro n hn1 hn hstop hmin
    rw [sqrt_of_pos x tol hx, sqrtLoop_first_stop x tol n hn1 hn hstop hmin]
  have h2 : (∀ n, 1 ≤ n → n ≤ 25 → ¬ |newtonSpec x (n - 1) - newtonSpec x n| < tol) →
      sqrt x tol = newtonSpec x 25 := by
    intro hno
    rw [sqrt_of_pos x tol hx, sqrtLoop_no_stop x tol hno]
  refine ⟨h1, h2, ?_, ?_⟩
  · by_cases hex : ∃ n, 1 ≤ n ∧ n ≤ 25 ∧ |newtonSpec x (n - 1) - newtonSpec x n| < tol
    · classical
      have hspec := Nat.find_spec hex
      refine ⟨Nat.find hex, hspec.1, hspec.2.1, h1 _ hspec.1 hspec.2.1 hspec.2.2 ?_⟩
      intro m hm1 hmlt hm
      exact Nat.find_min hex hmlt ⟨hm1, by omega, hm⟩
    · refine ⟨25, by norm_num, le_refl _, h2 ?_⟩
      intro n hn1 hn hstop
      exact hex ⟨n, hn1, hn, hstop⟩
  · have := sqrt_pos x tol hx
    intro h
    rw [h] at this
    norm_num at this

/-- C3 at concrete inputs: `sqrt(4, 0.001)` is the fourth Newton iterate (the first three
passes fail the tolerance test), and `sqrt(2, 0)` is the 25th (tolerance `0` never stops). -/
theorem sqrt_refines_newton_witness :
    sqrt 4 0.001 = newtonSpec 4 4 ∧ sqrt 2 0 = newtonSpec 2 25 :=
  ⟨(sqrt_refines_newton 4 0.001 (by norm_num)).1 4 (by norm_num) (by norm_num)
      (by norm_num [newtonSpec, abs_lt])
      (by
        intro m hm1 hm4
        interval_cases m <;> norm_num [newtonSpec, abs_lt]),
    (sqrt_refines_newton 2 0 (by norm_num)).2.1
      (fun _ _ _ h => absurd h (not_lt.mpr (abs_nonneg _)))⟩

theorem newton_real_bounds (x y : ℝ) (hx : 0 < x) (hy : 0 < y) :
    0 ≤ 0.5 * (y + x / y) - Real.sqrt x ∧
      0.5 * (y + x / y) - Real.sqrt x ≤ |y - 0.5 * (y + x / y)| := by
  have hs0 : 0 ≤ Real.sqrt x := Real.sqrt_nonneg x
  have hss : Real.sqrt x * Real.sqrt x = x := Real.mul_self_sqrt hx.le
  set s := Real.sqrt x with hs
  have hdiv : x / y = s * s / y := by rw [hss]
  constructor
  · have h1 : 0 ≤ (y - s) ^ 2 / y := div_nonneg (sq_nonneg _) hy.le
    have h2 : (y - s) ^ 2 / y = y + x / y - 2 * s := by
      rw [hdiv]; field_simp; ring
    rw [h2] at h1
    norm_num
    linarith
  · by_cases h : s ≤ y
    · have h3 : x / y ≤ s := by
        rw [div_le_iff₀ hy, ← hss]
        exact mul_le_mul_of_nonneg_left h hs0
      have h4 : y - 0.5 * (y + x / y) ≤ |y - 0.5 * (y + x / y)| := le_abs_self _
      norm_num at h4 ⊢
      linarith
    · have h4 : -(y - 0.5 * (y + x / y)) ≤ |y - 0.5 * (y + x / y)| := neg_le_abs _
      norm_num at h4 ⊢
      linarith [not_le.mp h]

theorem sqrtLoop_exit_of_next (x tol : ℚ) (n : ℕ) (y : ℚ)
    (h : (sqrtLoop x tol n (0.5 * (y + x / y))).2 = true) :
    (sqrtLoop x tol (n + 1) y).2 = true := by
  by_cases hs : |y - 0.5 * (y + x / y)| < tol
  · rw [sqrtLoop_stop x tol n y _ rfl hs]
  · rw [sqrtLoop_go x tol n y _ rfl hs]; exact h

theorem newton_over_step (x y B : ℚ) (hx : 0 < x) (hy : 0 < y) (hlo : x ≤ y ^ 2)
    (hhi : y ^ 2 ≤ (1 + B) * x) :
    x ≤ (0.5 * (y + x / y)) ^ 2 ∧ (0.5 * (y + x / y)) ^ 2 ≤ (1 + B / 4) * x := by
  have hy2 : 0 < y ^ 2 := by positivity
  have hz : (0.5 * (y + x / y)) ^ 2 = (y ^ 2 + x) ^ 2 / (4 * y ^ 2) := by
    field_simp; ring
  rw [hz]
  constructor
  · rw [le_div_iff₀ (by positivity)]
    nlinarith [sq_nonneg (y ^ 2 - x)]
  · rw [div_le_iff₀ (by positivity)]
    have hB : 0 ≤ y ^ 2 - x := by linarith
    nlinarith [mul_nonneg hB hx.le, mul_nonneg hB hB, mul_nonneg hB hy2.le]

theorem sqrtLoop_exit_of_close (x tol B : ℚ) (n : ℕ) (y : ℚ) (hx : 0 < x) (hy : 0 < y)
    (htol : 0 < tol) (hlo : x ≤ y ^ 2) (hhi : y ^ 2 ≤ (1 + B) * x)
    (hsmall : x * B ^ 2 < 4 * tol ^ 2) :
    (sqrtLoop x tol (n + 1) y).2 = true := by
  have hy2 : 0 < y ^ 2 := by positivity
  have hd : y - 0.5 * (y + x / y) = (y ^ 2 - x) / (2 * y) := by
    field_simp; ring
  have hd0 : 0 ≤ (y ^ 2 - x) / (2 * y) := div_nonneg (by linarith) (by positivity)
  have hstop : |y - 0.5 * (y + x / y)| < tol := by
    rw [hd, abs_of_nonneg hd0, div_lt_iff₀ (by positivity)]
    have h1 : y ^ 2 - x ≤ B * x := by linarith
    have h0 : 0 ≤ y ^ 2 - x := by linarith
    have h2 : (y ^ 2 - x) ^ 2 ≤ (B * x) ^ 2 := pow_le_pow_left₀ h0 h1 2
    have h3 : (B * x) ^ 2 < (tol * (2 * y)) ^ 2 := by
      have : (B * x) ^ 2 = x * (x * B ^ 2) := by ring
      have h4 : x * (x * B ^ 2) < x * (4 * tol ^ 2) := mul_lt_mul_of_pos_left hsmall hx
      have h5 : x * (4 * tol ^ 2) ≤ y ^ 2 * (4 * tol ^ 2) :=
        mul_le_mul_of_nonneg_right hlo (by positivity)
      nlinarith
    have h6 : (y ^ 2 - x) ^ 2 < (tol * (2 * y)) ^ 2 := lt_of_le_of_lt h2 h3
    exact lt_of_pow_lt_pow_left₀ 2 (by positivity) h6
  rw [sqrtLoop_stop x tol n y _ rfl hstop]

theorem sqrtLoop_exit_of_over (x tol : ℚ) (hx : 0 < x) (htol : 0 < tol) :
    ∀ (k : ℕ) (B y : ℚ), 0 < y → x ≤ y ^ 2 → y ^ 2 ≤ (1 + B) * x →
      x * (B / 4 ^ k) ^ 2 < 4 * tol ^ 2 → (sqrtLoop x tol (k + 1) y).2 = true := by
  intro k
  induction k with
  | zero =>
    intro B y hy hlo hhi hsmall
    exact sqrtLoop_exit_of_close x tol B 0 y hx hy htol hlo hhi (by simpa using hsmall)
  | succ k ih =>
    intro B y hy hlo hhi hsmall
    apply sqrtLoop_exit_of_next
    have hstep := newton_over_step x y B hx hy hlo hhi
    refine ih (B / 4) _ (newton_step_pos x y hx hy) hstep.1 hstep.2 ?_
    have : B / 4 / 4 ^ k = B / 4 ^ (k + 1) := by
      rw [div_div, pow_succ, mul_comm]
    rw [this]
    exact hsmall

/-- C4: for every `x` with `1e-6 ≤ x ≤ 1e6`, `sqrt(x, 0.001)` returns through its
tolerance test within the 25 passes: the loop never leaves by the exhausted counter. -/
theorem sqrt_converges_in_range (x : ℚ) (hlo : 1e-6 ≤ x) (hhi : x ≤ 1e6) :
    (sqrtLoop x 0.001 25 x).2 = true := by
  have hx : 0 < x := lt_of_lt_of_le (by norm_num) hlo
  apply sqrtLoop_exit_of_next
  have hy1 : 0 < 0.5 * (x + x / x) := newton_step_pos x x hx hx
  have hval : 0.5 * (x + x / x) = (x + 1) / 2 := by
    rw [div_self hx.ne']; norm_num; ring
  rw [hval] at hy1 ⊢
  have hprod : 0 ≤ (x - 1e-6) * (1e6 - x) := mul_nonneg (by linarith) (by linarith)
  refine sqrtLoop_exit_of_over x 0.001 hx (by norm_num) 23 250000 _ hy1 ?_ ?_ ?_
  · nlinarith [sq_nonneg (x - 1)]
  · norm_num at hprod ⊢
    nlinarith
  · have : x * (250000 / 4 ^ 23) ^ 2 ≤ 1e6 * (250000 / 4 ^ 23) ^ 2 :=
      mul_le_mul_of_nonneg_right hhi (by positivity)
    refine lt_of_le_of_lt this ?_
    norm_num

/-- C4 at `x = 4`: `sqrt(4, 0.001)` leaves its loop through the tolerance test. -/
theorem sqrt_converges_in_range_witness : (sqrtLoop 4 0.001 25 4).2 = true :=
  sqrt_converges_in_range 4 (by norm_num) (by norm_num)

/-! ## Range reduction -/

/-- One pass of each reduction loop: `wrapDown` returns its argument when the loop test
`value > pi` fails and otherwise goes on from `value - 2 * pi`; likewise `wrapUp`. -/
theorem wrap_unfold (c : MathConsts) (v : ℚ) :
    (v ≤ c.pi → wrapDown c v = v) ∧
      (c.pi < v → wrapDown c v = wrapDown c (v - 2 * c.pi)) ∧
      (-c.pi ≤ v → wrapUp c v = v) ∧
      (v < -c.pi → wrapUp c v = wrapUp c (v + 2 * c.pi)) := by
  refine ⟨fun h => ?_, fun h => ?_, fun h => ?_, fun h => ?_⟩
  · rw [wrapDown, if_neg (not_lt.mpr h)]
  · rw [wrapDown, if_pos h]
  · rw [wrapUp, if_neg (not_lt.mpr h)]
  · rw [wrapUp, if_pos h]

/-- The first loop leaves a value that is at most `pi`, above `-pi` when the loop ran at
all, and a whole number of periods away from its argument. -/
theorem wrapDown_spec (c : MathConsts) (v : ℚ) :
    wrapDown c v ≤ c.pi ∧ (c.pi < v → -c.pi < wrapDown c v) ∧
      ∃ k : ℤ, wrapDown c v = v + k * (2 * c.pi) := by
  induction v using wrapDown.induct c with
  | case1 v h ih =>
    rw [(wrap_unfold c v).2.1 h]
    refine ⟨ih.1, fun _ => ?_, ?_⟩
    · by_cases h2 : c.pi < v - 2 * c.pi
      · exact ih.2.1 h2
      · rw [(wrap_unfold c _).1 (not_lt.mp h2)]; linarith
    · obtain ⟨k, hk⟩ := ih.2.2
      exact ⟨k - 1, by rw [hk]; push_cast; ring⟩
  | case2 v h =>
    rw [(wrap_unfold c v).1 (not_lt.mp h)]
    exact ⟨not_lt.mp h, fun hv => absurd hv h, 0, by simp⟩

/-- The second loop leaves a value that is at least `-pi`, below `pi` when the loop ran at
all, and a whole number of periods away from its argument. -/
theorem wrapUp_spec (c : MathConsts) (v : ℚ) :
    -c.pi ≤ wrapUp c v ∧ (v < -c.pi → wrapUp c v < c.pi) ∧
      ∃ k : ℤ, wrapUp c v = v + k * (2 * c.pi) := by
  induction v using wrapUp.induct c with
  | case1 v h ih =>
    rw [(wrap_unfold c v).2.2.2 h]
    refine ⟨ih.1, fun _ => ?_, ?_⟩
    · by_cases h2 : v + 2 * c.pi < -c.pi
      · exact ih.2.1 h2
      · rw [(wrap_unfold c _).2.2.1 (not_lt.mp h2)]; linarith
    · obtain ⟨k, hk⟩ := ih.2.2
      exact ⟨k + 1, by rw [hk]; push_cast; ring⟩
  | case2 v h =>
    rw [(wrap_unfold c v).2.2.1 (not_lt.mp h)]
    exact ⟨not_lt.mp h, fun hv => absurd hv h, 0, by simp⟩

theorem reduce_of_mem (c : MathConsts) (v : ℚ) (hlo : -c.pi ≤ v) (hhi : v ≤ c.pi) :
    wrapUp c (wrapDown c v) = v := by
  rw [(wrap_unfold c v).1 hhi, (wrap_unfold c v).2.2.1 hlo]

theorem reduce_range (c : MathConsts) (x : ℚ) :
    -c.pi ≤ wrapUp c (wrapDown c x) ∧ wrapUp c (wrapDown c x) ≤ c.pi := by
  refine ⟨(wrapUp_spec c _).1, ?_⟩
  by_cases h : wrapDown c x < -c.pi
  · exact ((wrapUp_spec c _).2.1 h).le
  · rw [(wrap_unfold c _).2.2.1 (not_lt.mp h)]; exact (wrapDown_spec c x).1

/-- The five-term sine series and the six-term cosine series written out, over any field
of characteristic zero. -/
theorem series_expand (K : Type) [Field K] [CharZero K] (v : K) :
    sinSeries 5 v = v - v ^ 3 / 6 + v ^ 5 / 120 - v ^ 7 / 5040 + v ^ 9 / 362880 ∧
      cosSeries 6 v = 1 - v ^ 2 / 2 + v ^ 4 / 24 - v ^ 6 / 720 + v ^ 8 / 40320
        - v ^ 10 / 3628800 := by
  constructor
  · simp only [sinSeries]
    norm_num [Nat.factorial]
    ring
  · simp only [cosSeries]
    norm_num [Nat.factorial]
    ring

/-- The library `sin` is the five-term series at the reduced value, and the library `cos`
the six-term series at the reduced value, snapped to `0` below `1e-6`. -/
theorem sin_cos_eq_series (c : MathConsts) (x : ℚ) :
    sin c x = sinSeries 5 (wrapUp c (wrapDown c x)) ∧
      cos c x = (if |cosSeries 6 (wrapUp c (wrapDown c x))| < 1e-6 then 0
        else cosSeries 6 (wrapUp c (wrapDown c x))) := by
  constructor
  · rw [(series_expand ℚ _).1]
    simp only [sin]
    ring
  · rw [(series_expand ℚ _).2]
    simp only [cos]
    have h : ∀ v : ℚ, 1 - v * v / 2 + v * v * v * v / (2 * 3 * 4)
        - v * v * v * v * v * v / (2 * 3 * 4 * 5 * 6)
        + v * v * v * v * v * v * v * v / (2 * 3 * 4 * 5 * 6 * 7 * 8)
        - v * v * v * v * v * v * v * v * v * v / (2 * 3 * 4 * 5 * 6 * 7 * 8 * 9 * 10)
        = 1 - v ^ 2 / 2 + v ^ 4 / 24 - v ^ 6 / 720 + v ^ 8 / 40320 - v ^ 10 / 3628800 := by
      intro v; ring
    rw [h]

/-- Both library functions only see the reduced value. -/
theorem sin_cos_reduce (c : MathConsts) (x : ℚ) :
    sin c (wrapUp c (wrapDown c x)) = sin c x ∧ cos c (wrapUp c (wrapDown c x)) = cos c x := by
  have h := reduce_range c x
  rw [(sin_cos_eq_series c _).1, (sin_cos_eq_series c _).2, (sin_cos_eq_series c x).1,
    (sin_cos_eq_series c x).2, reduce_of_mem c _ h.1 h.2]
  exact ⟨rfl, rfl⟩

theorem pow_sandwich (a b h : ℚ) (ha : 0 ≤ a) (hah : a ≤ h) (hhb : h ≤ b) (n : ℕ) :
    a ^ n ≤ h ^ n ∧ h ^ n ≤ b ^ n :=
  ⟨pow_le_pow_left₀ ha hah n, pow_le_pow_left₀ (ha.trans hah) hhb n⟩

/-- Near `pi/2` the six-term cosine polynomial is within `1e-6` of `0` and the five-term
sine polynomial is positive. -/
theorem series_half_pi (h : ℚ) (hlo : 1.5707963 ≤ h) (hhi : h ≤ 1.57079635) :
    |cosSeries 6 h| < 1e-6 ∧ 0 < sinSeries 5 h := by
  have h2 := pow_sandwich 1.5707963 1.57079635 h (by norm_num) hlo hhi 2
  have h3 := pow_sandwich 1.5707963 1.57079635 h (by norm_num) hlo hhi 3
  have h4 := pow_sandwich 1.5707963 1.57079635 h (by norm_num) hlo hhi 4
  have h5 := pow_sandwich 1.5707963 1.57079635 h (by norm_num) hlo hhi 5
  have h6 := pow_sandwich 1.5707963 1.57079635 h (by norm_num) hlo hhi 6
  have h7 := pow_sandwich 1.5707963 1.57079635 h (by norm_num) hlo hhi 7
  have h8 := pow_sandwich 1.5707963 1.57079635 h (by norm_num) hlo hhi 8
  have h9 := pow_sandwich 1.5707963 1.57079635 h (by norm_num) hlo hhi 9
  have h10 := pow_sandwich 1.5707963 1.57079635 h (by norm_num) hlo hhi 10
  rw [(series_expand ℚ _).1, (series_expand ℚ _).2, abs_lt]
  norm_num at h2 h3 h4 h5 h6 h7 h8 h9 h10 ⊢
  refine ⟨⟨?_, ?_⟩, ?_⟩
  · linarith [h2.1, h2.2, h4.1, h4.2, h6.1, h6.2, h8.1, h8.2, h10.1, h10.2]
  · linarith [h2.1, h2.2, h4.1, h4.2, h6.1, h6.2, h8.1, h8.2, h10.1, h10.2]
  · linarith [h3.1, h3.2, h5.1, h5.2, h7.1, h7.2, h9.1, h9.2]

/-- C9: `tan(pi/2)` returns `+infinity`.  At the reduced value `pi/2` the six-term cosine
polynomial has magnitude below `1e-6`, so `cos` returns exactly `0`; the five-term sine
polynomial is positive; and `tan` takes its pole branch with the positive sign. -/
theorem tan_half_pi (c : MathConsts) (hlo : 3.1415926 ≤ c.pi) (hhi : c.pi ≤ 3.1415927) :
    tan c (c.pi / 2) = TanResult.posInf ∧
      |cosSeries 6 (wrapUp c (wrapDown c (c.pi / 2)))| < 1e-6 ∧
      cos c (c.pi / 2) = 0 ∧ 0 < sin c (c.pi / 2) := by
  have hpi := c.pi_pos
  have r1 : wrapUp c (wrapDown c (c.pi / 2)) = c.pi / 2 :=
    reduce_of_mem c (c.pi / 2) (by linarith) (by linarith)
  have hsc := series_half_pi (c.pi / 2) (by norm_num at hlo ⊢; linarith)
    (by norm_num at hhi ⊢; linarith)
  have hcos : cos c (c.pi / 2) = 0 := by
    rw [(sin_cos_eq_series c _).2, r1, if_pos hsc.1]
  have hsin : 0 < sin c (c.pi / 2) := by
    rw [(sin_cos_eq_series c _).1, r1]; exact hsc.2
  refine ⟨?_, by rw [r1]; exact hsc.1, hcos, hsin⟩
  simp only [tan]
  rw [r1, if_pos hcos, if_pos hsin]

/-- C9 for the constant table with `pi = 3.141592653589793`. -/
theorem tan_half_pi_witness : tan stdConsts (stdConsts.pi / 2) = TanResult.posInf :=
  (tan_half_pi stdConsts (by norm_num [stdConsts]) (by norm_num [stdConsts])).1

/-! ## Real analysis: monotonicity from the sign of the derivative -/

theorem le_of_deriv_nonneg (g g' : ℝ → ℝ) (hg : ∀ x, HasDerivAt g (g' x) x) (a b : ℝ)
    (hsign : ∀ x, a < x → x < b → 0 ≤ g' x) (x y : ℝ) (hax : a ≤ x) (hxy : x ≤ y)
    (hyb : y ≤ b) : g x ≤ g y := by
  have hmono : MonotoneOn g (Set.Icc a b) := by
    apply monotoneOn_of_deriv_nonneg (convex_Icc a b)
    · exact fun z _ => (hg z).continuousAt.continuousWithinAt
    · exact fun z _ => (hg z).differentiableAt.differentiableWithinAt
    · intro z hz
      rw [interior_Icc] at hz
      rw [(hg z).deriv]
      exact hsign z hz.1 hz.2
  exact hmono ⟨hax, hxy.trans hyb⟩ ⟨hax.trans hxy, hyb⟩ hxy

/-- The partial sums differentiate into each other: `(sinSeries n)' = cosSeries n` and
`(cosSeries (n+1))' = -sinSeries n`; and their values at `0` are `0` and `1`. -/
theorem series_deriv (n : ℕ) (x : ℝ) :
    HasDerivAt (fun t : ℝ => sinSeries n t) (cosSeries n x) x ∧
      HasDerivAt (fun t : ℝ => cosSeries (n + 1) t) (-sinSeries n x) x ∧
      sinSeries n (0 : ℝ) = 0 ∧ cosSeries (n + 1) (0 : ℝ) = 1 := by
  have hsin : ∀ m : ℕ, HasDerivAt (fun t : ℝ => sinSeries m t) (cosSeries m x) x := by
    intro m
    induction m with
    | zero => simpa [sinSeries, cosSeries] using hasDerivAt_const x (0 : ℝ)
    | succ n ih =>
      have hp : HasDerivAt
          (fun t : ℝ => (-1) ^ n * t ^ (2 * n + 1) / ((2 * n + 1).factorial : ℝ))
          ((-1) ^ n * x ^ (2 * n) / ((2 * n).factorial : ℝ)) x := by
        have h1 := ((hasDerivAt_pow (2 * n + 1) x).const_mul ((-1 : ℝ) ^ n)).div_const
          ((2 * n + 1).factorial : ℝ)
        convert h1 using 1
        rw [Nat.factorial_succ]
        have hf : ((2 * n).factorial : ℝ) ≠ 0 := Nat.cast_ne_zero.mpr (Nat.factorial_ne_zero _)
        have hn : ((2 * n + 1 : ℕ) : ℝ) ≠ 0 := Nat.cast_ne_zero.mpr (Nat.succ_ne_zero _)
        push_cast
        field_simp
        ring
      simpa [sinSeries, cosSeries] using ih.add hp
  have hcos : ∀ m : ℕ, HasDerivAt (fun t : ℝ => cosSeries (m + 1) t) (-sinSeries m x) x := by
    intro m
    induction m with
    | zero => simpa [sinSeries, cosSeries] using hasDerivAt_const x (1 : ℝ)
    | succ n ih =>
      have hp : HasDerivAt
          (fun t : ℝ => (-1) ^ (n + 1) * t ^ (2 * n + 1 + 1) / ((2 * n + 1 + 1).factorial : ℝ))
          (-((-1) ^ n * x ^ (2 * n + 1) / ((2 * n + 1).factorial : ℝ))) x := by
        have h1 := ((hasDerivAt_pow (2 * n + 1 + 1) x).const_mul
          ((-1 : ℝ) ^ (n + 1))).div_const ((2 * n + 1 + 1).factorial : ℝ)
        convert h1 using 1
        rw [Nat.factorial_succ (2 * n + 1)]
        have hf : ((2 * n + 1).factorial : ℝ) ≠ 0 :=
          Nat.cast_ne_zero.mpr (Nat.factorial_ne_zero _)
        have hn : ((2 * n + 1 + 1 : ℕ) : ℝ) ≠ 0 := Nat.cast_ne_zero.mpr (Nat.succ_ne_zero _)
        push_cast
        field_simp
        ring
      have hsum := ih.add hp
      have e : -sinSeries (n + 1) x
          = -sinSeries n x + -((-1) ^ n * x ^ (2 * n + 1) / ((2 * n + 1).factorial : ℝ)) := by
        simp only [sinSeries]; ring
      rw [e]
      exact hsum
  have hs0 : ∀ m : ℕ, sinSeries m (0 : ℝ) = 0 := by
    intro m
    induction m with
    | zero => rfl
    | succ n ih => simp [sinSeries, ih]
  have hc0 : ∀ m : ℕ, cosSeries (m + 1) (0 : ℝ) = 1 := by
    intro m
    induction m with
    | zero => simp [cosSeries]
    | succ n ih => rw [cosSeries, ih]; simp
  exact ⟨hsin n, hcos n, hs0 n, hc0 n⟩

/-- Alternating Taylor bounds: for `x ≥ 0`, `sin x` and `cos x` lie on the side of their
`n`-term partial sums given by the parity of `n` (`n ≥ 1`). -/
theorem taylor_alternating (n : ℕ) :
    (∀ x : ℝ, 0 ≤ x → 0 ≤ (-1) ^ (n + 1) * (Real.cos x - cosSeries (n + 1) x)) ∧
      (∀ x : ℝ, 0 ≤ x → 0 ≤ (-1) ^ (n + 1) * (Real.sin x - sinSeries (n + 1) x)) := by
  induction n with
  | zero =>
    have hcos : ∀ x : ℝ, 0 ≤ x → 0 ≤ (-1) ^ (0 + 1) * (Real.cos x - cosSeries (0 + 1) x) := by
      intro x _
      have := Real.cos_le_one x
      simp [cosSeries]
      linarith
    refine ⟨hcos, ?_⟩
    intro x hx
    have h := le_of_deriv_nonneg
      (fun t => (-1) ^ (0 + 1) * (Real.sin t - sinSeries (0 + 1) t))
      (fun t => (-1) ^ (0 + 1) * (Real.cos t - cosSeries (0 + 1) t))
      (fun t => ((Real.hasDerivAt_sin t).sub (series_deriv (0 + 1) t).1).const_mul _)
      0 x (fun t ht _ => hcos t ht.le) 0 x (le_refl _) hx (le_refl _)
    simp only [Real.sin_zero, (series_deriv _ 0).2.2.1, sub_zero, mul_zero] at h
    exact h
  | succ n ih =>
    have hcos : ∀ x : ℝ, 0 ≤ x →
        0 ≤ (-1) ^ (n + 1 + 1) * (Real.cos x - cosSeries (n + 1 + 1) x) := by
      intro x hx
      have h := le_of_deriv_nonneg
        (fun t => (-1) ^ (n + 1 + 1) * (Real.cos t - cosSeries (n + 1 + 1) t))
        (fun t => (-1) ^ (n + 1 + 1) * (-Real.sin t - -sinSeries (n + 1) t))
        (fun t => ((Real.hasDerivAt_cos t).sub (series_deriv (n + 1) t).2.1).const_mul _)
        0 x (fun t ht _ => by
          have := ih.2 t ht.le
          have e : (-1 : ℝ) ^ (n + 1 + 1) * (-Real.sin t - -sinSeries (n + 1) t)
              = (-1) ^ (n + 1) * (Real.sin t - sinSeries (n + 1) t) := by
            rw [pow_succ (-1 : ℝ) (n + 1)]; ring
          beta_reduce
          rw [e]; exact this) 0 x (le_refl _) hx (le_refl _)
      simp only [Real.cos_zero, (series_deriv _ 0).2.2.2, sub_self, mul_zero] at h
      exact h
    refine ⟨hcos, ?_⟩
    intro x hx
    have h := le_of_deriv_nonneg
      (fun t => (-1) ^ (n + 1 + 1) * (Real.sin t - sinSeries (n + 1 + 1) t))
      (fun t => (-1) ^ (n + 1 + 1) * (Real.cos t - cosSeries (n + 1 + 1) t))
      (fun t => ((Real.hasDerivAt_sin t).sub (series_deriv (n + 1 + 1) t).1).const_mul _)
      0 x (fun t ht _ => hcos t ht.le) 0 x (le_refl _) hx (le_refl _)
    simp only [Real.sin_zero, (series_deriv _ 0).2.2.1, sub_zero, mul_zero] at h
    exact h

/-! ## Error of the sine and cosine polynomials -/

/-- The longer partial sums in terms of the library's: the next terms of each series; and
the cast of the rational polynomials to the reals. -/
theorem series_tails (v : ℝ) (x : ℚ) :
    sinSeries 6 v = sinSeries 5 v - v ^ 11 / 39916800 ∧
      sinSeries 8 v = sinSeries 5 v - v ^ 11 / 39916800 + v ^ 13 / 6227020800
        - v ^ 15 / 1307674368000 ∧
      cosSeries 7 v = cosSeries 6 v + v ^ 12 / 479001600 ∧
      ((sinSeries 5 x : ℚ) : ℝ) = sinSeries 5 (x : ℝ) ∧
      ((cosSeries 6 x : ℚ) : ℝ) = cosSeries 6 (x : ℝ) := by
  refine ⟨?_, ?_, ?_, ?_, ?_⟩
  · simp only [sinSeries]
    norm_num [Nat.factorial]
    ring
  · simp only [sinSeries]
    norm_num [Nat.factorial]
    ring
  · simp only [cosSeries]
    norm_num [Nat.factorial]
  · rw [(series_expand ℚ _).1, (series_expand ℝ _).1]; push_cast; ring
  · rw [(series_expand ℚ _).2, (series_expand ℝ _).2]; push_cast; ring

/-- Truncation error of the five-term sine polynomial up to `3.1415927`. -/
theorem sinSeries_error (x : ℝ) (hx : |x| ≤ 3.1415927) :
    |sinSeries 5 x - Real.sin x| ≤ 0.00696 := by
  have htail : ∀ lo hi t : ℝ, 0 ≤ lo → lo ≤ t → t ≤ hi →
      t ^ 11 / 39916800 - t ^ 13 / 6227020800 + t ^ 15 / 1307674368000
        ≤ hi ^ 11 / 39916800 - lo ^ 13 / 6227020800 + hi ^ 15 / 1307674368000 := by
    intro lo hi t hlo0 hlo hhi
    have h11 : t ^ 11 ≤ hi ^ 11 := pow_le_pow_left₀ (hlo0.trans hlo) hhi 11
    have h13 : lo ^ 13 ≤ t ^ 13 := pow_le_pow_left₀ hlo0 hlo 13
    have h15 : t ^ 15 ≤ hi ^ 15 := pow_le_pow_left₀ (hlo0.trans hlo) hhi 15
    linarith
  have hpos : ∀ t : ℝ, 0 ≤ t → t ≤ 3.1415927 →
      0 ≤ sinSeries 5 t - Real.sin t ∧ sinSeries 5 t - Real.sin t ≤ 0.00696 := by
    intro t ht0 ht
    have hup := (taylor_alternating 4).2 t ht0
    have hdn := (taylor_alternating 7).2 t ht0
    rw [(series_tails t 0).2.1] at hdn
    norm_num at hup hdn
    refine ⟨by linarith, ?_⟩
    have hle : t ^ 11 / 39916800 - t ^ 13 / 6227020800 + t ^ 15 / 1307674368000
        ≤ 0.00696 := by
      rcases le_total t 3.1 with h1 | h1
      · refine (htail 0 3.1 t (le_refl _) ht0 h1).trans ?_
        norm_num
      · rcases le_total t 3.14 with h2 | h2
        · refine (htail 3.1 3.14 t (by norm_num) h1 h2).trans ?_
          norm_num
        · refine (htail 3.14 3.1415927 t (by norm_num) h2 ht).trans ?_
          norm_num
    linarith
  rcases le_total 0 x with h0 | h0
  · have := hpos x h0 (by rwa [abs_of_nonneg h0] at hx)
    rw [abs_of_nonneg this.1]; exact this.2
  · have := hpos (-x) (by linarith) (by rwa [abs_of_nonpos h0] at hx)
    have e : sinSeries 5 (-x) - Real.sin (-x) = -(sinSeries 5 x - Real.sin x) := by
      rw [Real.sin_neg, (series_expand ℝ _).1, (series_expand ℝ _).1]; ring
    rw [e] at this
    rw [abs_of_nonpos (by linarith [this.1])]; exact this.2

/-- Truncation error of the six-term cosine polynomial up to `3.1415927`. -/
theorem cosSeries_error (x : ℝ) (hx : |x| ≤ 3.1415927) :
    |Real.cos x - cosSeries 6 x| ≤ 0.00193 := by
  have hpos : ∀ t : ℝ, 0 ≤ t → t ≤ 3.1415927 →
      0 ≤ Real.cos t - cosSeries 6 t ∧ Real.cos t - cosSeries 6 t ≤ 0.00193 := by
    intro t ht0 ht
    have hdn := (taylor_alternating 5).1 t ht0
    have hup := (taylor_alternating 6).1 t ht0
    rw [(series_tails t 0).2.2.1] at hup
    norm_num at hup hdn
    refine ⟨by linarith, ?_⟩
    have h12 : t ^ 12 ≤ (3.1415927 : ℝ) ^ 12 := pow_le_pow_left₀ ht0 ht 12
    have : (3.1415927 : ℝ) ^ 12 / 479001600 ≤ 0.00193 := by norm_num
    linarith
  rcases le_total 0 x with h0 | h0
  · have := hpos x h0 (by rwa [abs_of_nonneg h0] at hx)
    rw [abs_of_nonneg this.1]; exact this.2
  · have := hpos (-x) (by linarith) (by rwa [abs_of_nonpos h0] at hx)
    have e : Real.cos (-x) - cosSeries 6 (-x) = Real.cos x - cosSeries 6 x := by
      rw [Real.cos_neg, (series_expand ℝ _).2, (series_expand ℝ _).2]; ring
    rw [e] at this
    rw [abs_of_nonneg this.1]; exact this.2

theorem pythagoras_perturbed (s k S C : ℝ) (hone : s ^ 2 + k ^ 2 = 1)
    (hs : |S - s| ≤ 0.007) (hc : |C - k| ≤ 0.002) : |S ^ 2 + C ^ 2 - 1| ≤ 0.02 := by
  have hs1 : |s| ≤ 1 := by
    rw [← abs_one, ← sq_le_sq]; nlinarith [sq_nonneg k]
  have hk1 : |k| ≤ 1 := by
    rw [← abs_one, ← sq_le_sq]; nlinarith [sq_nonneg s]
  have e : S ^ 2 + C ^ 2 - 1
      = 2 * (s * (S - s)) + (S - s) ^ 2 + 2 * (k * (C - k)) + (C - k) ^ 2 := by
    linear_combination hone
  have h1 : |s * (S - s)| ≤ 1 * 0.007 := by
    rw [abs_mul]; exact mul_le_mul hs1 hs (abs_nonneg _) (by norm_num)
  have h2 : |k * (C - k)| ≤ 1 * 0.002 := by
    rw [abs_mul]; exact mul_le_mul hk1 hc (abs_nonneg _) (by norm_num)
  have h3 : (S - s) ^ 2 ≤ 0.007 ^ 2 := by
    rw [← sq_abs]; exact pow_le_pow_left₀ (abs_nonneg _) hs 2
  have h4 : (C - k) ^ 2 ≤ 0.002 ^ 2 := by
    rw [← sq_abs]; exact pow_le_pow_left₀ (abs_nonneg _) hc 2
  have h1' := abs_le.mp h1
  have h2' := abs_le.mp h2
  rw [e, abs_le]
  constructor <;> norm_num at h1' h2' h3 h4 ⊢ <;>
    linarith [sq_nonneg (S - s), sq_nonneg (C - k), h1'.1, h1'.2, h2'.1, h2'.2]

/-- Error of the library sine and cosine on `[-pi, pi]`, where no reduction happens. -/
theorem sin_cos_error_core (c : MathConsts) (x : ℚ) (hpi : c.pi ≤ 3.1415927)
    (hlo : -c.pi ≤ x) (hhi : x ≤ c.pi) :
    |((sin c x : ℚ) : ℝ) - Real.sin (x : ℝ)| ≤ 0.00696 ∧
      |((cos c x : ℚ) : ℝ) - Real.cos (x : ℝ)| ≤ 0.002 := by
  have hred := reduce_of_mem c x hlo hhi
  have hxR : |(x : ℝ)| ≤ 3.1415927 := by
    have h1 : ((x : ℚ) : ℝ) ≤ ((3.1415927 : ℚ) : ℝ) := Rat.cast_le.mpr (hhi.trans hpi)
    have h2 : ((-3.1415927 : ℚ) : ℝ) ≤ ((x : ℚ) : ℝ) := Rat.cast_le.mpr (by linarith)
    rw [abs_le]
    constructor
    · refine le_trans (le_of_eq ?_) h2; norm_num
    · refine le_trans h1 (le_of_eq ?_); norm_num
  constructor
  · rw [(sin_cos_eq_series c x).1, hred, (series_tails 0 x).2.2.2.1]
    exact sinSeries_error (x : ℝ) hxR
  · have herr := abs_le.mp (cosSeries_error (x : ℝ) hxR)
    rw [(sin_cos_eq_series c x).2, hred]
    by_cases hsnap : |cosSeries 6 x| < 1e-6
    · rw [if_pos hsnap]
      have hs : ((|cosSeries 6 x| : ℚ) : ℝ) < ((1e-6 : ℚ) : ℝ) := Rat.cast_lt.mpr hsnap
      rw [Rat.cast_abs, (series_tails 0 x).2.2.2.2] at hs
      have hs2 := abs_lt.mp hs
      rw [abs_le]
      constructor <;> push_cast <;> norm_num at hs2 herr ⊢ <;>
        linarith [hs2.1, hs2.2, herr.1, herr.2]
    · rw [if_neg hsnap, (series_tails 0 x).2.2.2.2, abs_le]
      constructor <;> norm_num at herr ⊢ <;> linarith [herr.1, herr.2]

/-- The error of the library sine one period away from `[-pi, pi]`: when the reduced value
is `x + s * 2 * pi` (`s = 1` or `s = -1`), `sin(x)` is computed there and is within `0.007`
of the true sine of `x`. -/
theorem sin_error_shifted (c : MathConsts) (x : ℚ) (hlo : 3.1415926 ≤ c.pi)
    (hhi : c.pi ≤ 3.1415927) (s : ℤ) (hs : s = 1 ∨ s = -1)
    (hred : wrapUp c (wrapDown c x) = x + s * (2 * c.pi)) :
    |((sin c x : ℚ) : ℝ) - Real.sin (x : ℝ)| ≤ 0.007 := by
  have hlip : ∀ a b : ℝ, |Real.sin a - Real.sin b| ≤ |a - b| := by
    intro a b
    rw [Real.sin_sub_sin, abs_mul, abs_mul]
    have h1 : |Real.sin ((a - b) / 2)| ≤ |(a - b) / 2| := Real.abs_sin_le_abs
    have h2 : |Real.cos ((a + b) / 2)| ≤ 1 := Real.abs_cos_le_one _
    have h3 : |(a - b) / 2| = |a - b| / 2 := by
      rw [abs_div, abs_of_pos (by norm_num : (0 : ℝ) < 2)]
    rw [h3] at h1
    have h4 : |(2 : ℝ)| = 2 := abs_of_pos (by norm_num)
    rw [h4]
    calc 2 * |Real.sin ((a - b) / 2)| * |Real.cos ((a + b) / 2)|
        ≤ 2 * (|a - b| / 2) * 1 := by
          apply mul_le_mul _ h2 (abs_nonneg _) (by positivity)
          linarith
      _ = |a - b| := by ring
  have hnear : |2 * Real.pi - 2 * (c.pi : ℝ)| ≤ 0.000002 := by
    have hp1 := Real.pi_gt_d6
    have hp2 := Real.pi_lt_d6
    have hq1 : ((3.1415926 : ℚ) : ℝ) ≤ (c.pi : ℝ) := Rat.cast_le.mpr hlo
    have hq2 : (c.pi : ℝ) ≤ ((3.1415927 : ℚ) : ℝ) := Rat.cast_le.mpr hhi
    rw [abs_le]
    constructor <;> norm_num at hq1 hq2 hp1 hp2 ⊢ <;> linarith
  have hr := reduce_range c x
  rw [hred] at hr
  have hcore := (sin_cos_error_core c (x + s * (2 * c.pi)) hhi hr.1 hr.2).1
  have hsame : sin c (x + s * (2 * c.pi)) = sin c x := by
    rw [← hred]; exact (sin_cos_reduce c x).1
  rw [hsame] at hcore
  have hper : Real.sin (x : ℝ) = Real.sin ((x : ℝ) + s * (2 * Real.pi)) := by
    rw [Real.sin_add_int_mul_two_pi]
  have hdist : |(((x + s * (2 * c.pi) : ℚ)) : ℝ) - ((x : ℝ) + s * (2 * Real.pi))|
      ≤ 0.000002 := by
    have e : (((x + s * (2 * c.pi) : ℚ)) : ℝ) - ((x : ℝ) + s * (2 * Real.pi))
        = -((s : ℝ) * (2 * Real.pi - 2 * (c.pi : ℝ))) := by
      push_cast; ring
    rw [e, abs_neg, abs_mul]
    have hs1 : |(s : ℝ)| = 1 := by
      rcases hs with h | h <;> simp [h]
    rw [hs1, one_mul]
    exact hnear
  rw [hper]
  have h1 := abs_le.mp hcore
  have h2 := abs_le.mp ((hlip _ _).trans hdist)
  rw [abs_le]
  constructor <;> norm_num at h1 h2 ⊢ <;> linarith [h1.1, h1.2, h2.1, h2.2]

/-- C6: for every `x` of the open interval `(-π, π)`, whether `π` is read as the library
constant `pi` (then also at the two ends `x = ±pi`) or as the real number, the library
`sin(x)` differs from the true sine of `x` by at most `0.007`; and on `[-pi, pi]` it is the
five-term polynomial `x - x^3/3! + x^5/5! - x^7/7! + x^9/9!` of `x` itself. -/
theorem sin_error_bound (c : MathConsts) (x : ℚ) (hlo : 3.1415926 ≤ c.pi)
    (hhi : c.pi ≤ 3.1415927) (hx : (-c.pi ≤ x ∧ x ≤ c.pi) ∨ |(x : ℝ)| < Real.pi) :
    |((sin c x : ℚ) : ℝ) - Real.sin (x : ℝ)| ≤ 0.007 ∧
      (-c.pi ≤ x → x ≤ c.pi →
        sin c x = x - x ^ 3 / 6 + x ^ 5 / 120 - x ^ 7 / 5040 + x ^ 9 / 362880) := by
  have hpoly : -c.pi ≤ x → x ≤ c.pi →
      sin c x = x - x ^ 3 / 6 + x ^ 5 / 120 - x ^ 7 / 5040 + x ^ 9 / 362880 := by
    intro h1 h2
    rw [(sin_cos_eq_series c x).1, reduce_of_mem c x h1 h2, (series_expand ℚ _).1]
  refine ⟨?_, hpoly⟩
  have hin : -c.pi ≤ x → x ≤ c.pi → |((sin c x : ℚ) : ℝ) - Real.sin (x : ℝ)| ≤ 0.007 :=
    fun h1 h2 => (sin_cos_error_core c x hhi h1 h2).1.trans (by norm_num)
  rcases hx with ⟨h1, h2⟩ | hreal
  · exact hin h1 h2
  · have hp2 := Real.pi_lt_d6
    have habs := abs_lt.mp hreal
    have hxhi : x < 3.141593 := by
      have : (x : ℝ) < ((3.141593 : ℚ) : ℝ) := by
        refine lt_of_lt_of_le (lt_trans habs.2 hp2) (le_of_eq ?_); norm_num
      exact Rat.cast_lt.mp this
    have hxlo : -3.141593 < x := by
      have : ((-3.141593 : ℚ) : ℝ) < (x : ℝ) := by
        refine lt_of_le_of_lt (le_of_eq ?_) (lt_trans (neg_lt_neg hp2) habs.1); norm_num
      exact Rat.cast_lt.mp this
    by_cases hA : c.pi < x
    · apply sin_error_shifted c x hlo hhi (-1) (Or.inr rfl)
      rw [(wrap_unfold c x).2.1 hA,
        (wrap_unfold c _).1 (by norm_num at hxhi hlo ⊢; linarith),
        (wrap_unfold c _).2.2.1 (by linarith)]
      push_cast; ring
    · by_cases hB : x < -c.pi
      · apply sin_error_shifted c x hlo hhi 1 (Or.inl rfl)
        rw [(wrap_unfold c x).1 (not_lt.mp hA), (wrap_unfold c x).2.2.2 hB,
          (wrap_unfold c _).2.2.1 (by norm_num at hxlo hlo ⊢; linarith)]
        push_cast; ring
      · exact hin (not_lt.mp hB) (not_lt.mp hA)

/-- C6 at `x = 3`. -/
theorem sin_error_bound_witness :
    |((sin stdConsts 3 : ℚ) : ℝ) - Real.sin ((3 : ℚ) : ℝ)| ≤ 0.007 :=
  (sin_error_bound stdConsts 3 (by norm_num [stdConsts]) (by norm_num [stdConsts])
    (Or.inl ⟨by norm_num [stdConsts], by norm_num [stdConsts]⟩)).1

/-- C7: the library's `sin(x)^2 + cos(x)^2` is within `0.02` of `1`, whether or not `cos`
snapped its result to `0`.  It holds for every `x`, so for every `x` in `(-π, π)`: both
functions work on the reduced value, which is always in `[-pi, pi]`. -/
theorem sin_sq_add_cos_sq (c : MathConsts) (x : ℚ) (hpi : c.pi ≤ 3.1415927) :
    |sin c x ^ 2 + cos c x ^ 2 - 1| ≤ 0.02 := by
  have hr := reduce_range c x
  have hcore := sin_cos_error_core c _ hpi hr.1 hr.2
  have hsin := hcore.1.trans (by norm_num : (0.00696 : ℝ) ≤ 0.007)
  have hcos := hcore.2
  rw [(sin_cos_reduce c x).1] at hsin
  rw [(sin_cos_reduce c x).2] at hcos
  have hgoal := pythagoras_perturbed _ _ ((sin c x : ℚ) : ℝ) ((cos c x : ℚ) : ℝ)
    (Real.sin_sq_add_cos_sq ((wrapUp c (wrapDown c x) : ℚ) : ℝ)) hsin hcos
  have hcast : ((|sin c x ^ 2 + cos c x ^ 2 - 1| : ℚ) : ℝ) ≤ ((0.02 : ℚ) : ℝ) := by
    rw [Rat.cast_abs]
    push_cast
    refine hgoal.trans (le_of_eq ?_)
    norm_num
  exact Rat.cast_le.mp hcast

/-- C7 at `x = 3`. -/
theorem sin_sq_add_cos_sq_witness :
    |sin stdConsts 3 ^ 2 + cos stdConsts 3 ^ 2 - 1| ≤ 0.02 :=
  sin_sq_add_cos_sq stdConsts 3 (by norm_num [stdConsts])

/-! ## Real analysis: bounds on the arctangent -/

/-- A rational test for `a ≤ arctan v` and for `arctan v ≤ a` (`0 ≤ a ≤ 1`, `0 ≤ v`):
compare `tan a` with `v` through Taylor bounds of `sin a` and `cos a`. -/
theorem arctan_between_of_series (a v : ℝ) (ha0 : 0 ≤ a) (ha1 : a ≤ 1) (hv : 0 ≤ v) :
    (sinSeries 5 a ≤ v * cosSeries 6 a → a ≤ Real.arctan v) ∧
      (v * cosSeries 7 a ≤ sinSeries 6 a → Real.arctan v ≤ a) := by
  have hpi := Real.pi_gt_three
  have hcpos : 0 < Real.cos a := by
    apply Real.cos_pos_of_mem_Ioo
    constructor <;> linarith
  constructor
  · intro h
    have hsin := (taylor_alternating 4).2 a ha0
    have hcos := (taylor_alternating 5).1 a ha0
    norm_num at hsin hcos
    have htan : Real.tan a ≤ v := by
      rw [Real.tan_eq_sin_div_cos, div_le_iff₀ hcpos]
      have : v * cosSeries 6 a ≤ v * Real.cos a := mul_le_mul_of_nonneg_left hcos hv
      linarith
    have := Real.arctan_strictMono.monotone htan
    rwa [Real.arctan_tan (by linarith) (by linarith)] at this
  · intro h
    have hsin := (taylor_alternating 5).2 a ha0
    have hcos := (taylor_alternating 6).1 a ha0
    norm_num at hsin hcos
    have htan : v ≤ Real.tan a := by
      rw [Real.tan_eq_sin_div_cos, le_div_iff₀ hcpos]
      have : v * Real.cos a ≤ v * cosSeries 7 a := mul_le_mul_of_nonneg_left hcos hv
      linarith
    have := Real.arctan_strictMono.monotone htan
    rwa [Real.arctan_tan (by linarith) (by linarith)] at this

/-- The arctangent at the points where the branches of the library function meet or turn:
`arctan 0.76 ≥ 0.6498`, `0.7326 ≤ arctan 0.9 ≤ 0.733`, `arctan 0.91 ≤ 0.7385`. -/
theorem arctan_point_bounds :
    (0.6498 : ℝ) ≤ Real.arctan 0.76 ∧ (0.7326 : ℝ) ≤ Real.arctan 0.9 ∧
      Real.arctan 0.9 ≤ (0.733 : ℝ) ∧ Real.arctan 0.91 ≤ (0.7385 : ℝ) := by
  refine ⟨?_, ?_, ?_, ?_⟩
  · apply (arctan_between_of_series 0.6498 0.76 (by norm_num) (by norm_num) (by norm_num)).1
    rw [(series_expand ℝ _).1, (series_expand ℝ _).2]
    norm_num
  · apply (arctan_between_of_series 0.7326 0.9 (by norm_num) (by norm_num) (by norm_num)).1
    rw [(series_expand ℝ _).1, (series_expand ℝ _).2]
    norm_num
  · apply (arctan_between_of_series 0.733 0.9 (by norm_num) (by norm_num) (by norm_num)).2
    rw [(series_tails _ 0).1, (series_tails _ 0).2.2.1, (series_expand ℝ _).1,
      (series_expand ℝ _).2]
    norm_num
  · apply (arctan_between_of_series 0.7385 0.91 (by norm_num) (by norm_num) (by norm_num)).2
    rw [(series_tails _ 0).1, (series_tails _ 0).2.2.1, (series_expand ℝ _).1,
      (series_expand ℝ _).2]
    norm_num

theorem hasDerivAt_arctanPoly (t : ℝ) :
    HasDerivAt (fun t : ℝ => t - t ^ 3 / 3 + t ^ 5 / 5 - t ^ 7 / 7 + t ^ 9 / 9)
      (1 - t ^ 2 + t ^ 4 - t ^ 6 + t ^ 8) t := by
  have h := ((((hasDerivAt_id' t).sub ((hasDerivAt_pow 3 t).div_const 3)).add
    ((hasDerivAt_pow 5 t).div_const 5)).sub ((hasDerivAt_pow 7 t).div_const 7)).add
    ((hasDerivAt_pow 9 t).div_const 9)
  refine h.congr_deriv ?_
  norm_num

/-- Polynomial bounds on the arctangent for `v ≥ 0`: `v - v^3/3 ≤ arctan v ≤ v`, and the
five-term polynomial `P` of the library satisfies `arctan v ≤ P v ≤ arctan v + v^11/11`. -/
theorem arctan_poly_bounds (v : ℝ) (hv : 0 ≤ v) :
    Real.arctan v ≤ v ∧ v - v ^ 3 / 3 ≤ Real.arctan v ∧
      Real.arctan v ≤ v - v ^ 3 / 3 + v ^ 5 / 5 - v ^ 7 / 7 + v ^ 9 / 9 ∧
      (v - v ^ 3 / 3 + v ^ 5 / 5 - v ^ 7 / 7 + v ^ 9 / 9) - Real.arctan v ≤ v ^ 11 / 11 := by
  refine ⟨?_, ?_, ?_, ?_⟩
  · have h := le_of_deriv_nonneg (fun t => t - Real.arctan t) (fun t => 1 - 1 / (1 + t ^ 2))
      (fun t => (hasDerivAt_id' t).sub (Real.hasDerivAt_arctan t)) 0 v
      (fun t _ _ => by
        have : 1 / (1 + t ^ 2) ≤ 1 := by
          rw [div_le_iff₀ (by positivity)]; nlinarith [sq_nonneg t]
        linarith) 0 v (le_refl _) hv (le_refl _)
    simp only [Real.arctan_zero, sub_zero] at h
    linarith
  · have h := le_of_deriv_nonneg (fun t => Real.arctan t - (t - t ^ 3 / 3))
      (fun t => 1 / (1 + t ^ 2) - (1 - t ^ 2))
      (fun t => (Real.hasDerivAt_arctan t).sub
        (((hasDerivAt_id' t).sub ((hasDerivAt_pow 3 t).div_const 3)).congr_deriv
          (by norm_num)))
      0 v
      (fun t _ _ => by
        have : 1 - t ^ 2 ≤ 1 / (1 + t ^ 2) := by
          rw [le_div_iff₀ (by positivity)]; nlinarith [sq_nonneg t, sq_nonneg (t ^ 2)]
        linarith) 0 v (le_refl _) hv (le_refl _)
    norm_num at h
    linarith
  · have h := le_of_deriv_nonneg
      (fun t => (t - t ^ 3 / 3 + t ^ 5 / 5 - t ^ 7 / 7 + t ^ 9 / 9) - Real.arctan t)
      (fun t => (1 - t ^ 2 + t ^ 4 - t ^ 6 + t ^ 8) - 1 / (1 + t ^ 2))
      (fun t => (hasDerivAt_arctanPoly t).sub (Real.hasDerivAt_arctan t)) 0 v
      (fun t _ _ => by
        have : 1 / (1 + t ^ 2) ≤ 1 - t ^ 2 + t ^ 4 - t ^ 6 + t ^ 8 := by
          rw [div_le_iff₀ (by positivity)]
          have : 0 ≤ t ^ 10 := by positivity
          nlinarith
        linarith) 0 v (le_refl _) hv (le_refl _)
    norm_num at h
    linarith
  · have h := le_of_deriv_nonneg
      (fun t => t ^ 11 / 11 -
        ((t - t ^ 3 / 3 + t ^ 5 / 5 - t ^ 7 / 7 + t ^ 9 / 9) - Real.arctan t))
      (fun t => t ^ 10 - ((1 - t ^ 2 + t ^ 4 - t ^ 6 + t ^ 8) - 1 / (1 + t ^ 2)))
      (fun t => (((hasDerivAt_pow 11 t).div_const 11).congr_deriv (by norm_num)).sub
        ((hasDerivAt_arctanPoly t).sub (Real.hasDerivAt_arctan t))) 0 v
      (fun t _ _ => by
        have : (1 - t ^ 2 + t ^ 4 - t ^ 6 + t ^ 8) - t ^ 10 ≤ 1 / (1 + t ^ 2) := by
          rw [le_div_iff₀ (by positivity)]
          have : 0 ≤ t ^ 12 := by positivity
          nlinarith
        linarith) 0 v (le_refl _) hv (le_refl _)
    norm_num at h
    linarith

/-- Monotonicity of `β t + γ - α arctan t` on an interval where `α ≤ β (1 + t^2)`, and of
`α arctan t - (β t + γ)` on an interval where `β (1 + t^2) ≤ α`. -/
theorem lin_arctan_mono (α β γ a b x y : ℝ) (hax : a ≤ x) (hxy : x ≤ y) (hyb : y ≤ b) :
    ((∀ t, a < t → t < b → α ≤ β * (1 + t ^ 2)) →
        β * x + γ - α * Real.arctan x ≤ β * y + γ - α * Real.arctan y) ∧
      ((∀ t, a < t → t < b → β * (1 + t ^ 2) ≤ α) →
        α * Real.arctan x - (β * x + γ) ≤ α * Real.arctan y - (β * y + γ)) := by
  constructor
  · intro hsign
    exact le_of_deriv_nonneg (fun t => β * t + γ - α * Real.arctan t)
      (fun t => β * 1 - α * (1 / (1 + t ^ 2)))
      (fun t => (((hasDerivAt_id' t).const_mul β).add_const γ).sub
        ((Real.hasDerivAt_arctan t).const_mul α)) a b
      (fun t h1 h2 => by
        have hpos : (0 : ℝ) < 1 + t ^ 2 := by positivity
        have : α * (1 / (1 + t ^ 2)) ≤ β := by
          rw [mul_one_div, div_le_iff₀ hpos]; exact hsign t h1 h2
        linarith) x y hax hxy hyb
  · intro hsign
    exact le_of_deriv_nonneg (fun t => α * Real.arctan t - (β * t + γ))
      (fun t => α * (1 / (1 + t ^ 2)) - β * 1)
      (fun t => ((Real.hasDerivAt_arctan t).const_mul α).sub
        (((hasDerivAt_id' t).const_mul β).add_const γ)) a b
      (fun t h1 h2 => by
        have hpos : (0 : ℝ) < 1 + t ^ 2 := by positivity
        have : β ≤ α * (1 / (1 + t ^ 2)) := by
          rw [mul_one_div, le_div_iff₀ hpos]; exact hsign t h1 h2
        linarith) x y hax hxy hyb

/-- Passthrough and series branches: for `0 ≤ v ≤ 0.05` the value `v`, and for
`0 ≤ v ≤ 0.76` the five-term polynomial, are within 0.5% of `arctan v`. -/
theorem small_branch_rel_error (v : ℝ) (hv0 : 0 ≤ v) :
    (v ≤ 0.05 → |v - Real.arctan v| ≤ 0.005 * Real.arctan v) ∧
      (v ≤ 0.76 → |(v - v ^ 3 / 3 + v ^ 5 / 5 - v ^ 7 / 7 + v ^ 9 / 9) - Real.arctan v|
        ≤ 0.005 * Real.arctan v) := by
  obtain ⟨h1, h3, hP, h2⟩ := arctan_poly_bounds v hv0
  constructor
  · intro hv
    have hc : v ^ 3 ≤ 0.0025 * v := by
      have : v ^ 2 ≤ 0.05 ^ 2 := pow_le_pow_left₀ hv0 hv 2
      have : v ^ 3 = v ^ 2 * v := by ring
      nlinarith
    rw [abs_of_nonneg (by linarith)]
    norm_num at hc ⊢
    linarith
  · intro hv
    rw [abs_of_nonneg (by linarith)]
    rcases le_total v 0.7 with h7 | h7
    · have h10 : v ^ 10 ≤ 0.7 ^ 10 := pow_le_pow_left₀ hv0 h7 10
      have h2' : v ^ 2 ≤ 0.7 ^ 2 := pow_le_pow_left₀ hv0 h7 2
      have e11 : v ^ 11 = v ^ 10 * v := by ring
      have e3 : v ^ 3 = v ^ 2 * v := by ring
      have hk : v ^ 11 / 11 ≤ 0.005 * (v - v ^ 3 / 3) := by
        rw [e11, e3]
        norm_num at h10 h2' ⊢
        nlinarith [mul_nonneg hv0 (sub_nonneg.mpr h10), mul_nonneg hv0 (sub_nonneg.mpr h2')]
      linarith
    · have hmono := le_of_deriv_nonneg
        (fun t => (t - t ^ 3 / 3 + t ^ 5 / 5 - t ^ 7 / 7 + t ^ 9 / 9) - 1.005 * Real.arctan t)
        (fun t => (1 - t ^ 2 + t ^ 4 - t ^ 6 + t ^ 8) - 1.005 * (1 / (1 + t ^ 2)))
        (fun t => (hasDerivAt_arctanPoly t).sub ((Real.hasDerivAt_arctan t).const_mul 1.005))
        0.7 0.76
        (fun t ht _ => by
          have hpos : (0 : ℝ) < 1 + t ^ 2 := by positivity
          have h10 : (0.7 : ℝ) ^ 10 ≤ t ^ 10 := pow_le_pow_left₀ (by norm_num) ht.le 10
          have : 1.005 * (1 / (1 + t ^ 2)) ≤ 1 - t ^ 2 + t ^ 4 - t ^ 6 + t ^ 8 := by
            rw [mul_one_div, div_le_iff₀ hpos]
            norm_num at h10 ⊢
            nlinarith
          linarith) v 0.76 h7 hv (le_refl _)
      have hA := arctan_point_bounds.1
      norm_num at hmono hA ⊢
      linarith

/-- Linear branch: for `0.76 ≤ v ≤ 1` the fit `0.55 v + 0.235` is within 0.5% of
`arctan v`, and for `0.91 ≤ v ≤ 1` it is within `0.003` of it. -/
theorem linear_branch_error (v : ℝ) (hv0 : 0.76 ≤ v) (hv : v ≤ 1) :
    |(0.55 * v + 0.235) - Real.arctan v| ≤ 0.005 * Real.arctan v ∧
      (0.91 ≤ v → |(0.55 * v + 0.235) - Real.arctan v| ≤ 0.003) := by
  obtain ⟨hA76, hA9lo, hA9hi, hA91⟩ := arctan_point_bounds
  have hpi := Real.pi_gt_d2
  have hmono : ∀ x y : ℝ, x ≤ y → Real.arctan x ≤ Real.arctan y :=
    fun x y h => Real.arctan_strictMono.monotone h
  have hlow : 0.55 * v + 0.235 ≤ 1.005 * Real.arctan v := by
    rcases le_total v 0.9 with h9 | h9
    · have h := (lin_arctan_mono 1.005 0.55 0.235 0.76 0.9 0.76 v (le_refl _) hv0 h9).2
        (fun t _ ht => by
          have : t ^ 2 ≤ 0.9 ^ 2 := pow_le_pow_left₀ (by linarith) ht.le 2
          norm_num at this ⊢; linarith)
      norm_num at h hA76 ⊢
      linarith
    · rcases le_total v 0.91 with h91 | h91
      · have hm := hmono 0.9 v h9
        norm_num at hA9lo hm ⊢
        linarith
      · have h := (lin_arctan_mono 1.005 0.55 0.235 0.91 1 v 1 h91 hv (le_refl _)).1
          (fun t ht _ => by
            have : (0.91 : ℝ) ^ 2 ≤ t ^ 2 := pow_le_pow_left₀ (by norm_num) ht.le 2
            norm_num at this ⊢; linarith)
        rw [Real.arctan_one] at h
        norm_num at h ⊢
        linarith
  have hupp : 0.995 * Real.arctan v ≤ 0.55 * v + 0.235 := by
    rcases le_total v 0.899 with h899 | h899
    · have h := (lin_arctan_mono 0.995 0.55 0.235 0.76 0.899 v 0.899 hv0 h899 (le_refl _)).2
        (fun t _ ht => by
          have : t ^ 2 ≤ 0.899 ^ 2 := pow_le_pow_left₀ (by linarith) ht.le 2
          norm_num at this ⊢; linarith)
      have hm := hmono 0.899 0.9 (by norm_num)
      norm_num at h hA9hi hm ⊢
      linarith
    · rcases le_total v 0.9 with h9 | h9
      · have hm := hmono v 0.9 h9
        norm_num at hA9hi hm ⊢
        linarith
      · have h := (lin_arctan_mono 0.995 0.55 0.235 0.9 1 0.9 v (le_refl _) h9 hv).1
          (fun t ht _ => by
            have : (0.9 : ℝ) ^ 2 ≤ t ^ 2 := pow_le_pow_left₀ (by norm_num) ht.le 2
            norm_num at this ⊢; linarith)
        norm_num at h hA9hi ⊢
        linarith
  refine ⟨by rw [abs_le]; constructor <;> linarith, ?_⟩
  intro h91
  have hsign : ∀ t : ℝ, 0.91 < t → t < 1 → (1 : ℝ) ≤ 0.55 * (1 + t ^ 2) := by
    intro t ht _
    have : (0.91 : ℝ) ^ 2 ≤ t ^ 2 := pow_le_pow_left₀ (by norm_num) ht.le 2
    norm_num at this ⊢; linarith
  have h1 := (lin_arctan_mono 1 0.55 0.235 0.91 1 0.91 v (le_refl _) h91 hv).1 hsign
  have h2 := (lin_arctan_mono 1 0.55 0.235 0.91 1 v 1 h91 hv (le_refl _)).1 hsign
  rw [Real.arctan_one] at h2
  rw [abs_le]
  constructor <;> norm_num at h1 h2 hA91 ⊢ <;> linarith

/-! ## Arctangent -/

theorem arctan_eq_branches (c : MathConsts) (x : ℚ) :
    arctan c x =
      if |x| > 1 then
        (if arctanBranches (1 / x) > 0 then c.pi / 2 else -(c.pi / 2)) - arctanBranches (1 / x)
      else arctanBranches x := by
  by_cases h : |x| > 1
  · simp only [arctan, arctanBranches, h, if_true, decide_True]
  · simp only [arctan, arctanBranches, h, if_false, decide_False]
    simp

theorem arctanBranches_neg (v : ℚ) : arctanBranches (-v) = -arctanBranches v := by
  unfold arctanBranches
  rw [abs_neg]
  by_cases h1 : |v| < 0.05
  · simp only [h1, if_true]
  · simp only [h1, if_false]
    by_cases h2 : v < -0.76
    · have h3 : ¬ (-v < -0.76) := by norm_num at h2 ⊢; linarith
      have h4 : -v > 0.76 := by norm_num at h2 ⊢; linarith
      simp only [h2, h3, h4, if_true, if_false]
      ring
    · by_cases h3 : v > 0.76
      · have h4 : -v < -0.76 := by norm_num at h3 ⊢; linarith
        simp only [h2, h3, h4, if_true, if_false]
        ring
      · have h4 : ¬ (-v < -0.76) := by norm_num at h3 ⊢; linarith
        have h5 : ¬ (-v > 0.76) := by norm_num at h2 ⊢; linarith
        simp only [h2, h3, h4, h5, if_false]
        ring

/-- The branch taken on a positive value, with the value cast to the reals. -/
theorem arctanBranches_cast (v : ℚ) (h0 : 0 < v) :
    ((v < 0.05 ∧ ((arctanBranches v : ℚ) : ℝ) = (v : ℝ)) ∨
      (0.05 ≤ v ∧ v ≤ 0.76 ∧ ((arctanBranches v : ℚ) : ℝ)
        = (v : ℝ) - (v : ℝ) ^ 3 / 3 + (v : ℝ) ^ 5 / 5 - (v : ℝ) ^ 7 / 7 + (v : ℝ) ^ 9 / 9)) ∨
      (0.76 < v ∧ ((arctanBranches v : ℚ) : ℝ) = 0.55 * (v : ℝ) + 0.235) := by
  unfold arctanBranches
  rw [abs_of_pos h0]
  by_cases ha : v < 0.05
  · left; left
    exact ⟨ha, by simp only [ha, if_true]⟩
  · have hb : ¬ v < -0.76 := by norm_num; linarith
    by_cases hc : v > 0.76
    · right
      refine ⟨hc, ?_⟩
      simp only [ha, hb, hc, if_true, if_false]
      push_cast
      norm_num
    · left; right
      refine ⟨not_lt.mp ha, not_lt.mp hc, ?_⟩
      simp only [ha, hb, hc, if_false]
      push_cast
      ring

/-- The branch value on `(0, 1]`: within 0.5% of the arctangent, within `0.0039` of it,
and positive. -/
theorem arctanBranches_error (v : ℚ) (h0 : 0 < v) (h1 : v ≤ 1) :
    |((arctanBranches v : ℚ) : ℝ) - Real.arctan (v : ℝ)| ≤ 0.005 * Real.arctan (v : ℝ) ∧
      |((arctanBranches v : ℚ) : ℝ) - Real.arctan (v : ℝ)| ≤ 0.0039 ∧
      0 < arctanBranches v := by
  have hv0 : (0 : ℝ) < (v : ℝ) := by exact_mod_cast h0
  have hv1 : (v : ℝ) ≤ 1 := by exact_mod_cast h1
  have hcast : ∀ q r : ℚ, q ≤ r → (q : ℝ) ≤ (r : ℝ) := fun q r h => Rat.cast_le.mpr h
  have hrel : |((arctanBranches v : ℚ) : ℝ) - Real.arctan (v : ℝ)|
      ≤ 0.005 * Real.arctan (v : ℝ) := by
    rcases arctanBranches_cast v h0 with (⟨ha, he⟩ | ⟨_, hb, he⟩) | ⟨hc, he⟩
    · rw [he]
      have := hcast v 0.05 ha.le
      exact (small_branch_rel_error (v : ℝ) hv0.le).1 (by norm_num at this ⊢; exact this)
    · rw [he]
      have := hcast v 0.76 hb
      exact (small_branch_rel_error (v : ℝ) hv0.le).2 (by norm_num at this ⊢; exact this)
    · rw [he]
      have := hcast 0.76 v hc.le
      exact (linear_branch_error (v : ℝ) (by norm_num at this ⊢; exact this) hv1).1
  have hA : 0 < Real.arctan (v : ℝ) := by
    have := Real.arctan_strictMono hv0
    rwa [Real.arctan_zero] at this
  refine ⟨hrel, ?_, ?_⟩
  · rcases le_total v 0.91 with h | h
    · have hc := hcast v 0.91 h
      have hm := Real.arctan_strictMono.monotone
        (show (v : ℝ) ≤ 0.91 by norm_num at hc ⊢; exact hc)
      have hA91 := arctan_point_bounds.2.2.2
      refine hrel.trans ?_
      norm_num at hm hA91 ⊢
      linarith
    · have hc := hcast 0.91 v h
      have hv91 : (0.91 : ℝ) ≤ (v : ℝ) := by norm_num at hc ⊢; exact hc
      rcases arctanBranches_cast v h0 with (⟨ha, _⟩ | ⟨_, hb, _⟩) | ⟨_, he⟩
      · exfalso; norm_num at ha h; linarith
      · exfalso; norm_num at hb h; linarith
      · rw [he]
        exact ((linear_branch_error (v : ℝ) (by linarith) hv1).2 hv91).trans (by norm_num)
  · have hr := abs_le.mp hrel
    have : (0 : ℝ) < ((arctanBranches v : ℚ) : ℝ) := by
      norm_num at hr
      linarith [hr.1]
    exact_mod_cast this

/-- The shape of the library `arctan`: the branch value on `(0, 1]`, `pi/2` minus the
branch value of `1/x` above `1`, and an odd function. -/
theorem arctan_shape (c : MathConsts) (x : ℚ) :
    (0 < x → x ≤ 1 → arctan c x = arctanBranches x) ∧
      (1 < x → arctan c x = c.pi / 2 - arctanBranches (1 / x)) ∧
      arctan c (-x) = -arctan c x := by
  have hgt : ∀ y : ℚ, 1 < y → 0 < arctanBranches (1 / y) := by
    intro y h1
    have h0 : 0 < y := lt_trans one_pos h1
    have hv1 : 1 / y ≤ 1 := by
      rw [div_le_iff₀ h0]; linarith
    exact (arctanBranches_error (1 / y) (by positivity) hv1).2.2
  refine ⟨?_, ?_, ?_⟩
  · intro h0 h1
    rw [arctan_eq_branches, if_neg]
    rw [abs_of_pos h0]
    exact not_lt.mpr h1
  · intro h1
    have h0 : 0 < x := lt_trans one_pos h1
    rw [arctan_eq_branches, if_pos (by rw [abs_of_pos h0]; exact h1), if_pos (hgt x h1)]
  · rw [arctan_eq_branches, arctan_eq_branches, abs_neg]
    by_cases h : |x| > 1
    · rw [if_pos h, if_pos h]
      have e : 1 / -x = -(1 / x) := by rw [div_neg]
      rw [e, arctanBranches_neg]
      have hx0 : x ≠ 0 := by
        rintro rfl
        norm_num at h
      rcases lt_or_gt_of_ne hx0 with hneg | hpos
      · have hx1 : 1 < -x := by rwa [abs_of_neg hneg] at h
        have hb := hgt (-x) hx1
        rw [e, arctanBranches_neg] at hb
        have hb' : ¬ arctanBranches (1 / x) > 0 := by
          intro h'; linarith
        rw [if_pos hb, if_neg hb']
        ring
      · have hx1 : 1 < x := by rwa [abs_of_pos hpos] at h
        have hb := hgt x hx1
        have hb' : ¬ -arctanBranches (1 / x) > 0 := by
          intro h'; linarith
        rw [if_pos hb, if_neg hb']
        ring
    · rw [if_neg h, if_neg h, arctanBranches_neg]

theorem arctan_rel_error_pos (c : MathConsts) (x : ℚ) (hlo : 3.1415926 ≤ c.pi)
    (hhi : c.pi ≤ 3.1415927) (hx : 0 < x) :
    |((arctan c x : ℚ) : ℝ) - Real.arctan (x : ℝ)| ≤ 0.005 * Real.arctan (x : ℝ) := by
  rcases le_or_lt x 1 with h1 | h1
  · rw [(arctan_shape c x).1 hx h1]
    exact (arctanBranches_error x hx h1).1
  · have hv0 : 0 < 1 / x := by positivity
    have hv1 : 1 / x ≤ 1 := by
      rw [div_le_iff₀ hx]; linarith
    have hb := abs_le.mp (arctanBranches_error (1 / x) hv0 hv1).2.1
    have hxR : (0 : ℝ) < (x : ℝ) := by exact_mod_cast hx
    have hinv := Real.arctan_inv_of_pos hxR
    have hcast : (((1 / x : ℚ)) : ℝ) = ((x : ℝ))⁻¹ := by push_cast; rw [one_div]
    rw [hcast, hinv] at hb
    have hA1 : Real.pi / 4 ≤ Real.arctan (x : ℝ) := by
      have h1R : (1 : ℝ) ≤ (x : ℝ) := by exact_mod_cast h1.le
      have := Real.arctan_strictMono.monotone h1R
      rwa [Real.arctan_one] at this
    have hp1 := Real.pi_gt_d6
    have hp2 := Real.pi_lt_d6
    have hq1 : ((3.1415926 : ℚ) : ℝ) ≤ (c.pi : ℝ) := Rat.cast_le.mpr hlo
    have hq2 : (c.pi : ℝ) ≤ ((3.1415927 : ℚ) : ℝ) := Rat.cast_le.mpr hhi
    rw [(arctan_shape c x).2.1 h1, abs_le]
    push_cast
    constructor <;> norm_num at hb hq1 hq2 hp1 hp2 ⊢ <;> linarith [hb.1, hb.2]

/-- C10: for every `x ≠ 0` (and any `pi` constant in `[3.1415926, 3.1415927]`), the library
`arctan(x)` is within 0.5% of the true arctangent,
`|arctan(x) - atan x| ≤ 0.005 * |atan x|`, on the passthrough, the linear fits, the series
and the reciprocal fold. -/
theorem arctan_rel_error (c : MathConsts) (x : ℚ) (hlo : 3.1415926 ≤ c.pi)
    (hhi : c.pi ≤ 3.1415927) (hx : x ≠ 0) :
    |((arctan c x : ℚ) : ℝ) - Real.arctan (x : ℝ)| ≤ 0.005 * |Real.arctan (x : ℝ)| := by
  have hnn : ∀ t : ℝ, 0 ≤ t → 0 ≤ Real.arctan t := by
    intro t ht
    have := Real.arctan_strictMono.monotone ht
    rwa [Real.arctan_zero] at this
  rcases lt_or_gt_of_ne hx with hneg | hpos
  · have h := arctan_rel_error_pos c (-x) hlo hhi (by linarith)
    have hxR : (0 : ℝ) ≤ ((-x : ℚ) : ℝ) := by
      have : (0 : ℚ) ≤ -x := by linarith
      exact_mod_cast this
    have hA := hnn _ hxR
    rw [(arctan_shape c x).2.2] at h
    push_cast at h hA
    rw [Real.arctan_neg] at h hA
    have e : -((arctan c x : ℚ) : ℝ) - -Real.arctan (x : ℝ)
        = -(((arctan c x : ℚ) : ℝ) - Real.arctan (x : ℝ)) := by ring
    rw [e, abs_neg] at h
    rwa [abs_of_nonpos (show Real.arctan (x : ℝ) ≤ 0 by linarith)]
  · have h := arctan_rel_error_pos c x hlo hhi hpos
    have hxR : (0 : ℝ) ≤ (x : ℝ) := by exact_mod_cast hpos.le
    rwa [abs_of_nonneg (hnn _ hxR)]

/-- C10 at `x = -3`, an input that goes through the reciprocal fold. -/
theorem arctan_rel_error_witness :
    |((arctan stdConsts (-3) : ℚ) : ℝ) - Real.arctan ((-3 : ℚ) : ℝ)|
      ≤ 0.005 * |Real.arctan ((-3 : ℚ) : ℝ)| :=
  arctan_rel_error stdConsts (-3) (by norm_num [stdConsts]) (by norm_num [stdConsts])
    (by norm_num)

/-! ## Inverse sine and cosine: domain and special points -/

theorem arctan_zero (c : MathConsts) : arctan c 0 = 0 := by
  rw [arctan_eq_branches, if_neg (by norm_num)]
  norm_num [arctanBranches]

/-- C11: for every `x` with `|x| > 1`, `arcsin(x)` and `arccos(x)` take the out-of-domain
branch and return `0`; for every `x` with `|x| ≤ 1` neither function takes that branch. -/
theorem inverse_trig_domain (c : MathConsts) (x : ℚ) :
    (|x| > 1 → arcsinRun c x = (0, true) ∧ arccosRun c x = (0, true) ∧
        arcsin c x = 0 ∧ arccos c x = 0) ∧
      (|x| ≤ 1 → (arcsinRun c x).2 = false ∧ (arccosRun c x).2 = false) := by
  constructor
  · intro h
    simp [arcsin, arccos, arcsinRun, arccosRun, h]
  · intro h
    have h' : ¬ |x| > 1 := not_lt.mpr h
    constructor
    · simp only [arcsinRun, h', if_false]
      split_ifs <;> rfl
    · simp only [arccosRun, h', if_false]
      split_ifs <;> rfl

/-- C11 at `x = 2` and `x = 1/2`. -/
theorem inverse_trig_domain_witness :
    (arcsin stdConsts 2 = 0 ∧ arccos stdConsts 2 = 0) ∧
      ((arcsinRun stdConsts (1 / 2)).2 = false ∧ (arccosRun stdConsts (1 / 2)).2 = false) :=
  ⟨((inverse_trig_domain stdConsts 2).1 (by norm_num)).2.2,
    (inverse_trig_domain stdConsts (1 / 2)).2 (by norm_num [abs_le])⟩

/-- C12: at the special points the guards return the exact boundary values, so that no
quotient with a zero divisor is formed: `arccos(0) = pi/2`, `arcsin(1) = pi/2`,
`arcsin(-1) = -pi/2`, `arccos(1) = 0` and `arccos(-1) = pi`. -/
theorem inverse_trig_special (c : MathConsts) :
    arccos c 0 = c.pi / 2 ∧ arcsin c 1 = c.pi / 2 ∧ arcsin c (-1) = -c.pi / 2 ∧
      arccos c 1 = 0 ∧ arccos c (-1) = c.pi := by
  have hpi := c.pi_pos
  refine ⟨?_, ?_, ?_, ?_, ?_⟩
  · norm_num [arccos, arccosRun]
  · norm_num [arcsin, arcsinRun]
  · norm_num [arcsin, arcsinRun]
  · have h1 : ¬ |(1 : ℚ)| > 1 := by norm_num
    simp only [arccos, arccosRun, h1, if_false]
    norm_num [sqrt_zero, arctan_zero]
  · have h1 : ¬ |(-1 : ℚ)| > 1 := by norm_num
    simp only [arccos, arccosRun, h1, if_false]
    norm_num [sqrt_zero, arctan_zero]

/-! ## Geometry helpers -/

/-- C13: `getAngle` returns exactly `0` when `x1 = x2` and `y1 ≥ y2` (coincident points
included), `180` when `x1 = x2` and `y1 < y2`, `90` when `y1 = y2` and `x1 > x2`, `270`
when `y1 = y2` and `x1 < x2`; so `getAngle(0,1,0,0) = 0`, `getAngle(0,-1,0,0) = 180` and
`getAngle(1,0,0,0) = 90`. -/
theorem getAngle_axis (c : MathConsts) (x1 y1 x2 y2 : ℚ) :
    (x1 = x2 → y1 ≥ y2 → getAngle c x1 y1 x2 y2 = 0) ∧
      (x1 = x2 → y1 < y2 → getAngle c x1 y1 x2 y2 = 180) ∧
      (y1 = y2 → x1 > x2 → getAngle c x1 y1 x2 y2 = 90) ∧
      (y1 = y2 → x1 < x2 → getAngle c x1 y1 x2 y2 = 270) ∧
      getAngle c 0 1 0 0 = 0 ∧ getAngle c 0 (-1) 0 0 = 180 ∧ getAngle c 1 0 0 0 = 90 := by
  refine ⟨?_, ?_, ?_, ?_, ?_, ?_, ?_⟩
  · intro hx hy
    simp [getAngle, hx, hy]
  · intro hx hy
    simp [getAngle, hx, not_le.mpr hy]
  · intro hy hx
    simp [getAngle, hy, hx.ne', hx.le]
  · intro hy hx
    simp [getAngle, hy, hx.ne, not_le.mpr hx]
  · simp [getAngle]
  · simp [getAngle]
  · simp [getAngle]

/-- C13 at concrete points: straight up, straight down, to the right and to the left. -/
theorem getAngle_axis_witness :
    getAngle stdConsts 2 5 2 3 = 0 ∧ getAngle stdConsts 2 1 2 3 = 180 ∧
      getAngle stdConsts 4 3 2 3 = 90 ∧ getAngle stdConsts 1 3 2 3 = 270 :=
  ⟨(getAngle_axis stdConsts 2 5 2 3).1 rfl (by norm_num),
    (getAngle_axis stdConsts 2 1 2 3).2.1 rfl (by norm_num),
    (getAngle_axis stdConsts 4 3 2 3).2.2.1 rfl (by norm_num),
    (getAngle_axis stdConsts 1 3 2 3).2.2.2.1 rfl (by norm_num)⟩

/-! ## Tangent against sine and cosine; oddness of the arctangent -/

/-- C19: for every `x`, `tan(x)` is what the library's own `sin` and `cos` give on the
unreduced `x`: `+infinity` when `cos(x) = 0` and `sin(x) > 0`, `-infinity` when
`cos(x) = 0` and `sin(x) ≤ 0`, and `sin(x) / cos(x)` otherwise; reducing a reduced value
changes nothing. -/
theorem tan_refines_sin_cos (c : MathConsts) (x : ℚ) :
    tan c x = (if cos c x = 0 then (if sin c x > 0 then TanResult.posInf else TanResult.negInf)
      else TanResult.finite (sin c x / cos c x)) ∧
      wrapUp c (wrapDown c (wrapUp c (wrapDown c x))) = wrapUp c (wrapDown c x) := by
  have hr := reduce_range c x
  refine ⟨?_, reduce_of_mem c _ hr.1 hr.2⟩
  simp only [tan]
  rw [(sin_cos_reduce c x).1, (sin_cos_reduce c x).2]

/-- C20: the library `arctan` is odd, `arctan(-x) = -arctan(x)` for every `x`, and
`arctan(0) = 0`. -/
theorem arctan_odd (c : MathConsts) (x : ℚ) :
    arctan c (-x) = -arctan c x ∧ arctan c 0 = 0 :=
  ⟨(arctan_shape c x).2.2, arctan_zero c⟩

/-! ## Rounded arithmetic -/

/-- A rational within `1/2` of an integer rounds to it. -/
theorem roundHalfEven_near (t : ℚ) (m : ℤ) (h : |t - m| < 1 / 2) : roundHalfEven t = m := by
  rw [abs_lt] at h
  unfold roundHalfEven
  rcases le_or_lt (m : ℚ) t with hm | hm
  · have hf : ⌊t⌋ = m := Int.floor_eq_iff.mpr ⟨hm, by linarith⟩
    simp only [hf]
    rw [if_pos (by linarith)]
  · have hf : ⌊t⌋ = m - 1 := Int.floor_eq_iff.mpr ⟨by push_cast; linarith, by push_cast; linarith⟩
    simp only [hf]
    rw [if_neg (by push_cast; linarith), if_pos (by push_cast; linarith)]
    ring

/-- Half way between two integers the even one is taken: here the lower one. -/
theorem roundHalfEven_tie (m : ℤ) (hm : m % 2 = 0) : roundHalfEven (m + 1 / 2) = m := by
  unfold roundHalfEven
  have hf : ⌊(m : ℚ) + 1 / 2⌋ = m := Int.floor_eq_iff.mpr ⟨by linarith, by linarith⟩
  simp only [hf]
  rw [if_neg (by linarith), if_neg (by linarith), if_pos hm]

/-- Rounding to an integer is monotone. -/
theorem roundHalfEven_mono {s t : ℚ} (h : s ≤ t) : roundHalfEven s ≤ roundHalfEven t := by
  have hfl : ⌊s⌋ ≤ ⌊t⌋ := Int.floor_mono h
  unfold roundHalfEven
  rcases hfl.lt_or_eq with hlt | heq
  · have : ⌊s⌋ + 1 ≤ ⌊t⌋ := hlt
    simp only
    split_ifs <;> omega
  · simp only [← heq]
    have hst : s - ⌊s⌋ ≤ t - ⌊s⌋ := by linarith
    split_ifs <;> first | omega | (exfalso; linarith)

/-- Rounding to an integer is odd: ties to even is symmetric about zero. -/
theorem roundHalfEven_neg (t : ℚ) : roundHalfEven (-t) = -roundHalfEven t := by
  have h1 := Int.floor_le t
  have h2 := Int.lt_floor_add_one t
  have h3 := Int.floor_le (-t)
  have h4 := Int.lt_floor_add_one (-t)
  have hlo : -⌊t⌋ - 1 ≤ ⌊-t⌋ := by
    have : ((-⌊t⌋ - 2 : ℤ) : ℚ) < ⌊-t⌋ := by push_cast; linarith
    have := Int.cast_lt.mp this
    omega
  have hhi : ⌊-t⌋ ≤ -⌊t⌋ := by
    have : ((⌊-t⌋ : ℤ) : ℚ) ≤ ((-⌊t⌋ : ℤ) : ℚ) := by push_cast; linarith
    exact Int.cast_le.mp this
  unfold roundHalfEven
  rcases hhi.lt_or_eq with hlt | heq
  · have hg : ⌊-t⌋ = -⌊t⌋ - 1 := by omega
    simp only [hg]
    push_cast
    split_ifs <;> first | omega | (exfalso; linarith)
  · have ht : t = ⌊t⌋ := by
      have : ((⌊-t⌋ : ℤ) : ℚ) = ((-⌊t⌋ : ℤ) : ℚ) := by rw [heq]
      push_cast at this
      linarith
    simp only [heq]
    push_cast
    split_ifs <;> first | omega | (exfalso; linarith)

/-- The binade of a positive rational: `2^e ≤ r < 2^(e+1)` gives `⌊log₂ r⌋ = e`. -/
theorem log_two_eq {r : ℚ} {e : ℤ} (h1 : (2 : ℚ) ^ e ≤ r) (h2 : r < 2 ^ (e + 1)) :
    Int.log 2 r = e := by
  have hr : 0 < r := lt_of_lt_of_le (by positivity) h1
  have hb : 1 < 2 := by norm_num
  apply le_antisymm
  · have := (Int.lt_zpow_iff_log_lt hb hr).mp (by exact_mod_cast h2)
    omega
  · exact (Int.zpow_le_iff_le_log hb hr).mp (by exact_mod_cast h1)

/-- Rounding is odd. -/
theorem roundNearest_neg (p : ℕ) (q : ℚ) : roundNearest p (-q) = -roundNearest p q := by
  unfold roundNearest
  by_cases h : q = 0
  · simp [h]
  · rw [if_neg (neg_ne_zero.mpr h), if_neg h]
    simp only [abs_neg, neg_div, roundHalfEven_neg]
    push_cast
    ring

/-- Evaluation of a rounding: a number `r` that is a multiple of the unit in the last place
of the binade of `q` and is closer to `q` than half that unit is the rounding of `q`. -/
theorem roundNearest_near (p : ℕ) (q r : ℚ) (e : ℤ) (hlo : (2 : ℚ) ^ e ≤ |q|)
    (hhi : |q| < 2 ^ (e + 1)) (hr : ∃ m : ℤ, r = m * 2 ^ (e - ((p : ℤ) - 1)))
    (h : |q - r| < 2 ^ (e - ((p : ℤ) - 1)) / 2) : roundNearest p q = r := by
  obtain ⟨m, rfl⟩ := hr
  have hq : q ≠ 0 := by
    intro h0
    rw [h0, abs_zero] at hlo
    exact absurd hlo (not_le.mpr (by positivity))
  unfold roundNearest
  rw [if_neg hq, log_two_eq hlo hhi]
  simp only
  have hu : (0 : ℚ) < 2 ^ (e - ((p : ℤ) - 1)) := by positivity
  rw [roundHalfEven_near _ m]
  have : q / 2 ^ (e - ((p : ℤ) - 1)) - m = (q - m * 2 ^ (e - ((p : ℤ) - 1))) / 2 ^ (e - ((p : ℤ) - 1)) := by
    field_simp; ring
  rw [this, abs_div, abs_of_pos hu, div_lt_iff₀ hu]
  linarith

/-- Evaluation of a rounding at a tie whose lower neighbour has an even significand. -/
theorem roundNearest_tie (p : ℕ) (q : ℚ) (m e : ℤ) (hlo : (2 : ℚ) ^ e ≤ |q|)
    (hhi : |q| < 2 ^ (e + 1)) (hm : m % 2 = 0)
    (h : q = (m + 1 / 2) * 2 ^ (e - ((p : ℤ) - 1))) :
    roundNearest p q = m * 2 ^ (e - ((p : ℤ) - 1)) := by
  have hq : q ≠ 0 := by
    intro h0
    rw [h0, abs_zero] at hlo
    exact absurd hlo (not_le.mpr (by positivity))
  unfold roundNearest
  rw [if_neg hq, log_two_eq hlo hhi]
  simp only
  have hu : (0 : ℚ) < 2 ^ (e - ((p : ℤ) - 1)) := by positivity
  have : q / 2 ^ (e - ((p : ℤ) - 1)) = m + 1 / 2 := by
    rw [h]; field_simp; ring
  rw [this, roundHalfEven_tie m hm]

theorem roundHalfEven_int (n : ℤ) : roundHalfEven (n : ℚ) = n :=
  roundHalfEven_near _ n (by simp)

theorem roundNearest_zero (p : ℕ) : roundNearest p 0 = 0 := by
  simp [roundNearest]

/-- Rounding is monotone on the positive numbers: inside a binade because rounding to an
integer is, across binades because the power of two between them is representable. -/
theorem roundNearest_pos_mono (p : ℕ) (hp : 1 ≤ p) {a b : ℚ} (ha : 0 < a) (hab : a ≤ b) :
    roundNearest p a ≤ roundNearest p b := by
  have hb : 0 < b := lt_of_lt_of_le ha hab
  have h2 : 1 < 2 := by norm_num
  have hlog : Int.log 2 a ≤ Int.log 2 b := Int.log_mono_right ha hab
  have ea1 : (2 : ℚ) ^ Int.log 2 a ≤ a := by
    have := Int.zpow_log_le_self h2 ha
    exact_mod_cast this
  have ea2 : a < (2 : ℚ) ^ (Int.log 2 a + 1) := by
    have := Int.lt_zpow_succ_log_self h2 a
    exact_mod_cast this
  have eb1 : (2 : ℚ) ^ Int.log 2 b ≤ b := by
    have := Int.zpow_log_le_self h2 hb
    exact_mod_cast this
  unfold roundNearest
  rw [if_neg ha.ne', if_neg hb.ne', abs_of_pos ha, abs_of_pos hb]
  simp only
  rcases hlog.lt_or_eq with hlt | heq
  · -- different binades: the power of two between them separates the results
    have hua : (0 : ℚ) < 2 ^ (Int.log 2 a - ((p : ℤ) - 1)) := by positivity
    have hub : (0 : ℚ) < 2 ^ (Int.log 2 b - ((p : ℤ) - 1)) := by positivity
    have h1 : ((roundHalfEven (a / 2 ^ (Int.log 2 a - ((p : ℤ) - 1))) : ℤ) : ℚ)
        * 2 ^ (Int.log 2 a - ((p : ℤ) - 1)) ≤ 2 ^ (Int.log 2 a + 1) := by
      have hle : a / 2 ^ (Int.log 2 a - ((p : ℤ) - 1)) ≤ (((2 : ℤ) ^ p : ℤ) : ℚ) := by
        rw [div_le_iff₀ hua]
        push_cast
        rw [← zpow_natCast, ← zpow_add₀ (by norm_num : (2 : ℚ) ≠ 0)]
        have : (p : ℤ) + (Int.log 2 a - ((p : ℤ) - 1)) = Int.log 2 a + 1 := by ring
        rw [this]
        exact ea2.le
      have := roundHalfEven_mono hle
      rw [roundHalfEven_int] at this
      have hc : ((roundHalfEven (a / 2 ^ (Int.log 2 a - ((p : ℤ) - 1))) : ℤ) : ℚ)
          ≤ (((2 : ℤ) ^ p : ℤ) : ℚ) := Int.cast_le.mpr this
      calc _ ≤ (((2 : ℤ) ^ p : ℤ) : ℚ) * 2 ^ (Int.log 2 a - ((p : ℤ) - 1)) :=
            mul_le_mul_of_nonneg_right hc hua.le
        _ = 2 ^ (Int.log 2 a + 1) := by
            push_cast
            rw [← zpow_natCast, ← zpow_add₀ (by norm_num : (2 : ℚ) ≠ 0)]
            congr 1; ring
    have h3 : (2 : ℚ) ^ Int.log 2 b ≤ ((roundHalfEven (b / 2 ^ (Int.log 2 b - ((p : ℤ) - 1))) : ℤ) : ℚ)
        * 2 ^ (Int.log 2 b - ((p : ℤ) - 1)) := by
      have hle : (((2 : ℤ) ^ (p - 1) : ℤ) : ℚ) ≤ b / 2 ^ (Int.log 2 b - ((p : ℤ) - 1)) := by
        rw [le_div_iff₀ hub]
        push_cast
        rw [← zpow_natCast, ← zpow_add₀ (by norm_num : (2 : ℚ) ≠ 0)]
        have : ((p - 1 : ℕ) : ℤ) + (Int.log 2 b - ((p : ℤ) - 1)) = Int.log 2 b := by
          rw [Nat.cast_sub hp]; push_cast; ring
        rw [this]
        exact eb1
      have := roundHalfEven_mono hle
      rw [roundHalfEven_int] at this
      have hc : (((2 : ℤ) ^ (p - 1) : ℤ) : ℚ)
          ≤ ((roundHalfEven (b / 2 ^ (Int.log 2 b - ((p : ℤ) - 1))) : ℤ) : ℚ) :=
        Int.cast_le.mpr this
      calc (2 : ℚ) ^ Int.log 2 b
          = (((2 : ℤ) ^ (p - 1) : ℤ) : ℚ) * 2 ^ (Int.log 2 b - ((p : ℤ) - 1)) := by
            push_cast
            rw [← zpow_natCast, ← zpow_add₀ (by norm_num : (2 : ℚ) ≠ 0)]
            congr 1
            rw [Nat.cast_sub hp]; push_cast; ring
        _ ≤ _ := mul_le_mul_of_nonneg_right hc hub.le
    have h2' : (2 : ℚ) ^ (Int.log 2 a + 1) ≤ 2 ^ Int.log 2 b :=
      zpow_le_zpow_right₀ (by norm_num) (by omega)
    linarith
  · rw [← heq]
    have hu : (0 : ℚ) < 2 ^ (Int.log 2 a - ((p : ℤ) - 1)) := by positivity
    exact mul_le_mul_of_nonneg_right
      (Int.cast_le.mpr (roundHalfEven_mono (div_le_div_of_nonneg_right hab hu.le))) hu.le

theorem roundNearest_nonneg (p : ℕ) {q : ℚ} (hq : 0 ≤ q) : 0 ≤ roundNearest p q := by
  unfold roundNearest
  split_ifs with h
  · exact le_rfl
  · simp only
    have hu : (0 : ℚ) < 2 ^ (Int.log 2 |q| - ((p : ℤ) - 1)) := by positivity
    have := roundHalfEven_mono (div_nonneg hq hu.le)
    rw [show ((0 : ℚ)) = ((0 : ℤ) : ℚ) by simp, roundHalfEven_int] at this
    exact mul_nonneg (Int.cast_nonneg.mpr this) hu.le

/-- Rounding is monotone. -/
theorem roundNearest_mono (p : ℕ) (hp : 1 ≤ p) : Monotone (roundNearest p) := by
  intro a b hab
  rcases lt_trichotomy a 0 with ha | ha | ha
  · rcases lt_or_le b 0 with hb | hb
    · have := roundNearest_pos_mono p hp (neg_pos.mpr hb) (neg_le_neg hab)
      rw [roundNearest_neg, roundNearest_neg] at this
      linarith
    · have h1 := roundNearest_nonneg p (neg_pos.mpr ha).le
      rw [roundNearest_neg] at h1
      have h2 := roundNearest_nonneg p hb
      linarith
  · rw [ha, roundNearest_zero]
    exact roundNearest_nonneg p (ha ▸ hab)
  · exact roundNearest_pos_mono p hp ha hab

/-- Rounding to an integer moves a number by at most `1/2`. -/
theorem roundHalfEven_err (t : ℚ) : |((roundHalfEven t : ℤ) : ℚ) - t| ≤ 1 / 2 := by
  have h1 := Int.floor_le t
  have h2 := Int.lt_floor_add_one t
  unfold roundHalfEven
  rw [abs_le]
  simp only
  split_ifs <;> push_cast <;> constructor <;> linarith

/-- The relative error of a rounding to `p` bits is at most `2^-p`. -/
theorem roundNearest_err (p : ℕ) (q : ℚ) :
    |roundNearest p q - q| ≤ |q| / 2 ^ p := by
  unfold roundNearest
  split_ifs with h
  · simp [h]
  · simp only
    have hq : 0 < |q| := abs_pos.mpr h
    have hu : (0 : ℚ) < 2 ^ (Int.log 2 |q| - ((p : ℤ) - 1)) := by positivity
    have e1 : (2 : ℚ) ^ Int.log 2 |q| ≤ |q| := by
      have := Int.zpow_log_le_self (by norm_num : 1 < 2) hq
      exact_mod_cast this
    have herr := roundHalfEven_err (q / 2 ^ (Int.log 2 |q| - ((p : ℤ) - 1)))
    have hrw : ((roundHalfEven (q / 2 ^ (Int.log 2 |q| - ((p : ℤ) - 1))) : ℤ) : ℚ)
        * 2 ^ (Int.log 2 |q| - ((p : ℤ) - 1)) - q
        = (((roundHalfEven (q / 2 ^ (Int.log 2 |q| - ((p : ℤ) - 1))) : ℤ) : ℚ)
          - q / 2 ^ (Int.log 2 |q| - ((p : ℤ) - 1))) * 2 ^ (Int.log 2 |q| - ((p : ℤ) - 1)) := by
      field_simp
    rw [hrw, abs_mul, abs_of_pos hu]
    have hup : (2 : ℚ) ^ (Int.log 2 |q| - ((p : ℤ) - 1)) = 2 ^ Int.log 2 |q| * 2 / 2 ^ p := by
      rw [zpow_sub₀ (by norm_num : (2 : ℚ) ≠ 0), zpow_sub₀ (by norm_num : (2 : ℚ) ≠ 0),
        zpow_natCast, zpow_one]
      field_simp
    have hpp : (0 : ℚ) < 2 ^ p := by positivity
    calc _ ≤ 1 / 2 * 2 ^ (Int.log 2 |q| - ((p : ℤ) - 1)) :=
          mul_le_mul_of_nonneg_right herr hu.le
      _ = 2 ^ Int.log 2 |q| / 2 ^ p := by rw [hup]; field_simp
      _ ≤ |q| / 2 ^ p := div_le_div_of_nonneg_right e1 hpp.le

/-- Half way between two integers the even one is taken: here the upper one. -/
theorem roundHalfEven_tie_odd (m : ℤ) (hm : m % 2 = 1) : roundHalfEven (m + 1 / 2) = m + 1 := by
  unfold roundHalfEven
  have hf : ⌊(m : ℚ) + 1 / 2⌋ = m := Int.floor_eq_iff.mpr ⟨by linarith, by linarith⟩
  simp only [hf]
  rw [if_neg (by linarith), if_neg (by linarith), if_neg (by omega)]

/-- Evaluation of a rounding at a tie whose lower neighbour has an odd significand. -/
theorem roundNearest_tie_odd (p : ℕ) (q : ℚ) (m e : ℤ) (hlo : (2 : ℚ) ^ e ≤ |q|)
    (hhi : |q| < 2 ^ (e + 1)) (hm : m % 2 = 1)
    (h : q = (m + 1 / 2) * 2 ^ (e - ((p : ℤ) - 1))) :
    roundNearest p q = (m + 1) * 2 ^ (e - ((p : ℤ) - 1)) := by
  have hq : q ≠ 0 := by
    intro h0
    rw [h0, abs_zero] at hlo
    exact absurd hlo (not_le.mpr (by positivity))
  unfold roundNearest
  rw [if_neg hq, log_two_eq hlo hhi]
  simp only
  have hu : (0 : ℚ) < 2 ^ (e - ((p : ℤ) - 1)) := by positivity
  have : q / 2 ^ (e - ((p : ℤ) - 1)) = m + 1 / 2 := by
    rw [h]; field_simp; ring
  rw [this, roundHalfEven_tie_odd m hm]
  push_cast
  ring

/-- Evaluation of a `double` rounding of a positive number (see `roundNearest_near`). -/
theorem roundDouble_eq (q r : ℚ) (e : ℤ) (hlo : (2 : ℚ) ^ e ≤ q) (hhi : q < 2 ^ (e + 1))
    (hr : ∃ m : ℤ, r = m * 2 ^ (e - 52)) (h1 : r - 2 ^ (e - 52) / 2 < q)
    (h2 : q < r + 2 ^ (e - 52) / 2) : roundDouble q = r := by
  have hq : 0 < q := lt_of_lt_of_le (by positivity) hlo
  exact roundNearest_near 53 q r e (by rwa [abs_of_pos hq]) (by rwa [abs_of_pos hq])
    (by simpa using hr) (by rw [abs_lt]; constructor <;> norm_num <;> linarith)

/-- Evaluation of a `float` rounding of a positive number (see `roundNearest_near`). -/
theorem roundFloat_eq (q r : ℚ) (e : ℤ) (hlo : (2 : ℚ) ^ e ≤ q) (hhi : q < 2 ^ (e + 1))
    (hr : ∃ m : ℤ, r = m * 2 ^ (e - 23)) (h1 : r - 2 ^ (e - 23) / 2 < q)
    (h2 : q < r + 2 ^ (e - 23) / 2) : roundFloat q = r := by
  have hq : 0 < q := lt_of_lt_of_le (by positivity) hlo
  exact roundNearest_near 24 q r e (by rwa [abs_of_pos hq]) (by rwa [abs_of_pos hq])
    (by simpa using hr) (by rw [abs_lt]; constructor <;> norm_num <;> linarith)

/-- Evaluation of a `double` rounding at a tie, even lower neighbour. -/
theorem roundDouble_tie (q r : ℚ) (e m : ℤ) (hlo : (2 : ℚ) ^ e ≤ q) (hhi : q < 2 ^ (e + 1))
    (hm : m % 2 = 0) (hq : q = (m + 1 / 2) * 2 ^ (e - 52)) (hr : r = m * 2 ^ (e - 52)) :
    roundDouble q = r := by
  have hq0 : 0 < q := lt_of_lt_of_le (by positivity) hlo
  rw [hr]
  have := roundNearest_tie 53 q m e (by rwa [abs_of_pos hq0]) (by rwa [abs_of_pos hq0]) hm
    (by simpa using hq)
  simpa using this

/-- Evaluation of a `double` rounding at a tie, odd lower neighbour. -/
theorem roundDouble_tie_odd (q r : ℚ) (e m : ℤ) (hlo : (2 : ℚ) ^ e ≤ q) (hhi : q < 2 ^ (e + 1))
    (hm : m % 2 = 1) (hq : q = (m + 1 / 2) * 2 ^ (e - 52)) (hr : r = (m + 1) * 2 ^ (e - 52)) :
    roundDouble q = r := by
  have hq0 : 0 < q := lt_of_lt_of_le (by positivity) hlo
  rw [hr]
  have := roundNearest_tie_odd 53 q m e (by rwa [abs_of_pos hq0]) (by rwa [abs_of_pos hq0]) hm
    (by simpa using hq)
  simpa using this

theorem roundDouble_neg (q : ℚ) : roundDouble (-q) = -roundDouble q := roundNearest_neg 53 q

theorem roundDouble_nonneg {q : ℚ} (hq : 0 ≤ q) : 0 ≤ roundDouble q := roundNearest_nonneg 53 hq

theorem roundDouble_mono : Monotone roundDouble := roundNearest_mono 53 (by norm_num)

theorem roundFloat_nonneg {q : ℚ} (hq : 0 ≤ q) : 0 ≤ roundFloat q := roundNearest_nonneg 24 hq

theorem roundFloat_mono : Monotone roundFloat := roundNearest_mono 24 (by norm_num)

/-- The relative error of one operation: at most `2^-53` on `double`, `2^-24` on `float`. -/
theorem round_err (q : ℚ) :
    (|roundDouble q - q| ≤ |q| / 2 ^ 53 ∧ |roundFloat q - q| ≤ |q| / 2 ^ 24) :=
  ⟨roundNearest_err 53 q, roundNearest_err 24 q⟩

theorem roundDouble_bounds {t : ℚ} (ht : 0 ≤ t) :
    (1 - 1 / 2 ^ 53) * t ≤ roundDouble t ∧ roundDouble t ≤ (1 + 1 / 2 ^ 53) * t := by
  have h := (round_err t).1
  rw [abs_le, abs_of_nonneg ht] at h
  constructor <;> linarith [h.1, h.2]

/-- A positive number does not round to zero (there is no underflow in the model). -/
theorem round_pos {q : ℚ} (hq : 0 < q) : 0 < roundDouble q ∧ 0 < roundFloat q := by
  have h1 := (round_err q).1
  have h2 := (round_err q).2
  rw [abs_le, abs_of_pos hq] at h1 h2
  have a : q / 2 ^ 53 < q := div_lt_self hq (by norm_num)
  have b : q / 2 ^ 24 < q := div_lt_self hq (by norm_num)
  constructor <;> linarith [h1.1, h2.1]

theorem roundDouble_abs (t : ℚ) : |roundDouble t| = roundDouble |t| := by
  rcases le_total 0 t with h | h
  · rw [abs_of_nonneg h, abs_of_nonneg (roundDouble_nonneg h)]
  · have h1 : 0 ≤ roundDouble (-t) := roundDouble_nonneg (neg_nonneg.mpr h)
    rw [roundDouble_neg] at h1
    rw [abs_of_nonpos h, roundDouble_neg, abs_of_nonpos (by linarith)]

theorem roundDouble_one : roundDouble 1 = 1 :=
  roundDouble_eq 1 1 0 (by norm_num) (by norm_num) ⟨4503599627370496, by norm_num⟩
    (by norm_num) (by norm_num)

/-! ## Square root under rounding -/

/-- The `double` nearest to the default tolerance `0.001`; it is a `double`, so rounding
leaves it as it is. -/
theorem roundDouble_tolerance :
    roundDouble 0.001 = (1152921504606847 / 1152921504606846976) ∧
      roundDouble (roundDouble 0.001) = roundDouble 0.001 := by
  have h : roundDouble 0.001 = (1152921504606847 / 1152921504606846976) := by
    rw [show (0.001 : ℚ) = (1 / 1000) by norm_num]
    exact roundDouble_eq (1 / 1000) (1152921504606847 / 1152921504606846976) (-10)
      (by norm_num) (by norm_num) ⟨4611686018427388, by norm_num⟩ (by norm_num) (by norm_num)
  refine ⟨h, ?_⟩
  rw [h]
  exact roundDouble_eq (1152921504606847 / 1152921504606846976) (1152921504606847 / 1152921504606846976) (-10)
    (by norm_num) (by norm_num) ⟨4611686018427388, by norm_num⟩ (by norm_num) (by norm_num)

/-- One pass of the rounded Newton loop that meets the tolerance, given the four rounded
results of the pass. -/
theorem sqrtLoopD_stop (x tol : ℚ) (n : ℕ) (y q s z d : ℚ) (hq : roundDouble (x / y) = q)
    (hs : roundDouble (y + q) = s) (hz : roundDouble (0.5 * s) = z)
    (hd : roundDouble (y - z) = d) (h : |d| < tol) :
    sqrtLoopD x tol (n + 1) y = (z, true) := by
  simp only [sqrtLoopD, hq, hs, hz, hd, if_pos h]

/-- One pass of the rounded Newton loop that does not meet the tolerance. -/
theorem sqrtLoopD_go (x tol : ℚ) (n : ℕ) (y q s z d : ℚ) (hq : roundDouble (x / y) = q)
    (hs : roundDouble (y + q) = s) (hz : roundDouble (0.5 * s) = z)
    (hd : roundDouble (y - z) = d) (h : ¬ |d| < tol) :
    sqrtLoopD x tol (n + 1) y = sqrtLoopD x tol n z := by
  simp only [sqrtLoopD, hq, hs, hz, hd, if_neg h]

/-- The run of `sqrt(4, 0.001)` on doubles: the fourth pass meets the tolerance. -/
theorem sqrtLoopD_four :
    sqrtLoopD 4 (roundDouble 0.001) 25 4 = ((2251799918306451 / 1125899906842624), true) := by
  have hq0 : roundDouble (4 / 4) = 1 := by
    rw [show (4 / 4 : ℚ) = 1 by norm_num [ieeeConsts]]
    exact roundDouble_eq 1 1 (0)
      (by norm_num) (by norm_num) ⟨4503599627370496, by norm_num⟩ (by norm_num) (by norm_num)
  have hs0 : roundDouble (4 + 1) = 5 := by
    rw [show (4 + 1 : ℚ) = 5 by norm_num [ieeeConsts]]
    exact roundDouble_eq 5 5 (2)
      (by norm_num) (by norm_num) ⟨5629499534213120, by norm_num⟩ (by norm_num) (by norm_num)
  have hz0 : roundDouble (0.5 * 5) = (5 / 2) := by
    rw [show (0.5 * 5 : ℚ) = (5 / 2) by norm_num [ieeeConsts]]
    exact roundDouble_eq (5 / 2) (5 / 2) (1)
      (by norm_num) (by norm_num) ⟨5629499534213120, by norm_num⟩ (by norm_num) (by norm_num)
  have hd0 : roundDouble (4 - (5 / 2)) = (3 / 2) := by
    rw [show (4 - (5 / 2) : ℚ) = (3 / 2) by norm_num [ieeeConsts]]
    exact roundDouble_eq (3 / 2) (3 / 2) (0)
      (by norm_num) (by norm_num) ⟨6755399441055744, by norm_num⟩ (by norm_num) (by norm_num)
  have hq1 : roundDouble (4 / (5 / 2)) = (3602879701896397 / 2251799813685248) := by
    rw [show (4 / (5 / 2) : ℚ) = (8 / 5) by norm_num [ieeeConsts]]
    exact roundDouble_eq (8 / 5) (3602879701896397 / 2251799813685248) (0)
      (by norm_num) (by norm_num) ⟨7205759403792794, by norm_num⟩ (by norm_num) (by norm_num)
  have hs1 : roundDouble ((5 / 2) + (3602879701896397 / 2251799813685248))
      = (2308094809027379 / 562949953421312) := by
    rw [show ((5 / 2) + (3602879701896397 / 2251799813685248) : ℚ)
        = (9232379236109517 / 2251799813685248) by norm_num [ieeeConsts]]
    exact roundDouble_tie (9232379236109517 / 2251799813685248) (2308094809027379 / 562949953421312) (2) (4616189618054758)
      (by norm_num) (by norm_num) (by decide) (by norm_num) (by norm_num)
  have hz1 : roundDouble (0.5 * (2308094809027379 / 562949953421312))
      = (2308094809027379 / 1125899906842624) := by
    rw [show (0.5 * (2308094809027379 / 562949953421312) : ℚ)
        = (2308094809027379 / 1125899906842624) by norm_num [ieeeConsts]]
    exact roundDouble_eq (2308094809027379 / 1125899906842624) (2308094809027379 / 1125899906842624) (1)
      (by norm_num) (by norm_num) ⟨4616189618054758, by norm_num⟩ (by norm_num) (by norm_num)
  have hd1 : roundDouble ((5 / 2) - (2308094809027379 / 1125899906842624))
      = (506654958079181 / 1125899906842624) := by
    rw [show ((5 / 2) - (2308094809027379 / 1125899906842624) : ℚ)
        = (506654958079181 / 1125899906842624) by norm_num [ieeeConsts]]
    exact roundDouble_eq (506654958079181 / 1125899906842624) (506654958079181 / 1125899906842624) (-2)
      (by norm_num) (by norm_num) ⟨8106479329266896, by norm_num⟩ (by norm_num) (by norm_num)
  have hq2 : roundDouble (4 / (2308094809027379 / 1125899906842624))
      = (8787511468039993 / 4503599627370496) := by
    rw [show (4 / (2308094809027379 / 1125899906842624) : ℚ)
        = (4503599627370496 / 2308094809027379) by norm_num [ieeeConsts]]
    exact roundDouble_eq (4503599627370496 / 2308094809027379) (8787511468039993 / 4503599627370496) (0)
      (by norm_num) (by norm_num) ⟨8787511468039993, by norm_num⟩ (by norm_num) (by norm_num)
  have hs2 : roundDouble ((2308094809027379 / 1125899906842624) + (8787511468039993 / 4503599627370496))
      = (4504972676037377 / 1125899906842624) := by
    rw [show ((2308094809027379 / 1125899906842624) + (8787511468039993 / 4503599627370496) : ℚ)
        = (18019890704149509 / 4503599627370496) by norm_num [ieeeConsts]]
    exact roundDouble_eq (18019890704149509 / 4503599627370496) (4504972676037377 / 1125899906842624) (2)
      (by norm_num) (by norm_num) ⟨4504972676037377, by norm_num⟩ (by norm_num) (by norm_num)
  have hz2 : roundDouble (0.5 * (4504972676037377 / 1125899906842624))
      = (4504972676037377 / 2251799813685248) := by
    rw [show (0.5 * (4504972676037377 / 1125899906842624) : ℚ)
        = (4504972676037377 / 2251799813685248) by norm_num [ieeeConsts]]
    exact roundDouble_eq (4504972676037377 / 2251799813685248) (4504972676037377 / 2251799813685248) (1)
      (by norm_num) (by norm_num) ⟨4504972676037377, by norm_num⟩ (by norm_num) (by norm_num)
  have hd2 : roundDouble ((2308094809027379 / 1125899906842624) - (4504972676037377 / 2251799813685248))
      = (111216942017381 / 2251799813685248) := by
    rw [show ((2308094809027379 / 1125899906842624) - (4504972676037377 / 2251799813685248) : ℚ)
        = (111216942017381 / 2251799813685248) by norm_num [ieeeConsts]]
    exact roundDouble_eq (111216942017381 / 2251799813685248) (111216942017381 / 2251799813685248) (-5)
      (by norm_num) (by norm_num) ⟨7117884289112384, by norm_num⟩ (by norm_num) (by norm_num)
  have hq3 : roundDouble (4 / (4504972676037377 / 2251799813685248))
      = (9004453994376853 / 4503599627370496) := by
    rw [show (4 / (4504972676037377 / 2251799813685248) : ℚ)
        = (9007199254740992 / 4504972676037377) by norm_num [ieeeConsts]]
    exact roundDouble_eq (9007199254740992 / 4504972676037377) (9004453994376853 / 4503599627370496) (0)
      (by norm_num) (by norm_num) ⟨9004453994376853, by norm_num⟩ (by norm_num) (by norm_num)
  have hs3 : roundDouble ((4504972676037377 / 2251799813685248) + (9004453994376853 / 4503599627370496))
      = (2251799918306451 / 562949953421312) := by
    rw [show ((4504972676037377 / 2251799813685248) + (9004453994376853 / 4503599627370496) : ℚ)
        = (18014399346451607 / 4503599627370496) by norm_num [ieeeConsts]]
    exact roundDouble_eq (18014399346451607 / 4503599627370496) (2251799918306451 / 562949953421312) (2)
      (by norm_num) (by norm_num) ⟨4503599836612902, by norm_num⟩ (by norm_num) (by norm_num)
  have hz3 : roundDouble (0.5 * (2251799918306451 / 562949953421312))
      = (2251799918306451 / 1125899906842624) := by
    rw [show (0.5 * (2251799918306451 / 562949953421312) : ℚ)
        = (2251799918306451 / 1125899906842624) by norm_num [ieeeConsts]]
    exact roundDouble_eq (2251799918306451 / 1125899906842624) (2251799918306451 / 1125899906842624) (1)
      (by norm_num) (by norm_num) ⟨4503599836612902, by norm_num⟩ (by norm_num) (by norm_num)
  have hd3 : roundDouble ((4504972676037377 / 2251799813685248) - (2251799918306451 / 1125899906842624))
      = (1372839424475 / 2251799813685248) := by
    rw [show ((4504972676037377 / 2251799813685248) - (2251799918306451 / 1125899906842624) : ℚ)
        = (1372839424475 / 2251799813685248) by norm_num [ieeeConsts]]
    exact roundDouble_eq (1372839424475 / 2251799813685248) (1372839424475 / 2251799813685248) (-11)
      (by norm_num) (by norm_num) ⟨5623150282649600, by norm_num⟩ (by norm_num) (by norm_num)
  rw [roundDouble_tolerance.1]
  rw [sqrtLoopD_go _ _ 24 _ _ _ _ _ hq0 hs0 hz0 hd0 (by norm_num [abs_lt]),
    sqrtLoopD_go _ _ 23 _ _ _ _ _ hq1 hs1 hz1 hd1 (by norm_num [abs_lt]),
    sqrtLoopD_go _ _ 22 _ _ _ _ _ hq2 hs2 hz2 hd2 (by norm_num [abs_lt]),
    sqrtLoopD_stop _ _ 21 _ _ _ _ _ hq3 hs3 hz3 hd3 (by norm_num [abs_lt])]

/-- The run of `sqrt` on the double next above `1`: the sum `y + x / y = 2 + 2^-52` is a tie
and rounds to `2`, so the first pass returns `1`. -/
theorem sqrtLoopD_above_one :
    sqrtLoopD (1 + 1 / 2 ^ 52) (roundDouble 0.001) 25 (1 + 1 / 2 ^ 52) = (1, true) := by
  have hq : roundDouble ((1 + 1 / 2 ^ 52) / (1 + 1 / 2 ^ 52)) = 1 := by
    rw [show ((1 + 1 / 2 ^ 52) / (1 + 1 / 2 ^ 52) : ℚ) = 1 by norm_num [ieeeConsts]]
    exact roundDouble_eq 1 1 (0)
      (by norm_num) (by norm_num) ⟨4503599627370496, by norm_num⟩ (by norm_num) (by norm_num)
  have hs : roundDouble ((1 + 1 / 2 ^ 52) + 1) = 2 := by
    rw [show ((1 + 1 / 2 ^ 52) + 1 : ℚ)
        = (9007199254740993 / 4503599627370496) by norm_num [ieeeConsts]]
    exact roundDouble_tie (9007199254740993 / 4503599627370496) 2 (1) (4503599627370496)
      (by norm_num) (by norm_num) (by decide) (by norm_num) (by norm_num)
  have hz : roundDouble (0.5 * 2) = 1 := by
    rw [show (0.5 * 2 : ℚ) = 1 by norm_num [ieeeConsts]]
    exact roundDouble_eq 1 1 (0)
      (by norm_num) (by norm_num) ⟨4503599627370496, by norm_num⟩ (by norm_num) (by norm_num)
  have hd : roundDouble ((1 + 1 / 2 ^ 52) - 1) = (1 / 4503599627370496) := by
    rw [show ((1 + 1 / 2 ^ 52) - 1 : ℚ) = (1 / 4503599627370496) by norm_num [ieeeConsts]]
    exact roundDouble_eq (1 / 4503599627370496) (1 / 4503599627370496) (-52)
      (by norm_num) (by norm_num) ⟨4503599627370496, by norm_num⟩ (by norm_num) (by norm_num)
  rw [roundDouble_tolerance.1]
  exact sqrtLoopD_stop _ _ 24 _ _ _ _ _ hq hs hz hd (by norm_num [abs_lt])

/-- One rounded Newton step stays within three roundings of the exact step. -/
theorem newtonD_step (x y : ℚ) (hx : 0 < x) (hy : 0 < y) :
    (1 - 3 / 2 ^ 53) * (0.5 * (y + x / y))
        ≤ roundDouble (0.5 * roundDouble (y + roundDouble (x / y))) ∧
      roundDouble (0.5 * roundDouble (y + roundDouble (x / y)))
        ≤ (1 + 3 / 2 ^ 53 + 4 / 2 ^ 106) * (0.5 * (y + x / y)) := by
  have hw : 0 < x / y := div_pos hx hy
  obtain ⟨q1, q2⟩ := roundDouble_bounds hw.le
  have hq0 : 0 ≤ roundDouble (x / y) := roundDouble_nonneg hw.le
  obtain ⟨s1, s2⟩ := roundDouble_bounds (add_nonneg hy.le hq0)
  have hs0 : 0 ≤ roundDouble (y + roundDouble (x / y)) :=
    roundDouble_nonneg (add_nonneg hy.le hq0)
  obtain ⟨r1, r2⟩ := roundDouble_bounds (mul_nonneg (by norm_num : (0 : ℚ) ≤ 0.5) hs0)
  norm_num at q1 q2 s1 s2 r1 r2 ⊢
  constructor <;> linarith

/-- The error of the rounded Newton loop at a tolerance exit.  The exact step from `y` is at
least `√x` and overshoots it by at most `|y - step|`; the value returned is within three
roundings of the exact step, and the loop test, on a tolerance that is a `double`, bounds
`|y - returned|` by the tolerance. -/
theorem sqrtLoopD_exit_error (x tol : ℚ) (hx : 0 < x) (htol : roundDouble tol = tol) :
    ∀ (n : ℕ) (y : ℚ), 0 < y → (sqrtLoopD x tol n y).2 = true →
      -(((sqrtLoopD x tol n y).1 : ℝ) / 2 ^ 50)
          ≤ ((sqrtLoopD x tol n y).1 : ℝ) - Real.sqrt (x : ℝ) ∧
        ((sqrtLoopD x tol n y).1 : ℝ) - Real.sqrt (x : ℝ)
          < (tol : ℝ) + ((sqrtLoopD x tol n y).1 : ℝ) / 2 ^ 50 := by
  intro n
  induction n with
  | zero => intro y _ h; simp [sqrtLoopD] at h
  | succ n ih =>
    intro y hy hflag
    have hz : 0 < 0.5 * (y + x / y) := by
      have := div_pos hx hy
      norm_num; linarith
    obtain ⟨b1, b2⟩ := newtonD_step x y hx hy
    set r := roundDouble (0.5 * roundDouble (y + roundDouble (x / y))) with hr
    have hrpos : 0 < r := by
      have : (0 : ℚ) < 1 - 3 / 2 ^ 53 := by norm_num
      exact lt_of_lt_of_le (mul_pos this hz) b1
    by_cases h : |roundDouble (y - r)| < tol
    · have hval : sqrtLoopD x tol (n + 1) y = (r, true) := by
        simp only [sqrtLoopD, ← hr, if_pos h]
      rw [hval]
      have hyr : |y - r| < tol := by
        by_contra hcon
        have := roundDouble_mono (not_lt.mp hcon)
        rw [htol, ← roundDouble_abs] at this
        exact absurd h (not_lt.mpr this)
      have hxR : (0 : ℝ) < (x : ℝ) := by exact_mod_cast hx
      have hyR : (0 : ℝ) < (y : ℝ) := by exact_mod_cast hy
      obtain ⟨n1, n2⟩ := newton_real_bounds (x : ℝ) (y : ℝ) hxR hyR
      have hcast : ((0.5 * (y + x / y) : ℚ) : ℝ) = 0.5 * ((y : ℝ) + (x : ℝ) / (y : ℝ)) := by
        push_cast; norm_num
      set z : ℝ := 0.5 * ((y : ℝ) + (x : ℝ) / (y : ℝ)) with hzd
      have c1 : (1 - 3 / 2 ^ 53) * z ≤ (r : ℝ) := by
        have : (((1 - 3 / 2 ^ 53) * (0.5 * (y + x / y)) : ℚ) : ℝ) ≤ ((r : ℚ) : ℝ) :=
          Rat.cast_le.mpr b1
        rw [Rat.cast_mul, hcast] at this
        push_cast at this
        exact this
      have c2 : (r : ℝ) ≤ (1 + 3 / 2 ^ 53 + 4 / 2 ^ 106) * z := by
        have : ((r : ℚ) : ℝ)
            ≤ (((1 + 3 / 2 ^ 53 + 4 / 2 ^ 106) * (0.5 * (y + x / y)) : ℚ) : ℝ) :=
          Rat.cast_le.mpr b2
        rw [Rat.cast_mul, hcast] at this
        push_cast at this
        exact this
      have hzpos : 0 < z := by
        have : ((0 : ℚ) : ℝ) < ((0.5 * (y + x / y) : ℚ) : ℝ) := Rat.cast_lt.mpr hz
        rw [hcast] at this
        simpa using this
      have hyrR : |(y : ℝ) - (r : ℝ)| < (tol : ℝ) := by exact_mod_cast hyr
      have tri : |(y : ℝ) - z| ≤ |(y : ℝ) - (r : ℝ)| + |(r : ℝ) - z| :=
        abs_sub_le (y : ℝ) (r : ℝ) z
      have hrz : |(r : ℝ) - z| ≤ (3 / 2 ^ 53 + 4 / 2 ^ 106) * z := by
        rw [abs_le]; constructor <;> norm_num at c1 c2 ⊢ <;> linarith
      simp only
      constructor
      · norm_num at c1 c2 ⊢
        linarith
      · norm_num at c1 c2 hrz ⊢
        linarith
    · have hval : sqrtLoopD x tol (n + 1) y = sqrtLoopD x tol n r := by
        simp only [sqrtLoopD, ← hr, if_neg h]
      rw [hval] at hflag ⊢
      exact ih r hrpos hflag

/-- C2, as the code has it: for every `x > 0` and every tolerance (a `double`), when
`sqrt(x, tolerance)` returns through its tolerance test the value `r` returned satisfies
`-r / 2^50 ≤ r - √x < tolerance + r / 2^50`, with `√x` the real square root: the bounds
`0 ≤ r - √x < tolerance` up to the rounding of the last Newton step.  And `sqrt(4, 0.001)`
returns through the tolerance test, within `0.001` of `2`. -/
theorem sqrtD_tolerance_exit_error (x tol : ℚ) (hx : 0 < x) (htol : roundDouble tol = tol)
    (hexit : (sqrtLoopD x tol 25 x).2 = true) :
    (-(((sqrtD x tol : ℚ) : ℝ) / 2 ^ 50) ≤ ((sqrtD x tol : ℚ) : ℝ) - Real.sqrt (x : ℝ) ∧
        ((sqrtD x tol : ℚ) : ℝ) - Real.sqrt (x : ℝ)
          < (tol : ℝ) + ((sqrtD x tol : ℚ) : ℝ) / 2 ^ 50) ∧
      ((sqrtLoopD 4 (roundDouble 0.001) 25 4).2 = true ∧
        |sqrtD 4 (roundDouble 0.001) - 2| < 0.001) := by
  constructor
  · have hs : sqrtD x tol = (sqrtLoopD x tol 25 x).1 := by
      simp only [sqrtD, if_neg (not_lt.mpr hx.le), if_neg hx.ne']
    rw [hs]
    exact sqrtLoopD_exit_error x tol hx htol 25 x hx hexit
  · have hs : sqrtD 4 (roundDouble 0.001) = (sqrtLoopD 4 (roundDouble 0.001) 25 4).1 := by
      rw [sqrtD, if_neg (by norm_num), if_neg (by norm_num)]
    rw [hs, sqrtLoopD_four]
    exact ⟨rfl, by norm_num [abs_lt]⟩

/-- C2 at `x = 4` and the default tolerance: the value returned is within the bounds. -/
theorem sqrtD_tolerance_exit_error_witness :
    -(((sqrtD 4 (roundDouble 0.001) : ℚ) : ℝ) / 2 ^ 50)
        ≤ ((sqrtD 4 (roundDouble 0.001) : ℚ) : ℝ) - Real.sqrt ((4 : ℚ) : ℝ) ∧
      ((sqrtD 4 (roundDouble 0.001) : ℚ) : ℝ) - Real.sqrt ((4 : ℚ) : ℝ)
        < ((roundDouble 0.001 : ℚ) : ℝ) + ((sqrtD 4 (roundDouble 0.001) : ℚ) : ℝ) / 2 ^ 50 :=
  (sqrtD_tolerance_exit_error 4 (roundDouble 0.001) (by norm_num) roundDouble_tolerance.2
    (by rw [sqrtLoopD_four])).1

/-- C2, the claim as stated fails on doubles: on `x = 1 + 2^-52`, the double next above
`1`, with the default tolerance, the first pass meets the tolerance and returns `1`, which
is below the real square root of `x`; so `0 ≤ r - √x` does not hold. -/
theorem sqrtD_exit_below_root :
    (sqrtLoopD (1 + 1 / 2 ^ 52) (roundDouble 0.001) 25 (1 + 1 / 2 ^ 52)).2 = true ∧
      ((sqrtD (1 + 1 / 2 ^ 52) (roundDouble 0.001) : ℚ) : ℝ)
        - Real.sqrt (((1 + 1 / 2 ^ 52 : ℚ)) : ℝ) < 0 := by
  have hs : sqrtD (1 + 1 / 2 ^ 52) (roundDouble 0.001) = 1 := by
    rw [sqrtD, if_neg (by norm_num), if_neg (by norm_num), sqrtLoopD_above_one]
  rw [hs, sqrtLoopD_above_one]
  refine ⟨rfl, ?_⟩
  have : (1 : ℝ) < Real.sqrt (((1 + 1 / 2 ^ 52 : ℚ)) : ℝ) := by
    rw [Real.lt_sqrt (by norm_num)]
    push_cast
    norm_num
  push_cast at this ⊢
  linarith

/-! ## Range reduction under rounding -/

/-- The first rounded loop leaves a value that is at most `pi`, and at least `-pi` when the
loop ran at all; it leaves a value that is at most `pi` as it is. -/
theorem wrapDownD_spec (c : MathConsts) (hpi : roundDouble c.pi = c.pi) (fuel : ℕ) :
    ∀ (x r : ℚ), wrapDownD c fuel x = some r →
      r ≤ c.pi ∧ min x (-c.pi) ≤ r ∧ (x ≤ c.pi → r = x) := by
  have hneg : roundDouble (-c.pi) = -c.pi := by rw [roundDouble_neg, hpi]
  induction fuel with
  | zero => intro x r h; simp [wrapDownD] at h
  | succ n ih =>
    intro x r h
    rw [wrapDownD] at h
    split_ifs at h with hx
    · obtain ⟨h1, h2, h3⟩ := ih _ r h
      refine ⟨h1, ?_, fun h0 => absurd hx (not_lt.mpr h0)⟩
      have hge : -c.pi ≤ roundDouble (x - 2 * c.pi) := by
        have := roundDouble_mono (show -c.pi ≤ x - 2 * c.pi by linarith)
        rwa [hneg] at this
      exact le_trans (min_le_right _ _) (le_trans (le_min hge le_rfl) h2)
    · simp only [Option.some.injEq] at h
      subst h
      exact ⟨not_lt.mp hx, min_le_left _ _, fun _ => rfl⟩

/-- The second rounded loop, started at most at `pi`, leaves a value in `[-pi, pi]`: a sum
below `pi` cannot round above `pi`, which is a `double`. -/
theorem wrapUpD_spec (c : MathConsts) (hpi : roundDouble c.pi = c.pi) (fuel : ℕ) :
    ∀ (x r : ℚ), x ≤ c.pi → wrapUpD c fuel x = some r →
      -c.pi ≤ r ∧ r ≤ c.pi ∧ (-c.pi ≤ x → r = x) := by
  induction fuel with
  | zero => intro x r _ h; simp [wrapUpD] at h
  | succ n ih =>
    intro x r hxp h
    rw [wrapUpD] at h
    split_ifs at h with hx
    · have hle : roundDouble (x + 2 * c.pi) ≤ c.pi := by
        have := roundDouble_mono (show x + 2 * c.pi ≤ c.pi by linarith)
        rwa [hpi] at this
      obtain ⟨h1, h2, _⟩ := ih _ r hle h
      exact ⟨h1, h2, fun h0 => absurd hx (not_lt.mpr h0)⟩
    · simp only [Option.some.injEq] at h
      subst h
      exact ⟨not_lt.mp hx, hxp, fun _ => rfl⟩

/-- Enough passes for the first loop: from `|x| ≤ 10^6` a pass lowers the value by at
least `6`. -/
theorem wrapDownD_returns (c : MathConsts) (hlo : 3.1415926 ≤ c.pi) (hhi : c.pi ≤ 3.1415927)
    (n : ℕ) : ∀ x : ℚ, x ≤ c.pi + 6 * n → x ≤ 1000000 → ∃ r, wrapDownD c (n + 1) x = some r := by
  induction n with
  | zero =>
    intro x h1 _
    exact ⟨x, by rw [wrapDownD, if_neg (not_lt.mpr (by simpa using h1))]⟩
  | succ n ih =>
    intro x h1 h2
    by_cases hx : c.pi < x
    · rw [wrapDownD, if_pos hx]
      have herr := (round_err (x - 2 * c.pi)).1
      rw [abs_le] at herr
      have hab : |x - 2 * c.pi| ≤ 1000000 := by rw [abs_le]; constructor <;> linarith
      have hd : |x - 2 * c.pi| / 2 ^ 53 ≤ 1 / 10 := by
        rw [div_le_iff₀ (by positivity)]; norm_num; linarith
      push_cast at h1
      exact ih _ (by linarith [herr.2]) (by linarith [herr.2])
    · exact ⟨x, by rw [wrapDownD, if_neg hx]⟩

/-- Enough passes for the second loop: from `|x| ≤ 10^6` a pass raises the value by at
least `6`. -/
theorem wrapUpD_returns (c : MathConsts) (hlo : 3.1415926 ≤ c.pi) (hhi : c.pi ≤ 3.1415927)
    (n : ℕ) : ∀ x : ℚ, -(c.pi + 6 * n) ≤ x → -1000000 ≤ x →
      ∃ r, wrapUpD c (n + 1) x = some r := by
  induction n with
  | zero =>
    intro x h1 _
    exact ⟨x, by rw [wrapUpD, if_neg (not_lt.mpr (by simpa using h1))]⟩
  | succ n ih =>
    intro x h1 h2
    by_cases hx : x < -c.pi
    · rw [wrapUpD, if_pos hx]
      have herr := (round_err (x + 2 * c.pi)).1
      rw [abs_le] at herr
      have hab : |x + 2 * c.pi| ≤ 1000000 := by rw [abs_le]; constructor <;> linarith
      have hd : |x + 2 * c.pi| / 2 ^ 53 ≤ 1 / 10 := by
        rw [div_le_iff₀ (by positivity)]; norm_num; linarith
      push_cast at h1
      exact ih _ (by linarith [herr.1]) (by linarith [herr.1])
    · exact ⟨x, by rw [wrapUpD, if_neg hx]⟩

/-- In rounded arithmetic the reduction of an `x` with `|x| ≤ 10^6` returns, within
`166668` tests of each loop. -/
theorem reduceD_returns (c : MathConsts) (hpi : roundDouble c.pi = c.pi)
    (hlo : 3.1415926 ≤ c.pi) (hhi : c.pi ≤ 3.1415927) (x : ℚ) (hx : |x| ≤ 1000000) :
    ∃ r, reduceD c 166668 x = some r := by
  rw [abs_le] at hx
  obtain ⟨b, hb⟩ := wrapDownD_returns c hlo hhi 166667 x (by push_cast; linarith) hx.2
  have hs := wrapDownD_spec c hpi _ x b hb
  have hbl : -1000000 ≤ b := le_trans (le_min hx.1 (by linarith)) hs.2.1
  obtain ⟨r, hr⟩ := wrapUpD_returns c hlo hhi 166667 b (by push_cast; linarith) hbl
  exact ⟨r, by rw [reduceD, hb, Option.some_bind, hr]⟩

/-- A value of `[-pi, pi]` passes both rounded loops unchanged. -/
theorem reduceD_of_mem (c : MathConsts) (n : ℕ) (v : ℚ) (hlo : -c.pi ≤ v) (hhi : v ≤ c.pi) :
    reduceD c (n + 1) v = some v := by
  simp only [reduceD, wrapDownD, wrapUpD, if_neg (not_lt.mpr hhi), Option.some_bind,
    if_neg (not_lt.mpr hlo)]

/-- The constant `pi` of `ieeeConsts` is a `double`, and the reduction step is absorbed at
`2^57`: `2^57 - 2 * pi` rounds back to `2^57`, the spacing of the doubles there being `16`. -/
theorem roundDouble_pi :
    roundDouble ieeeConsts.pi = ieeeConsts.pi ∧
      roundDouble (2 ^ 57 - 2 * ieeeConsts.pi) = 2 ^ 57 := by
  have hp : roundDouble ieeeConsts.pi = ieeeConsts.pi := by
    rw [show (ieeeConsts.pi : ℚ) = (884279719003555 / 281474976710656) by norm_num [ieeeConsts]]
    exact roundDouble_eq (884279719003555 / 281474976710656) (884279719003555 / 281474976710656) (1)
      (by norm_num) (by norm_num) ⟨7074237752028440, by norm_num⟩ (by norm_num) (by norm_num)
  have h : roundDouble (2 ^ 57 - 2 * ieeeConsts.pi) = 144115188075855872 := by
    rw [show (2 ^ 57 - 2 * ieeeConsts.pi : ℚ)
        = (20282409603651669539667532282461 / 140737488355328) by norm_num [ieeeConsts]]
    exact roundDouble_eq (20282409603651669539667532282461 / 140737488355328) 144115188075855872 (56)
      (by norm_num) (by norm_num) ⟨9007199254740992, by norm_num⟩ (by norm_num) (by norm_num)
  exact ⟨hp, by rw [h]; norm_num⟩

/-- C5, as the code has it: whenever the two reduction loops of `sin` and `cos` return, on
doubles, the reduced value lies in the closed interval `[-pi, pi]`; the lower end is
reached, the input `-pi` being left as it is; and the loops do return for every input of
magnitude at most `10^6` (for a `pi` in `[3.1415926, 3.1415927]`). -/
theorem reduceD_mem_closed (c : MathConsts) (hpi : roundDouble c.pi = c.pi) (fuel : ℕ)
    (x r : ℚ) (h : reduceD c fuel x = some r) :
    (-c.pi ≤ r ∧ r ≤ c.pi) ∧ reduceD c 1 (-c.pi) = some (-c.pi) ∧
      (3.1415926 ≤ c.pi → c.pi ≤ 3.1415927 →
        ∀ y : ℚ, |y| ≤ 1000000 → ∃ s, reduceD c 166668 y = some s) := by
  have hp := c.pi_pos
  refine ⟨?_, reduceD_of_mem c 0 _ le_rfl (by linarith),
    fun hlo hhi y hy => reduceD_returns c hpi hlo hhi y hy⟩
  unfold reduceD at h
  cases hd : wrapDownD c fuel x with
  | none => rw [hd] at h; simp at h
  | some b =>
    rw [hd, Option.some_bind] at h
    have hb := wrapDownD_spec c hpi fuel x b hd
    have hr := wrapUpD_spec c hpi fuel b r hb.1 h
    exact ⟨hr.1, hr.2.1⟩

/-- C5 at the input `1` with `pi` the double nearest to π: neither loop runs and the value
left, `1`, is in `[-pi, pi]`. -/
theorem reduceD_mem_closed_witness :
    reduceD ieeeConsts 1 1 = some 1 ∧ (-ieeeConsts.pi ≤ 1 ∧ (1 : ℚ) ≤ ieeeConsts.pi) :=
  ⟨reduceD_of_mem ieeeConsts 0 1 (by norm_num [ieeeConsts]) (by norm_num [ieeeConsts]),
    (reduceD_mem_closed ieeeConsts roundDouble_pi.1 1 1 1
      (reduceD_of_mem ieeeConsts 0 1 (by norm_num [ieeeConsts]) (by norm_num [ieeeConsts]))).1⟩

/-- C5, the claim as stated fails: on the input `-pi` neither loop runs and the reduced
value is `-pi` itself, which is not in the half-open interval `(-pi, pi]`; in exact
arithmetic and on doubles alike. -/
theorem reduce_neg_pi_not_half_open :
    ¬ (-stdConsts.pi < wrapUp stdConsts (wrapDown stdConsts (-stdConsts.pi)) ∧
        wrapUp stdConsts (wrapDown stdConsts (-stdConsts.pi)) ≤ stdConsts.pi) ∧
      ¬ ∃ r, reduceD ieeeConsts 1 (-ieeeConsts.pi) = some r ∧
        -ieeeConsts.pi < r ∧ r ≤ ieeeConsts.pi := by
  constructor
  · rw [reduce_of_mem stdConsts (-stdConsts.pi) (le_refl _) (by norm_num [stdConsts])]
    exact fun h => lt_irrefl _ h.1
  · rw [reduceD_of_mem ieeeConsts 0 _ le_rfl (by norm_num [ieeeConsts])]
    rintro ⟨r, hr, h1, _⟩
    simp only [Option.some.injEq] at hr
    rw [← hr] at h1
    exact lt_irrefl _ h1

/-- Four `float` roundings: `360` is a `float`, the sum `-2^-70 + 360` rounds to `360` (the
spacing of the floats below `360` is `2^-15`), and `370 - 360` and `-10 + 360` are exact. -/
theorem roundFloat_rollover :
    roundFloat 360 = 360 ∧ roundFloat (-(1 / 2 ^ 70) + 360) = 360 ∧
      roundFloat (370 - 360) = 10 ∧ roundFloat (-10 + 360) = 350 := by
  have h0 : roundFloat 360 = 360 :=
    roundFloat_eq 360 360 (8)
      (by norm_num) (by norm_num) ⟨11796480, by norm_num⟩ (by norm_num) (by norm_num)
  have h : roundFloat (-(1 / 2 ^ 70) + 360) = 360 := by
    rw [show (-(1 / 2 ^ 70) + 360 : ℚ)
        = (425012983458268069232639 / 1180591620717411303424) by norm_num [ieeeConsts]]
    exact roundFloat_eq (425012983458268069232639 / 1180591620717411303424) 360 (8)
      (by norm_num) (by norm_num) ⟨11796480, by norm_num⟩ (by norm_num) (by norm_num)
  have h10 : roundFloat (370 - 360) = 10 := by
    rw [show (370 - 360 : ℚ) = 10 by norm_num [ieeeConsts]]
    exact roundFloat_eq 10 10 (3)
      (by norm_num) (by norm_num) ⟨10485760, by norm_num⟩ (by norm_num) (by norm_num)
  have h350 : roundFloat (-10 + 360) = 350 := by
    rw [show (-10 + 360 : ℚ) = 350 by norm_num [ieeeConsts]]
    exact roundFloat_eq 350 350 (8)
      (by norm_num) (by norm_num) ⟨11468800, by norm_num⟩ (by norm_num) (by norm_num)
  exact ⟨h0, h, h10, h350⟩

/-- What the first loop leaves when it ends: a value that is not negative and at most the
larger of its argument and `360`; an argument that is not negative is left as it is. -/
theorem rollUp_spec (fuel : ℕ) : ∀ (a r : ℚ), rollUp fuel a = some r →
    0 ≤ r ∧ r ≤ max a 360 ∧ (0 ≤ a → r = a) := by
  induction fuel with
  | zero => intro a r h; simp [rollUp] at h
  | succ n ih =>
    intro a r h
    rw [rollUp] at h
    split_ifs at h with ha
    · obtain ⟨h1, h2, h3⟩ := ih _ r h
      refine ⟨h1, ?_, fun h0 => absurd ha (not_lt.mpr h0)⟩
      have hle : roundFloat (a + 360) ≤ 360 := by
        have := roundFloat_mono (show a + 360 ≤ 360 by linarith)
        rwa [roundFloat_rollover.1] at this
      exact le_trans h2 (max_le (le_trans hle (le_max_right _ _)) (le_max_right _ _))
    · simp only [Option.some.injEq] at h
      subst h
      exact ⟨not_lt.mp ha, le_max_left _ _, fun _ => rfl⟩

/-- What the second loop leaves when it ends, started on a value that is not negative: a
value in `[0, 360]`; an argument that is at most `360` is left as it is. -/
theorem rollDown_spec (fuel : ℕ) : ∀ (a r : ℚ), 0 ≤ a → rollDown fuel a = some r →
    0 ≤ r ∧ r ≤ 360 ∧ (a ≤ 360 → r = a) := by
  induction fuel with
  | zero => intro a r _ h; simp [rollDown] at h
  | succ n ih =>
    intro a r ha0 h
    rw [rollDown] at h
    split_ifs at h with ha
    · obtain ⟨h1, h2, _⟩ := ih _ r (roundFloat_nonneg (by linarith)) h
      exact ⟨h1, h2, fun h0 => absurd ha (not_lt.mpr h0)⟩
    · simp only [Option.some.injEq] at h
      subst h
      exact ⟨ha0, not_lt.mp ha, fun _ => rfl⟩

/-- An angle of `[0, 360]` passes both loops unchanged. -/
theorem rolloverAngle_fixed (n : ℕ) (a : ℚ) (h0 : 0 ≤ a) (h1 : a ≤ 360) :
    rolloverAngle (n + 1) a = some a := by
  simp only [rolloverAngle, rollUp, rollDown, if_neg (not_lt.mpr h0), Option.some_bind,
    if_neg (not_lt.mpr h1)]

/-- The value `rolloverAngle` leaves, when it returns, is in `[0, 360]`. -/
theorem rolloverAngle_range (fuel : ℕ) (a r : ℚ) (h : rolloverAngle fuel a = some r) :
    0 ≤ r ∧ r ≤ 360 := by
  unfold rolloverAngle at h
  cases hu : rollUp fuel a with
  | none => rw [hu] at h; simp at h
  | some b =>
    rw [hu, Option.some_bind] at h
    have hb := rollUp_spec fuel a b hu
    have hr := rollDown_spec fuel b r hb.1 h
    exact ⟨hr.1, hr.2.1⟩

/-- Enough passes for the first loop: from `-10^6 ≤ a` a pass raises the angle by at least
`359`. -/
theorem rollUp_returns (n : ℕ) : ∀ a : ℚ, -(359 * n) ≤ a → -1000000 ≤ a →
    ∃ r, rollUp (n + 1) a = some r := by
  induction n with
  | zero =>
    intro a h1 _
    exact ⟨a, by rw [rollUp, if_neg (not_lt.mpr (by simpa using h1))]⟩
  | succ n ih =>
    intro a h1 h2
    by_cases ha : a < 0
    · rw [rollUp, if_pos ha]
      have herr := (round_err (a + 360)).2
      rw [abs_le] at herr
      have hab : |a + 360| ≤ 1000000 := by rw [abs_le]; constructor <;> linarith
      have hd : |a + 360| / 2 ^ 24 ≤ 1 := by
        rw [div_le_iff₀ (by positivity)]; norm_num; linarith
      push_cast at h1
      exact ih _ (by linarith [herr.1]) (by linarith [herr.1])
    · exact ⟨a, by rw [rollUp, if_neg ha]⟩

/-- Enough passes for the second loop: from `a ≤ 10^6` a pass lowers the angle by at least
`359`. -/
theorem rollDown_returns (n : ℕ) : ∀ a : ℚ, a ≤ 360 + 359 * n → a ≤ 1000000 →
    ∃ r, rollDown (n + 1) a = some r := by
  induction n with
  | zero =>
    intro a h1 _
    exact ⟨a, by rw [rollDown, if_neg (not_lt.mpr (by simpa using h1))]⟩
  | succ n ih =>
    intro a h1 h2
    by_cases ha : a > 360
    · rw [rollDown, if_pos ha]
      have herr := (round_err (a - 360)).2
      rw [abs_le] at herr
      have hab : |a - 360| ≤ 1000000 := by rw [abs_le]; constructor <;> linarith
      have hd : |a - 360| / 2 ^ 24 ≤ 1 := by
        rw [div_le_iff₀ (by positivity)]; norm_num; linarith
      push_cast at h1
      exact ih _ (by linarith [herr.2]) (by linarith [herr.2])
    · exact ⟨a, by rw [rollDown, if_neg ha]⟩

/-- On floats `rolloverAngle` returns for every angle of magnitude at most `10^6`, within
`2787` tests of each loop. -/
theorem rolloverAngle_returns (a : ℚ) (h : |a| ≤ 1000000) :
    ∃ r, rolloverAngle 2787 a = some r := by
  rw [abs_le] at h
  obtain ⟨b, hb⟩ := rollUp_returns 2786 a (by push_cast; linarith) h.1
  have hs := rollUp_spec _ a b hb
  have hb2 : b ≤ 1000000 := le_trans hs.2.1 (max_le h.2 (by norm_num))
  obtain ⟨r, hr⟩ := rollDown_returns 2786 b (by push_cast; linarith) hb2
  exact ⟨r, by rw [rolloverAngle, hb, Option.some_bind, hr]⟩

/-- The runs of `rolloverAngle` on `370`, `-10` and `-2^-70`. -/
theorem rolloverAngle_runs :
    rolloverAngle 2 370 = some 10 ∧ rolloverAngle 2 (-10) = some 350 ∧
      rolloverAngle 2 (-(1 / 2 ^ 70)) = some 360 := by
  obtain ⟨_, h1, h2, h3⟩ := roundFloat_rollover
  refine ⟨?_, ?_, ?_⟩
  · simp only [rolloverAngle, rollUp, rollDown]
    rw [if_neg (by norm_num), Option.some_bind, if_pos (by norm_num), h2,
      if_neg (by norm_num)]
  · simp only [rolloverAngle, rollUp, rollDown]
    rw [if_pos (by norm_num), h3, if_neg (by norm_num), Option.some_bind,
      if_neg (by norm_num)]
  · simp only [rolloverAngle, rollUp, rollDown]
    rw [if_pos (by norm_num), h1, if_neg (by norm_num), Option.some_bind,
      if_neg (by norm_num)]

/-- C14, as the code has it: whenever `rolloverAngle` returns, the value stored after the
call is in the closed interval `[0, 360]`; and it does return for every angle of magnitude
at most `10^6`. -/
theorem rolloverAngle_mem_closed (fuel : ℕ) (a r : ℚ) (h : rolloverAngle fuel a = some r) :
    (0 ≤ r ∧ r ≤ 360) ∧ ∀ b : ℚ, |b| ≤ 1000000 → ∃ s, rolloverAngle 2787 b = some s :=
  ⟨rolloverAngle_range fuel a r h, rolloverAngle_returns⟩

/-- C14 at the input `370`, which is left at `10`. -/
theorem rolloverAngle_mem_closed_witness :
    rolloverAngle 2 370 = some 10 ∧ ((0 : ℚ) ≤ 10 ∧ (10 : ℚ) ≤ 360) :=
  ⟨rolloverAngle_runs.1, (rolloverAngle_mem_closed 2 370 10 rolloverAngle_runs.1).1⟩

/-- C14, the claim as stated fails: the input `360` passes both loop tests (`360 < 0` and
`360 > 360` are false) and is left at `360`, outside the half-open interval `[0, 360)`. -/
theorem rolloverAngle_360_not_half_open :
    ¬ ∃ r, rolloverAngle 1 360 = some r ∧ 0 ≤ r ∧ r < 360 := by
  rw [rolloverAngle_fixed 0 360 (by norm_num) le_rfl]
  rintro ⟨r, hr, _, h2⟩
  simp only [Option.some.injEq] at hr
  rw [← hr] at h2
  exact lt_irrefl _ h2

/-- Five `float` roundings: `1`, `5 - 0`, `10 - 0` and `5 / 10` are exact, and the difference
`3 * 2^126 - (-3 * 2^126) = 3 * 2^127` is past the largest `float`. -/
theorem roundFloat_inRange :
    roundFloat 1 = 1 ∧ roundFloat (5 - 0) = 5 ∧ roundFloat (10 - 0) = 10 ∧
      roundFloat (5 / 10) = 1 / 2 ∧
      roundFloat (3 * 2 ^ 126 - -(3 * 2 ^ 126)) = 3 * 2 ^ 127 := by
  have h1 : roundFloat 1 = 1 :=
    roundFloat_eq 1 1 (0)
      (by norm_num) (by norm_num) ⟨8388608, by norm_num⟩ (by norm_num) (by norm_num)
  have hbig : roundFloat (3 * 2 ^ 126 - -(3 * 2 ^ 126))
      = 510423550381407695195061911147652317184 := by
    rw [show (3 * 2 ^ 126 - -(3 * 2 ^ 126) : ℚ)
        = 510423550381407695195061911147652317184 by norm_num [ieeeConsts]]
    exact roundFloat_eq 510423550381407695195061911147652317184 510423550381407695195061911147652317184 (128)
      (by norm_num) (by norm_num) ⟨12582912, by norm_num⟩ (by norm_num) (by norm_num)
  have h5 : roundFloat (5 - 0) = 5 := by
    rw [show (5 - 0 : ℚ) = 5 by norm_num [ieeeConsts]]
    exact roundFloat_eq 5 5 (2)
      (by norm_num) (by norm_num) ⟨10485760, by norm_num⟩ (by norm_num) (by norm_num)
  have h10 : roundFloat (10 - 0) = 10 := by
    rw [show (10 - 0 : ℚ) = 10 by norm_num [ieeeConsts]]
    exact roundFloat_eq 10 10 (3)
      (by norm_num) (by norm_num) ⟨10485760, by norm_num⟩ (by norm_num) (by norm_num)
  have hq : roundFloat (5 / 10) = (1 / 2) := by
    rw [show (5 / 10 : ℚ) = (1 / 2) by norm_num [ieeeConsts]]
    exact roundFloat_eq (1 / 2) (1 / 2) (-1)
      (by norm_num) (by norm_num) ⟨8388608, by norm_num⟩ (by norm_num) (by norm_num)
  exact ⟨h1, h5, h10, hq, by rw [hbig]; norm_num⟩

/-- A rounded value within the `float` range is held as it is. -/
theorem ofExact_finite (q r : ℚ) (h : roundFloat q = r) (h1 : ¬ floatMax < r)
    (h2 : ¬ r < -floatMax) : FloatVal.ofExact q = FloatVal.finite r := by
  simp only [FloatVal.ofExact, h, if_neg h1, if_neg h2]

/-- A finite result is the rounded value, and that is within the `float` range. -/
theorem ofExact_eq_finite (q b : ℚ) (h : FloatVal.ofExact q = FloatVal.finite b) :
    b = roundFloat q ∧ b ≤ floatMax ∧ -floatMax ≤ b := by
  unfold FloatVal.ofExact at h
  split_ifs at h with h1 h2
  simp only [FloatVal.finite.injEq] at h
  subst h
  exact ⟨rfl, not_lt.mp h1, not_lt.mp h2⟩

/-- Inside the range, when `to - from` is finite: `inRange` and `normalize` return the same
finite value, the rounded quotient of the two rounded differences, and it is in `[0, 1]`. -/
theorem inRange_inside (num from' to' b : ℚ) (h : from' < to')
    (hb : FloatVal.ofExact (to' - from') = FloatVal.finite b)
    (h1 : from' ≤ num) (h2 : num ≤ to') :
    inRange num from' to' = FloatVal.finite (roundFloat (roundFloat (num - from') / b)) ∧
      normalize num from' to' = FloatVal.finite (roundFloat (roundFloat (num - from') / b)) ∧
      0 ≤ roundFloat (roundFloat (num - from') / b) ∧
      roundFloat (roundFloat (num - from') / b) ≤ 1 := by
  obtain ⟨hb1, hb2, _⟩ := ofExact_eq_finite _ _ hb
  have hfm : (1 : ℚ) ≤ floatMax := by norm_num [floatMax]
  have hbpos : 0 < b := hb1 ▸ (round_pos (by linarith : 0 < to' - from')).2
  have hA0 : 0 ≤ roundFloat (num - from') := roundFloat_nonneg (by linarith)
  have hAb : roundFloat (num - from') ≤ b :=
    hb1 ▸ roundFloat_mono (by linarith : num - from' ≤ to' - from')
  have hA : FloatVal.ofExact (num - from') = FloatVal.finite (roundFloat (num - from')) :=
    ofExact_finite _ _ rfl (not_lt.mpr (by linarith)) (not_lt.mpr (by linarith))
  have hq0 : 0 ≤ roundFloat (roundFloat (num - from') / b) :=
    roundFloat_nonneg (div_nonneg hA0 hbpos.le)
  have hq1 : roundFloat (roundFloat (num - from') / b) ≤ 1 := by
    have := roundFloat_mono ((div_le_one hbpos).mpr hAb)
    rwa [roundFloat_inRange.1] at this
  have hq : FloatVal.ofExact (roundFloat (num - from') / b)
      = FloatVal.finite (roundFloat (roundFloat (num - from') / b)) :=
    ofExact_finite _ _ rfl (not_lt.mpr (by linarith)) (not_lt.mpr (by linarith))
  have hdiv : FloatVal.div (FloatVal.ofExact (num - from')) (FloatVal.ofExact (to' - from'))
      = FloatVal.finite (roundFloat (roundFloat (num - from') / b)) := by
    rw [hA, hb]
    simp only [FloatVal.div, if_neg hbpos.ne', hq]
  refine ⟨?_, hdiv, hq0, hq1⟩
  rw [inRange, if_neg (by push_neg; exact ⟨h1, h2⟩), hdiv]

/-- C16, as the code has it: for all finite `num`, `from`, `to` with `from < to` whose
difference `to - from` is a finite `float` (`b`), `inRange` returns `-1` when `num < from`
or `num > to`, and otherwise the `float` quotient of `num - from` by `to - from`, which is
what `normalize` returns and lies in `[0, 1]`; so the result is `-1` exactly when `num` is
outside `[from, to]`.  Also `inRange(5, 0, 10) = 0.5` and `inRange(15, 0, 10) = -1`. -/
theorem inRange_spec (num from' to' b : ℚ) (h : from' < to')
    (hb : FloatVal.ofExact (to' - from') = FloatVal.finite b) :
    (num < from' ∨ num > to' → inRange num from' to' = FloatVal.finite (-1)) ∧
      (from' ≤ num → num ≤ to' →
        inRange num from' to' = FloatVal.finite (roundFloat (roundFloat (num - from') / b)) ∧
        inRange num from' to' = normalize num from' to' ∧
        0 ≤ roundFloat (roundFloat (num - from') / b) ∧
        roundFloat (roundFloat (num - from') / b) ≤ 1) ∧
      (inRange num from' to' = FloatVal.finite (-1) ↔ (num < from' ∨ num > to')) ∧
      inRange 5 0 10 = FloatVal.finite 0.5 ∧ inRange 15 0 10 = FloatVal.finite (-1) := by
  have hout : num < from' ∨ num > to' → inRange num from' to' = FloatVal.finite (-1) := by
    intro ho
    rw [inRange, if_pos ho]
  have hin : from' ≤ num → num ≤ to' →
      inRange num from' to' = FloatVal.finite (roundFloat (roundFloat (num - from') / b)) ∧
      inRange num from' to' = normalize num from' to' ∧
      0 ≤ roundFloat (roundFloat (num - from') / b) ∧
      roundFloat (roundFloat (num - from') / b) ≤ 1 := by
    intro h1 h2
    obtain ⟨e1, e2, e3, e4⟩ := inRange_inside num from' to' b h hb h1 h2
    exact ⟨e1, by rw [e1, e2], e3, e4⟩
  refine ⟨hout, hin, ⟨?_, hout⟩, ?_, ?_⟩
  · intro heq
    by_contra hno
    push_neg at hno
    obtain ⟨e1, _, e3, _⟩ := hin hno.1 hno.2
    rw [e1] at heq
    simp only [FloatVal.finite.injEq] at heq
    rw [heq] at e3
    norm_num at e3
  · obtain ⟨_, h5, h10, hq, _⟩ := roundFloat_inRange
    have hb10 : FloatVal.ofExact (10 - 0) = FloatVal.finite 10 :=
      ofExact_finite _ _ h10 (by norm_num [floatMax]) (by norm_num [floatMax])
    have := (inRange_inside 5 0 10 10 (by norm_num) hb10 (by norm_num) (by norm_num)).1
    rw [this, h5, hq]
    norm_num
  · rw [inRange, if_pos (by norm_num)]

/-- C16 at `num = 5`, `from = 0`, `to = 10`. -/
theorem inRange_spec_witness : inRange 5 0 10 = normalize 5 0 10 :=
  ((inRange_spec 5 0 10 10 (by norm_num)
    (ofExact_finite _ _ roundFloat_inRange.2.2.1 (by norm_num [floatMax])
      (by norm_num [floatMax]))).2.1 (by norm_num) (by norm_num)).2.1

/-- C16, the claim as stated fails on floats: with `from = -3 * 2^126` and
`to = num = 3 * 2^126` (finite floats, `from < to`, `num` inside the range) both differences
overflow to infinity and `inRange` returns NaN, which is neither `-1` nor in `[0, 1]`. -/
theorem inRange_overflow :
    (-(3 * 2 ^ 126) : ℚ) < 3 * 2 ^ 126 ∧
      inRange (3 * 2 ^ 126) (-(3 * 2 ^ 126)) (3 * 2 ^ 126) = FloatVal.nan := by
  refine ⟨by norm_num, ?_⟩
  have hinf : FloatVal.ofExact (3 * 2 ^ 126 - -(3 * 2 ^ 126)) = FloatVal.posInf := by
    rw [FloatVal.ofExact, roundFloat_inRange.2.2.2.2, if_pos (by norm_num [floatMax])]
  rw [inRange, if_neg (by norm_num), hinf]
  rfl

/-! ## Arctangent and inverse cosine under rounding -/

/-- The rounded arctangent as the branch value with the inverse fix-up. -/
theorem arctanD_eq_branches (c : MathConsts) (x : ℚ) :
    arctanD c x =
      if |x| > 1 then
        roundDouble ((if arctanBranchesD (roundDouble (1 / x)) > 0 then c.pi / 2
          else -(c.pi / 2)) - arctanBranchesD (roundDouble (1 / x)))
      else arctanBranchesD x := by
  by_cases h : |x| > 1
  · simp only [arctanD, arctanBranchesD, h, if_true, decide_True]
  · simp only [arctanD, arctanBranchesD, h, if_false, decide_False]
    simp

/-- The decimal constants of `arctan` as doubles: each is within `0.0001` of the decimal. -/
theorem arctanD_consts :
    (0.0499 ≤ roundDouble 0.05 ∧ roundDouble 0.05 ≤ 0.0501) ∧
      (0.7599 ≤ roundDouble 0.76 ∧ roundDouble 0.76 ≤ 0.7601) ∧
      (0.5499 ≤ roundDouble 0.55 ∧ roundDouble 0.55 ≤ 0.5501) ∧
      (0.2349 ≤ roundDouble 0.235 ∧ roundDouble 0.235 ≤ 0.2351) := by
  have a := roundDouble_bounds (by norm_num : (0 : ℚ) ≤ 0.05)
  have b := roundDouble_bounds (by norm_num : (0 : ℚ) ≤ 0.76)
  have c := roundDouble_bounds (by norm_num : (0 : ℚ) ≤ 0.55)
  have d := roundDouble_bounds (by norm_num : (0 : ℚ) ≤ 0.235)
  norm_num at a b c d ⊢
  refine ⟨⟨?_, ?_⟩, ⟨?_, ?_⟩, ⟨?_, ?_⟩, ?_, ?_⟩ <;> linarith [a.1, a.2, b.1, b.2, c.1, c.2, d.1, d.2]

/-- The branch value is odd: every operation is, and the thresholds are symmetric. -/
theorem arctanBranchesD_neg (v : ℚ) : arctanBranchesD (-v) = -arctanBranchesD v := by
  obtain ⟨_, ⟨k1, _⟩, _, _⟩ := arctanD_consts
  have s1 : ∀ a b : ℚ, roundDouble (-a - -b) = -roundDouble (a - b) := fun a b => by
    rw [show -a - -b = -(a - b) by ring, roundDouble_neg]
  have s2 : ∀ a b : ℚ, roundDouble (-a + -b) = -roundDouble (a + b) := fun a b => by
    rw [show -a + -b = -(a + b) by ring, roundDouble_neg]
  have s3 : ∀ a b : ℚ, roundDouble (-a - b) = -roundDouble (a + b) := fun a b => by
    rw [show -a - b = -(a + b) by ring, roundDouble_neg]
  have s4 : ∀ a b : ℚ, roundDouble (-a + b) = -roundDouble (a - b) := fun a b => by
    rw [show -a + b = -(a - b) by ring, roundDouble_neg]
  unfold arctanBranchesD
  rw [abs_neg]
  by_cases h1 : |v| < roundDouble 0.05
  · simp only [h1, if_true]
  · simp only [h1, if_false]
    by_cases h2 : v < -roundDouble 0.76
    · have h3 : ¬ (-v < -roundDouble 0.76) := by norm_num at k1; linarith
      have h4 : -v > roundDouble 0.76 := by linarith
      simp only [h2, h3, h4, if_true, if_false]
      rw [mul_neg, roundDouble_neg, s4]
    · by_cases h3 : v > roundDouble 0.76
      · have h4 : -v < -roundDouble 0.76 := by linarith
        simp only [h2, h3, h4, if_true, if_false]
        rw [mul_neg, roundDouble_neg, s3]
      · have h4 : ¬ (-v < -roundDouble 0.76) := by linarith
        have h5 : ¬ (-v > roundDouble 0.76) := by linarith
        simp only [h2, h3, h4, h5, if_false]
        simp only [neg_mul_neg, mul_neg, neg_mul, roundDouble_neg, neg_neg, neg_div, s1, s2]

/-- One rounded product inside the series: a factor at most `α * v` times `v ≤ 0.7601`. -/
theorem roundDouble_mul_step (p v α β : ℚ) (hp0 : 0 ≤ p) (hp : p ≤ α * v) (hv0 : 0 ≤ v)
    (hv : v ≤ 0.7601) (hβ : (1 + 1 / 2 ^ 53) * (α * 0.7601) ≤ β) :
    0 ≤ roundDouble (p * v) ∧ roundDouble (p * v) ≤ β * v := by
  have h0 : 0 ≤ p * v := mul_nonneg hp0 hv0
  obtain ⟨_, b2⟩ := roundDouble_bounds h0
  refine ⟨roundDouble_nonneg h0, ?_⟩
  have h1 : p * v ≤ α * 0.7601 * v := by
    have hα : 0 ≤ α * v := le_trans hp0 hp
    calc p * v ≤ α * v * v := mul_le_mul_of_nonneg_right hp hv0
      _ ≤ α * v * 0.7601 := mul_le_mul_of_nonneg_left hv hα
      _ = α * 0.7601 * v := by ring
  have h2 : (1 + 1 / 2 ^ 53) * (α * 0.7601 * v) ≤ β * v := by
    have := mul_le_mul_of_nonneg_right hβ hv0
    linarith
  have h3 : (1 + 1 / 2 ^ 53) * (p * v) ≤ (1 + 1 / 2 ^ 53) * (α * 0.7601 * v) :=
    mul_le_mul_of_nonneg_left h1 (by norm_num)
  linarith

/-- One rounded quotient by a constant inside the series. -/
theorem roundDouble_div_step (p v α β : ℚ) (k : ℚ) (hk : 0 < k) (hp0 : 0 ≤ p) (hp : p ≤ α * v)
    (hβ : (1 + 1 / 2 ^ 53) * (α / k) ≤ β) (hv0 : 0 ≤ v) :
    0 ≤ roundDouble (p / k) ∧ roundDouble (p / k) ≤ β * v := by
  have h0 : 0 ≤ p / k := div_nonneg hp0 hk.le
  obtain ⟨_, b2⟩ := roundDouble_bounds h0
  refine ⟨roundDouble_nonneg h0, ?_⟩
  have h1 : p / k ≤ α / k * v := by
    rw [div_mul_eq_mul_div]
    exact div_le_div_of_nonneg_right hp hk.le
  have h2 : (1 + 1 / 2 ^ 53) * (α / k * v) ≤ β * v := by
    have := mul_le_mul_of_nonneg_right hβ hv0
    linarith
  have h3 : (1 + 1 / 2 ^ 53) * (p / k) ≤ (1 + 1 / 2 ^ 53) * (α / k * v) :=
    mul_le_mul_of_nonneg_left h1 (by norm_num)
  linarith

/-- On `(0, 1]` the branch value is positive and at most `1`. -/
theorem arctanBranchesD_pos (v : ℚ) (h0 : 0 < v) (h1 : v ≤ 1) :
    0 < arctanBranchesD v ∧ arctanBranchesD v ≤ 1 := by
  obtain ⟨⟨_, _⟩, ⟨k76a, k76b⟩, ⟨k55a, k55b⟩, k235a, k235b⟩ := arctanD_consts
  unfold arctanBranchesD
  rw [abs_of_pos h0]
  by_cases ha : v < roundDouble 0.05
  · simp only [ha, if_true]
    exact ⟨h0, h1⟩
  · have hb : ¬ v < -roundDouble 0.76 := by norm_num at k76a; linarith
    by_cases hc : v > roundDouble 0.76
    · simp only [ha, hb, hc, if_true, if_false]
      have hm0 : 0 ≤ roundDouble 0.55 * v := mul_nonneg (by norm_num at k55a; linarith) h0.le
      have hm1 : roundDouble 0.55 * v ≤ 0.5501 := by
        calc roundDouble 0.55 * v ≤ 0.5501 * 1 :=
              mul_le_mul k55b h1 h0.le (by norm_num)
          _ = 0.5501 := by norm_num
      obtain ⟨_, m2⟩ := roundDouble_bounds hm0
      have hs0 : 0 < roundDouble (roundDouble 0.55 * v) + roundDouble 0.235 := by
        have := roundDouble_nonneg hm0
        norm_num at k235a
        linarith
      obtain ⟨_, s2⟩ := roundDouble_bounds hs0.le
      refine ⟨(round_pos hs0).1, ?_⟩
      norm_num at m2 s2 k235b hm1 ⊢
      linarith
    · simp only [ha, hb, hc, if_false]
      have hv : v ≤ 0.7601 := by linarith [not_lt.mp hc]
      obtain ⟨t1a, t1b⟩ := roundDouble_mul_step v v 1 0.7602 h0.le (by linarith) h0.le hv
        (by norm_num)
      obtain ⟨e3a, e3b⟩ := roundDouble_mul_step _ v 0.7602 0.5779 t1a t1b h0.le hv (by norm_num)
      obtain ⟨t2a, t2b⟩ := roundDouble_mul_step _ v 0.5779 0.4393 e3a e3b h0.le hv (by norm_num)
      obtain ⟨e5a, e5b⟩ := roundDouble_mul_step _ v 0.4393 0.334 t2a t2b h0.le hv (by norm_num)
      obtain ⟨t3a, t3b⟩ := roundDouble_mul_step _ v 0.334 0.2539 e5a e5b h0.le hv (by norm_num)
      obtain ⟨e7a, e7b⟩ := roundDouble_mul_step _ v 0.2539 0.193 t3a t3b h0.le hv (by norm_num)
      obtain ⟨t4a, t4b⟩ := roundDouble_mul_step _ v 0.193 0.1468 e7a e7b h0.le hv (by norm_num)
      obtain ⟨e9a, e9b⟩ := roundDouble_mul_step _ v 0.1468 0.1116 t4a t4b h0.le hv (by norm_num)
      obtain ⟨d3a, d3b⟩ := roundDouble_div_step _ v 0.5779 0.1927 3 (by norm_num) e3a e3b
        (by norm_num) h0.le
      obtain ⟨d5a, d5b⟩ := roundDouble_div_step _ v 0.334 0.0669 5 (by norm_num) e5a e5b
        (by norm_num) h0.le
      obtain ⟨d7a, d7b⟩ := roundDouble_div_step _ v 0.193 0.0276 7 (by norm_num) e7a e7b
        (by norm_num) h0.le
      obtain ⟨d9a, d9b⟩ := roundDouble_div_step _ v 0.1116 0.0125 9 (by norm_num) e9a e9b
        (by norm_num) h0.le
      set E3 := roundDouble (roundDouble (v * v) * v)
      set E5 := roundDouble (roundDouble (E3 * v) * v)
      set E7 := roundDouble (roundDouble (E5 * v) * v)
      set E9 := roundDouble (roundDouble (E7 * v) * v)
      set D3 := roundDouble (E3 / 3)
      set D5 := roundDouble (E5 / 5)
      set D7 := roundDouble (E7 / 7)
      set D9 := roundDouble (E9 / 9)
      have q1 : 0 ≤ v - D3 := by norm_num at d3b; linarith
      obtain ⟨r1a, r1b⟩ := roundDouble_bounds q1
      set R1 := roundDouble (v - D3)
      have R1lo : 0.807 * v ≤ R1 := by norm_num at d3b r1a ⊢; linarith
      have R1hi : R1 ≤ 1.0001 * v := by norm_num at r1b ⊢; linarith
      have q2 : 0 ≤ R1 + D5 := by norm_num at R1lo; linarith
      obtain ⟨r2a, r2b⟩ := roundDouble_bounds q2
      set R2 := roundDouble (R1 + D5)
      have R2lo : 0.8069 * v ≤ R2 := by norm_num at R1lo r2a ⊢; linarith
      have R2hi : R2 ≤ 1.0671 * v := by norm_num at R1hi d5b r2b ⊢; linarith
      have q3 : 0 ≤ R2 - D7 := by norm_num at R2lo d7b; linarith
      obtain ⟨r3a, r3b⟩ := roundDouble_bounds q3
      set R3 := roundDouble (R2 - D7)
      have R3lo : 0.779 * v ≤ R3 := by norm_num at R2lo d7b r3a ⊢; linarith
      have R3hi : R3 ≤ 1.0672 * v := by norm_num at R2hi r3b ⊢; linarith
      have q4 : 0 ≤ R3 + D9 := by norm_num at R3lo; linarith
      obtain ⟨r4a, r4b⟩ := roundDouble_bounds q4
      constructor
      · have : 0 < R3 + D9 := by norm_num at R3lo; linarith
        exact (round_pos this).1
      · norm_num at R3hi d9b r4b hv ⊢
        linarith

/-- The range of the rounded arctangent: `[0, pi/2]` on non-negative arguments and
`[-pi/2, 0]` on non-positive ones. -/
theorem arctanD_range (c : MathConsts) (hpi2 : roundDouble (c.pi / 2) = c.pi / 2)
    (hlo : 2 ≤ c.pi) (y : ℚ) :
    (0 ≤ y → 0 ≤ arctanD c y ∧ arctanD c y ≤ c.pi / 2) ∧
      (y ≤ 0 → -(c.pi / 2) ≤ arctanD c y ∧ arctanD c y ≤ 0) := by
  have hk := arctanD_consts.1.1
  have hzero : arctanBranchesD 0 = 0 := by
    unfold arctanBranchesD
    rw [if_pos (by rw [abs_zero]; norm_num at hk; linarith)]
  -- the positive half, used twice
  have hpos : ∀ t : ℚ, 0 < t → 0 ≤ arctanD c t ∧ arctanD c t ≤ c.pi / 2 := by
    intro t ht
    rw [arctanD_eq_branches, abs_of_pos ht]
    by_cases h1 : t > 1
    · rw [if_pos h1]
      have hv0 : 0 < roundDouble (1 / t) := (round_pos (by positivity)).1
      have hv1 : roundDouble (1 / t) ≤ 1 := by
        have := roundDouble_mono ((div_le_one ht).mpr h1.le)
        rwa [roundDouble_one] at this
      obtain ⟨b0, b1⟩ := arctanBranchesD_pos _ hv0 hv1
      rw [if_pos b0]
      constructor
      · exact roundDouble_nonneg (by linarith)
      · have := roundDouble_mono (show c.pi / 2 - arctanBranchesD (roundDouble (1 / t))
            ≤ c.pi / 2 by linarith)
        rwa [hpi2] at this
    · rw [if_neg h1]
      obtain ⟨b0, b1⟩ := arctanBranchesD_pos t ht (not_lt.mp h1)
      exact ⟨b0.le, by linarith⟩
  have hz : arctanD c 0 = 0 := by
    rw [arctanD_eq_branches, if_neg (by norm_num), hzero]
  constructor
  · intro hy
    rcases hy.lt_or_eq with h | h
    · exact hpos y h
    · rw [← h, hz]
      exact ⟨le_rfl, by linarith⟩
  · intro hy
    rcases hy.lt_or_eq with h | h
    · -- mirror image of the positive half
      have ht : 0 < -y := neg_pos.mpr h
      have hm := hpos (-y) ht
      rw [arctanD_eq_branches, abs_of_pos ht] at hm
      rw [arctanD_eq_branches, abs_of_neg h]
      by_cases h1 : -y > 1
      · rw [if_pos h1] at hm ⊢
        have hv0 : 0 < roundDouble (1 / -y) := (round_pos (by positivity)).1
        have hv1 : roundDouble (1 / -y) ≤ 1 := by
          have := roundDouble_mono ((div_le_one ht).mpr h1.le)
          rwa [roundDouble_one] at this
        obtain ⟨b0, b1⟩ := arctanBranchesD_pos _ hv0 hv1
        rw [if_pos b0] at hm
        have hv : roundDouble (1 / y) = -roundDouble (1 / -y) := by
          rw [← roundDouble_neg]; congr 1; field_simp
        rw [hv, arctanBranchesD_neg, if_neg (by linarith),
          show -(c.pi / 2) - -arctanBranchesD (roundDouble (1 / -y))
            = -(c.pi / 2 - arctanBranchesD (roundDouble (1 / -y))) by ring, roundDouble_neg]
        constructor <;> linarith [hm.1, hm.2]
      · rw [if_neg h1] at hm ⊢
        have := arctanBranchesD_neg y
        rw [this] at hm
        constructor <;> linarith [hm.1, hm.2]
    · rw [h, hz]
      exact ⟨by linarith, le_rfl⟩

/-- The rounded arctangent of an argument beyond `1` whose inverse takes the passthrough
branch, given the two rounded results. -/
theorem arctanD_fold_small (c : MathConsts) (x v r : ℚ) (hx : |x| > 1)
    (hv : roundDouble (1 / x) = v) (hs : |v| < roundDouble 0.05)
    (hr : roundDouble ((if v > 0 then c.pi / 2 else -(c.pi / 2)) - v) = r) :
    arctanD c x = r := by
  simp only [arctanD, if_pos hx, hv, if_pos hs, hr, decide_eq_true hx, if_true]

/-- Half of the `pi` of `ieeeConsts` is a `double`. -/
theorem roundDouble_half_pi : roundDouble (ieeeConsts.pi / 2) = ieeeConsts.pi / 2 := by
  rw [show (ieeeConsts.pi / 2 : ℚ) = (884279719003555 / 562949953421312) by norm_num [ieeeConsts]]
  exact roundDouble_eq (884279719003555 / 562949953421312) (884279719003555 / 562949953421312) (0)
    (by norm_num) (by norm_num) ⟨7074237752028440, by norm_num⟩ (by norm_num) (by norm_num)

/-- The roundings at the ends of the four quadrants, with `pi` the double nearest to π.  The
`float` nearest to `pi/2` is above `pi/2` and converts to `90` exactly; `pi` minus that
float, stored in a `float`, converts to `90 - 2^-17`; the `float` nearest to `pi` converts to
`180`, and `2*pi` minus it to `180 - 2^-16`; the quadrant ends at `270` and `360` are
exact. -/
theorem getAngleF_extremes :
    (roundFloat (ieeeConsts.pi / 2) = (13176795 / 8388608)) ∧
      (toDegreesF ieeeConsts 0 = 0) ∧
      (toDegreesF ieeeConsts (13176795 / 8388608) = 90) ∧
      (roundFloat (roundDouble (ieeeConsts.pi - (13176795 / 8388608))) = (6588397 / 4194304)) ∧
      (roundFloat (roundDouble (ieeeConsts.pi - 0)) = (13176795 / 4194304)) ∧
      (toDegreesF ieeeConsts (6588397 / 4194304) = (11796479 / 131072)) ∧
      (toDegreesF ieeeConsts (13176795 / 4194304) = 180) ∧
      (roundFloat (roundDouble (2 * ieeeConsts.pi - (13176795 / 4194304))) = (6588397 / 2097152)) ∧
      (roundFloat (roundDouble (2 * ieeeConsts.pi - (6588397 / 4194304))) = (2470649 / 524288)) ∧
      (toDegreesF ieeeConsts (6588397 / 2097152) = (11796479 / 65536)) ∧
      (toDegreesF ieeeConsts (2470649 / 524288) = 270) ∧
      (roundFloat (roundDouble (2 * ieeeConsts.pi - (13176795 / 8388608))) = (2470649 / 524288)) ∧
      (roundFloat (roundDouble (2 * ieeeConsts.pi - 0)) = (13176795 / 2097152)) ∧
      (toDegreesF ieeeConsts (13176795 / 2097152) = 360) := by
  have e1 : roundFloat (ieeeConsts.pi / 2) = (13176795 / 8388608) := by
    rw [show (ieeeConsts.pi / 2 : ℚ)
        = (884279719003555 / 562949953421312) by norm_num [ieeeConsts]]
    exact roundFloat_eq (884279719003555 / 562949953421312) (13176795 / 8388608) (0)
      (by norm_num) (by norm_num) ⟨13176795, by norm_num⟩ (by norm_num) (by norm_num)
  have e2 : roundDouble (0 * 180) = 0 := by
    rw [show (0 * 180 : ℚ) = 0 by norm_num [ieeeConsts]]
    exact roundNearest_zero 53
  have e3 : roundDouble (0 / ieeeConsts.pi) = 0 := by
    rw [show (0 / ieeeConsts.pi : ℚ) = 0 by norm_num [ieeeConsts]]
    exact roundNearest_zero 53
  have e4 : roundFloat (0) = 0 := by
    rw [show (0 : ℚ) = 0 by norm_num [ieeeConsts]]
    exact roundNearest_zero 24
  have d5 : toDegreesF ieeeConsts 0 = 0 := by
    simp only [toDegreesF, e2, e3, e4]
  have e6 : roundDouble ((13176795 / 8388608) * 180) = (592955775 / 2097152) := by
    rw [show ((13176795 / 8388608) * 180 : ℚ) = (592955775 / 2097152) by norm_num [ieeeConsts]]
    exact roundDouble_eq (592955775 / 2097152) (592955775 / 2097152) (8)
      (by norm_num) (by norm_num) ⟨4974073557811200, by norm_num⟩ (by norm_num) (by norm_num)
  have e7 : roundDouble ((592955775 / 2097152) / ieeeConsts.pi)
      = (6333187152226743 / 70368744177664) := by
    rw [show ((592955775 / 2097152) / ieeeConsts.pi : ℚ)
        = (15917035384995840 / 176855943800711) by norm_num [ieeeConsts]]
    exact roundDouble_eq (15917035384995840 / 176855943800711) (6333187152226743 / 70368744177664) (6)
      (by norm_num) (by norm_num) ⟨6333187152226743, by norm_num⟩ (by norm_num) (by norm_num)
  have e8 : roundFloat ((6333187152226743 / 70368744177664)) = 90 := by
    rw [show ((6333187152226743 / 70368744177664) : ℚ)
        = (6333187152226743 / 70368744177664) by norm_num [ieeeConsts]]
    exact roundFloat_eq (6333187152226743 / 70368744177664) 90 (6)
      (by norm_num) (by norm_num) ⟨11796480, by norm_num⟩ (by norm_num) (by norm_num)
  have d9 : toDegreesF ieeeConsts (13176795 / 8388608) = 90 := by
    simp only [toDegreesF, e6, e7, e8]
  have e10 : roundDouble (ieeeConsts.pi - (13176795 / 8388608))
      = (442139847198115 / 281474976710656) := by
    rw [show (ieeeConsts.pi - (13176795 / 8388608) : ℚ)
        = (442139847198115 / 281474976710656) by norm_num [ieeeConsts]]
    exact roundDouble_eq (442139847198115 / 281474976710656) (442139847198115 / 281474976710656) (0)
      (by norm_num) (by norm_num) ⟨7074237555169840, by norm_num⟩ (by norm_num) (by norm_num)
  have e11 : roundFloat ((442139847198115 / 281474976710656)) = (6588397 / 4194304) := by
    rw [show ((442139847198115 / 281474976710656) : ℚ)
        = (442139847198115 / 281474976710656) by norm_num [ieeeConsts]]
    exact roundFloat_eq (442139847198115 / 281474976710656) (6588397 / 4194304) (0)
      (by norm_num) (by norm_num) ⟨13176794, by norm_num⟩ (by norm_num) (by norm_num)
  have w12 : roundFloat (roundDouble (ieeeConsts.pi - (13176795 / 8388608))) = (6588397 / 4194304) := by
    rw [e10, e11]
  have e13 : roundDouble (ieeeConsts.pi - 0) = (884279719003555 / 281474976710656) := by
    rw [show (ieeeConsts.pi - 0 : ℚ)
        = (884279719003555 / 281474976710656) by norm_num [ieeeConsts]]
    exact roundDouble_eq (884279719003555 / 281474976710656) (884279719003555 / 281474976710656) (1)
      (by norm_num) (by norm_num) ⟨7074237752028440, by norm_num⟩ (by norm_num) (by norm_num)
  have e14 : roundFloat ((884279719003555 / 281474976710656)) = (13176795 / 4194304) := by
    rw [show ((884279719003555 / 281474976710656) : ℚ)
        = (884279719003555 / 281474976710656) by norm_num [ieeeConsts]]
    exact roundFloat_eq (884279719003555 / 281474976710656) (13176795 / 4194304) (1)
      (by norm_num) (by norm_num) ⟨13176795, by norm_num⟩ (by norm_num) (by norm_num)
  have w15 : roundFloat (roundDouble (ieeeConsts.pi - 0)) = (13176795 / 4194304) := by
    rw [e13, e14]
  have e16 : roundDouble ((6588397 / 4194304) * 180) = (296477865 / 1048576) := by
    rw [show ((6588397 / 4194304) * 180 : ℚ) = (296477865 / 1048576) by norm_num [ieeeConsts]]
    exact roundDouble_eq (296477865 / 1048576) (296477865 / 1048576) (8)
      (by norm_num) (by norm_num) ⟨4974073180323840, by norm_num⟩ (by norm_num) (by norm_num)
  have e17 : roundDouble ((296477865 / 1048576) / ieeeConsts.pi)
      = (6333186671594909 / 70368744177664) := by
    rw [show ((296477865 / 1048576) / ieeeConsts.pi : ℚ)
        = (15917034177036288 / 176855943800711) by norm_num [ieeeConsts]]
    exact roundDouble_eq (15917034177036288 / 176855943800711) (6333186671594909 / 70368744177664) (6)
      (by norm_num) (by norm_num) ⟨6333186671594909, by norm_num⟩ (by norm_num) (by norm_num)
  have e18 : roundFloat ((6333186671594909 / 70368744177664)) = (11796479 / 131072) := by
    rw [show ((6333186671594909 / 70368744177664) : ℚ)
        = (6333186671594909 / 70368744177664) by norm_num [ieeeConsts]]
    exact roundFloat_eq (6333186671594909 / 70368744177664) (11796479 / 131072) (6)
      (by norm_num) (by norm_num) ⟨11796479, by norm_num⟩ (by norm_num) (by norm_num)
  have d19 : toDegreesF ieeeConsts (6588397 / 4194304) = (11796479 / 131072) := by
    simp only [toDegreesF, e16, e17, e18]
  have e20 : roundDouble ((13176795 / 4194304) * 180) = (592955775 / 1048576) := by
    rw [show ((13176795 / 4194304) * 180 : ℚ) = (592955775 / 1048576) by norm_num [ieeeConsts]]
    exact roundDouble_eq (592955775 / 1048576) (592955775 / 1048576) (9)
      (by norm_num) (by norm_num) ⟨4974073557811200, by norm_num⟩ (by norm_num) (by norm_num)
  have e21 : roundDouble ((592955775 / 1048576) / ieeeConsts.pi)
      = (6333187152226743 / 35184372088832) := by
    rw [show ((592955775 / 1048576) / ieeeConsts.pi : ℚ)
        = (31834070769991680 / 176855943800711) by norm_num [ieeeConsts]]
    exact roundDouble_eq (31834070769991680 / 176855943800711) (6333187152226743 / 35184372088832) (7)
      (by norm_num) (by norm_num) ⟨6333187152226743, by norm_num⟩ (by norm_num) (by norm_num)
  have e22 : roundFloat ((6333187152226743 / 35184372088832)) = 180 := by
    rw [show ((6333187152226743 / 35184372088832) : ℚ)
        = (6333187152226743 / 35184372088832) by norm_num [ieeeConsts]]
    exact roundFloat_eq (6333187152226743 / 35184372088832) 180 (7)
      (by norm_num) (by norm_num) ⟨11796480, by norm_num⟩ (by norm_num) (by norm_num)
  have d23 : toDegreesF ieeeConsts (13176795 / 4194304) = 180 := by
    simp only [toDegreesF, e20, e21, e22]
  have e24 : roundDouble (2 * ieeeConsts.pi - (13176795 / 4194304))
      = (442139847198115 / 140737488355328) := by
    rw [show (2 * ieeeConsts.pi - (13176795 / 4194304) : ℚ)
        = (442139847198115 / 140737488355328) by norm_num [ieeeConsts]]
    exact roundDouble_eq (442139847198115 / 140737488355328) (442139847198115 / 140737488355328) (1)
      (by norm_num) (by norm_num) ⟨7074237555169840, by norm_num⟩ (by norm_num) (by norm_num)
  have e25 : roundFloat ((442139847198115 / 140737488355328)) = (6588397 / 2097152) := by
    rw [show ((442139847198115 / 140737488355328) : ℚ)
        = (442139847198115 / 140737488355328) by norm_num [ieeeConsts]]
    exact roundFloat_eq (442139847198115 / 140737488355328) (6588397 / 2097152) (1)
      (by norm_num) (by norm_num) ⟨13176794, by norm_num⟩ (by norm_num) (by norm_num)
  have w26 : roundFloat (roundDouble (2 * ieeeConsts.pi - (13176795 / 4194304))) = (6588397 / 2097152) := by
    rw [e24, e25]
  have e27 : roundDouble (2 * ieeeConsts.pi - (6588397 / 4194304))
      = (663209799878051 / 140737488355328) := by
    rw [show (2 * ieeeConsts.pi - (6588397 / 4194304) : ℚ)
        = (663209799878051 / 140737488355328) by norm_num [ieeeConsts]]
    exact roundDouble_eq (663209799878051 / 140737488355328) (663209799878051 / 140737488355328) (2)
      (by norm_num) (by norm_num) ⟨5305678399024408, by norm_num⟩ (by norm_num) (by norm_num)
  have e28 : roundFloat ((663209799878051 / 140737488355328)) = (2470649 / 524288) := by
    rw [show ((663209799878051 / 140737488355328) : ℚ)
        = (663209799878051 / 140737488355328) by norm_num [ieeeConsts]]
    exact roundFloat_eq (663209799878051 / 140737488355328) (2470649 / 524288) (2)
      (by norm_num) (by norm_num) ⟨9882596, by norm_num⟩ (by norm_num) (by norm_num)
  have w29 : roundFloat (roundDouble (2 * ieeeConsts.pi - (6588397 / 4194304))) = (2470649 / 524288) := by
    rw [e27, e28]
  have e30 : roundDouble ((6588397 / 2097152) * 180) = (296477865 / 524288) := by
    rw [show ((6588397 / 2097152) * 180 : ℚ) = (296477865 / 524288) by norm_num [ieeeConsts]]
    exact roundDouble_eq (296477865 / 524288) (296477865 / 524288) (9)
      (by norm_num) (by norm_num) ⟨4974073180323840, by norm_num⟩ (by norm_num) (by norm_num)
  have e31 : roundDouble ((296477865 / 524288) / ieeeConsts.pi)
      = (6333186671594909 / 35184372088832) := by
    rw [show ((296477865 / 524288) / ieeeConsts.pi : ℚ)
        = (31834068354072576 / 176855943800711) by norm_num [ieeeConsts]]
    exact roundDouble_eq (31834068354072576 / 176855943800711) (6333186671594909 / 35184372088832) (7)
      (by norm_num) (by norm_num) ⟨6333186671594909, by norm_num⟩ (by norm_num) (by norm_num)
  have e32 : roundFloat ((6333186671594909 / 35184372088832)) = (11796479 / 65536) := by
    rw [show ((6333186671594909 / 35184372088832) : ℚ)
        = (6333186671594909 / 35184372088832) by norm_num [ieeeConsts]]
    exact roundFloat_eq (6333186671594909 / 35184372088832) (11796479 / 65536) (7)
      (by norm_num) (by norm_num) ⟨11796479, by norm_num⟩ (by norm_num) (by norm_num)
  have d33 : toDegreesF ieeeConsts (6588397 / 2097152) = (11796479 / 65536) := by
    simp only [toDegreesF, e30, e31, e32]
  have e34 : roundDouble ((2470649 / 524288) * 180) = (111179205 / 131072) := by
    rw [show ((2470649 / 524288) * 180 : ℚ) = (111179205 / 131072) by norm_num [ieeeConsts]]
    exact roundDouble_eq (111179205 / 131072) (111179205 / 131072) (9)
      (by norm_num) (by norm_num) ⟨7461110147973120, by norm_num⟩ (by norm_num) (by norm_num)
  have e35 : roundDouble ((111179205 / 131072) / ieeeConsts.pi)
      = (4749890244012099 / 17592186044416) := by
    rw [show ((111179205 / 131072) / ieeeConsts.pi : ℚ)
        = (47751104947027968 / 176855943800711) by norm_num [ieeeConsts]]
    exact roundDouble_eq (47751104947027968 / 176855943800711) (4749890244012099 / 17592186044416) (8)
      (by norm_num) (by norm_num) ⟨4749890244012099, by norm_num⟩ (by norm_num) (by norm_num)
  have e36 : roundFloat ((4749890244012099 / 17592186044416)) = 270 := by
    rw [show ((4749890244012099 / 17592186044416) : ℚ)
        = (4749890244012099 / 17592186044416) by norm_num [ieeeConsts]]
    exact roundFloat_eq (4749890244012099 / 17592186044416) 270 (8)
      (by norm_num) (by norm_num) ⟨8847360, by norm_num⟩ (by norm_num) (by norm_num)
  have d37 : toDegreesF ieeeConsts (2470649 / 524288) = 270 := by
    simp only [toDegreesF, e34, e35, e36]
  have e38 : roundDouble (2 * ieeeConsts.pi - (13176795 / 8388608))
      = (663209783100835 / 140737488355328) := by
    rw [show (2 * ieeeConsts.pi - (13176795 / 8388608) : ℚ)
        = (663209783100835 / 140737488355328) by norm_num [ieeeConsts]]
    exact roundDouble_eq (663209783100835 / 140737488355328) (663209783100835 / 140737488355328) (2)
      (by norm_num) (by norm_num) ⟨5305678264806680, by norm_num⟩ (by norm_num) (by norm_num)
  have e39 : roundFloat ((663209783100835 / 140737488355328)) = (2470649 / 524288) := by
    rw [show ((663209783100835 / 140737488355328) : ℚ)
        = (663209783100835 / 140737488355328) by norm_num [ieeeConsts]]
    exact roundFloat_eq (663209783100835 / 140737488355328) (2470649 / 524288) (2)
      (by norm_num) (by norm_num) ⟨9882596, by norm_num⟩ (by norm_num) (by norm_num)
  have w40 : roundFloat (roundDouble (2 * ieeeConsts.pi - (13176795 / 8388608))) = (2470649 / 524288) := by
    rw [e38, e39]
  have e41 : roundDouble (2 * ieeeConsts.pi - 0) = (884279719003555 / 140737488355328) := by
    rw [show (2 * ieeeConsts.pi - 0 : ℚ)
        = (884279719003555 / 140737488355328) by norm_num [ieeeConsts]]
    exact roundDouble_eq (884279719003555 / 140737488355328) (884279719003555 / 140737488355328) (2)
      (by norm_num) (by norm_num) ⟨7074237752028440, by norm_num⟩ (by norm_num) (by norm_num)
  have e42 : roundFloat ((884279719003555 / 140737488355328)) = (13176795 / 2097152) := by
    rw [show ((884279719003555 / 140737488355328) : ℚ)
        = (884279719003555 / 140737488355328) by norm_num [ieeeConsts]]
    exact roundFloat_eq (884279719003555 / 140737488355328) (13176795 / 2097152) (2)
      (by norm_num) (by norm_num) ⟨13176795, by norm_num⟩ (by norm_num) (by norm_num)
  have w43 : roundFloat (roundDouble (2 * ieeeConsts.pi - 0)) = (13176795 / 2097152) := by
    rw [e41, e42]
  have e44 : roundDouble ((13176795 / 2097152) * 180) = (592955775 / 524288) := by
    rw [show ((13176795 / 2097152) * 180 : ℚ) = (592955775 / 524288) by norm_num [ieeeConsts]]
    exact roundDouble_eq (592955775 / 524288) (592955775 / 524288) (10)
      (by norm_num) (by norm_num) ⟨4974073557811200, by norm_num⟩ (by norm_num) (by norm_num)
  have e45 : roundDouble ((592955775 / 524288) / ieeeConsts.pi)
      = (6333187152226743 / 17592186044416) := by
    rw [show ((592955775 / 524288) / ieeeConsts.pi : ℚ)
        = (63668141539983360 / 176855943800711) by norm_num [ieeeConsts]]
    exact roundDouble_eq (63668141539983360 / 176855943800711) (6333187152226743 / 17592186044416) (8)
      (by norm_num) (by norm_num) ⟨6333187152226743, by norm_num⟩ (by norm_num) (by norm_num)
  have e46 : roundFloat ((6333187152226743 / 17592186044416)) = 360 := by
    rw [show ((6333187152226743 / 17592186044416) : ℚ)
        = (6333187152226743 / 17592186044416) by norm_num [ieeeConsts]]
    exact roundFloat_eq (6333187152226743 / 17592186044416) 360 (8)
      (by norm_num) (by norm_num) ⟨11796480, by norm_num⟩ (by norm_num) (by norm_num)
  have d47 : toDegreesF ieeeConsts (13176795 / 2097152) = 360 := by
    simp only [toDegreesF, e44, e45, e46]
  exact ⟨e1, d5, d9, w12, w15, d19, d23, w26, w29, d33, d37, w40, w43, d47⟩

/-- The conversion to degrees is monotone: its three operations are. -/
theorem toDegreesF_mono (c : MathConsts) : Monotone (toDegreesF c) := by
  intro a b hab
  unfold toDegreesF
  exact roundFloat_mono (roundDouble_mono
    (div_le_div_of_nonneg_right (roundDouble_mono (by linarith)) c.pi_pos.le))

/-- A rounded value within the `float` range is a finite `float`. -/
theorem floatOf_eval (q r : ℚ) (h : roundFloat q = r) (hr : |r| ≤ floatMax) :
    floatOf q = some r := by
  simp only [floatOf, h, if_pos hr]

/-- The value `getAngleF` returns off the axes, given the rounded results. -/
theorem getAngleF_eval (c : MathConsts) (x1 y1 x2 y2 dx dy m r1 r2 r3 d : ℚ) (hx : x1 ≠ x2)
    (hy : y1 ≠ y2) (hdx : floatOf (x1 - x2) = some dx) (hdy : floatOf (y1 - y2) = some dy)
    (hm : floatOf (dx / dy) = some m) (h1 : roundFloat (arctanD c |m|) = r1)
    (h2 : (if y1 < y2 then roundFloat (roundDouble (c.pi - r1)) else r1) = r2)
    (h3 : (if x1 < x2 then roundFloat (roundDouble ((2 * c.pi) - r2)) else r2) = r3)
    (hd : toDegreesF c r3 = d) : getAngleF c x1 y1 x2 y2 = some d := by
  simp only [getAngleF, if_neg hx, if_neg hy, hdx, hdy, hm, Option.some_bind, h1, h2, h3, hd]

/-- The value `getAngleF` returns off the axes, when it returns one: the conversion to
degrees of the corrected `float` arctangent of some `m`. -/
theorem getAngleF_shape (c : MathConsts) (x1 y1 x2 y2 g : ℚ) (hx : x1 ≠ x2) (hy : y1 ≠ y2)
    (h : getAngleF c x1 y1 x2 y2 = some g) :
    ∃ m : ℚ, g = toDegreesF c
      (if x1 < x2 then
        roundFloat (roundDouble ((2 * c.pi) -
          (if y1 < y2 then roundFloat (roundDouble (c.pi - roundFloat (arctanD c |m|)))
            else roundFloat (arctanD c |m|))))
      else (if y1 < y2 then roundFloat (roundDouble (c.pi - roundFloat (arctanD c |m|)))
        else roundFloat (arctanD c |m|))) := by
  simp only [getAngleF, if_neg hx, if_neg hy] at h
  cases h1 : floatOf (x1 - x2) with
  | none => rw [h1] at h; simp at h
  | some dx =>
    cases h2 : floatOf (y1 - y2) with
    | none => rw [h1, h2] at h; simp at h
    | some dy =>
      cases h3 : floatOf (dx / dy) with
      | none => rw [h1, h2] at h; simp [h3] at h
      | some m =>
        rw [h1, h2] at h
        simp only [Option.some_bind, h3, Option.some.injEq] at h
        exact ⟨m, h.symm⟩

/-- The run of `getAngle(2^27, -1, 0, 0)` on floats: point 1 is to the right of point 2 and
below it, and the value returned is `90 - 2^-17`. -/
theorem getAngleF_run_right_below :
    getAngleF ieeeConsts (2 ^ 27) (-1) 0 0 = some (11796479 / 131072) := by
  have hdx : roundFloat (2 ^ 27 - 0) = 134217728 := by
    rw [show (2 ^ 27 - 0 : ℚ) = 134217728 by norm_num [ieeeConsts]]
    exact roundFloat_eq 134217728 134217728 (27)
      (by norm_num) (by norm_num) ⟨8388608, by norm_num⟩ (by norm_num) (by norm_num)
  have hdy : roundFloat ((-1) - 0) = (-1) := by
    rw [show ((-1) - 0 : ℚ) = -1 by norm_num [ieeeConsts]]
    rw [show roundFloat (-1) = -roundFloat 1 from roundNearest_neg 24 _]
    rw [roundFloat_eq 1 1 (0)
      (by norm_num) (by norm_num) ⟨8388608, by norm_num⟩ (by norm_num) (by norm_num)]
  have hm : roundFloat (134217728 / (-1)) = (-134217728) := by
    rw [show (134217728 / (-1) : ℚ) = -134217728 by norm_num [ieeeConsts]]
    rw [show roundFloat (-134217728) = -roundFloat 134217728 from roundNearest_neg 24 _]
    rw [roundFloat_eq 134217728 134217728 (27)
      (by norm_num) (by norm_num) ⟨8388608, by norm_num⟩ (by norm_num) (by norm_num)]
  have hv : roundDouble (1 / 134217728) = (1 / 134217728) := by
    rw [show (1 / 134217728 : ℚ) = (1 / 134217728) by norm_num [ieeeConsts]]
    exact roundDouble_eq (1 / 134217728) (1 / 134217728) (-27)
      (by norm_num) (by norm_num) ⟨4503599627370496, by norm_num⟩ (by norm_num) (by norm_num)
  have ht : roundDouble ((if ((1 / 134217728) : ℚ) > 0 then ieeeConsts.pi / 2 else -(ieeeConsts.pi / 2)) - (1 / 134217728))
      = (884279714809251 / 562949953421312) := by
    rw [show ((if ((1 / 134217728) : ℚ) > 0 then ieeeConsts.pi / 2 else -(ieeeConsts.pi / 2)) - (1 / 134217728) : ℚ)
        = (884279714809251 / 562949953421312) by norm_num [ieeeConsts]]
    exact roundDouble_eq (884279714809251 / 562949953421312) (884279714809251 / 562949953421312) (0)
      (by norm_num) (by norm_num) ⟨7074237718474008, by norm_num⟩ (by norm_num) (by norm_num)
  have h1 : roundFloat ((884279714809251 / 562949953421312)) = (13176795 / 8388608) := by
    rw [show ((884279714809251 / 562949953421312) : ℚ)
        = (884279714809251 / 562949953421312) by norm_num [ieeeConsts]]
    exact roundFloat_eq (884279714809251 / 562949953421312) (13176795 / 8388608) (0)
      (by norm_num) (by norm_num) ⟨13176795, by norm_num⟩ (by norm_num) (by norm_num)
  have hw : roundDouble (ieeeConsts.pi - (13176795 / 8388608))
      = (442139847198115 / 281474976710656) := by
    rw [show (ieeeConsts.pi - (13176795 / 8388608) : ℚ)
        = (442139847198115 / 281474976710656) by norm_num [ieeeConsts]]
    exact roundDouble_eq (442139847198115 / 281474976710656) (442139847198115 / 281474976710656) (0)
      (by norm_num) (by norm_num) ⟨7074237555169840, by norm_num⟩ (by norm_num) (by norm_num)
  have h2 : roundFloat ((442139847198115 / 281474976710656)) = (6588397 / 4194304) := by
    rw [show ((442139847198115 / 281474976710656) : ℚ)
        = (442139847198115 / 281474976710656) by norm_num [ieeeConsts]]
    exact roundFloat_eq (442139847198115 / 281474976710656) (6588397 / 4194304) (0)
      (by norm_num) (by norm_num) ⟨13176794, by norm_num⟩ (by norm_num) (by norm_num)
  have he1 : roundDouble ((6588397 / 4194304) * 180) = (296477865 / 1048576) := by
    rw [show ((6588397 / 4194304) * 180 : ℚ) = (296477865 / 1048576) by norm_num [ieeeConsts]]
    exact roundDouble_eq (296477865 / 1048576) (296477865 / 1048576) (8)
      (by norm_num) (by norm_num) ⟨4974073180323840, by norm_num⟩ (by norm_num) (by norm_num)
  have he2 : roundDouble ((296477865 / 1048576) / ieeeConsts.pi)
      = (6333186671594909 / 70368744177664) := by
    rw [show ((296477865 / 1048576) / ieeeConsts.pi : ℚ)
        = (15917034177036288 / 176855943800711) by norm_num [ieeeConsts]]
    exact roundDouble_eq (15917034177036288 / 176855943800711) (6333186671594909 / 70368744177664) (6)
      (by norm_num) (by norm_num) ⟨6333186671594909, by norm_num⟩ (by norm_num) (by norm_num)
  have he3 : roundFloat ((6333186671594909 / 70368744177664)) = (11796479 / 131072) := by
    rw [show ((6333186671594909 / 70368744177664) : ℚ)
        = (6333186671594909 / 70368744177664) by norm_num [ieeeConsts]]
    exact roundFloat_eq (6333186671594909 / 70368744177664) (11796479 / 131072) (6)
      (by norm_num) (by norm_num) ⟨11796479, by norm_num⟩ (by norm_num) (by norm_num)
  have hat : arctanD ieeeConsts |(-134217728)| = (884279714809251 / 562949953421312) := by
    rw [show |((-134217728) : ℚ)| = 134217728 by norm_num [abs_of_neg, abs_of_pos]]
    exact arctanD_fold_small ieeeConsts _ _ _ (by norm_num [abs_of_pos]) hv
      (lt_of_lt_of_le (by norm_num [abs_lt]) arctanD_consts.1.1) ht
  refine getAngleF_eval ieeeConsts _ _ _ _ 134217728 (-1) (-134217728)
    (13176795 / 8388608) (6588397 / 4194304) (6588397 / 4194304) _ (by norm_num) (by norm_num)
    (floatOf_eval _ _ hdx (by norm_num [floatMax, abs_of_pos]))
    (floatOf_eval _ _ hdy (by norm_num [floatMax, abs_of_neg]))
    (floatOf_eval _ _ hm (by norm_num [floatMax, abs_of_neg])) (by rw [hat, h1]) ?_ ?_ ?_
  · rw [if_pos (by norm_num), hw, h2]
  · rw [if_neg (by norm_num)]
  · simp only [toDegreesF, he1, he2, he3]

/-- The run of `getAngle(-1, 2^27, 0, 0)` on floats: point 1 is to the left of point 2 and
above it, and the value returned is `360`. -/
theorem getAngleF_run_left_above :
    getAngleF ieeeConsts (-1) (2 ^ 27) 0 0 = some 360 := by
  have hdx : roundFloat ((-1) - 0) = (-1) := by
    rw [show ((-1) - 0 : ℚ) = -1 by norm_num [ieeeConsts]]
    rw [show roundFloat (-1) = -roundFloat 1 from roundNearest_neg 24 _]
    rw [roundFloat_eq 1 1 (0)
      (by norm_num) (by norm_num) ⟨8388608, by norm_num⟩ (by norm_num) (by norm_num)]
  have hdy : roundFloat (2 ^ 27 - 0) = 134217728 := by
    rw [show (2 ^ 27 - 0 : ℚ) = 134217728 by norm_num [ieeeConsts]]
    exact roundFloat_eq 134217728 134217728 (27)
      (by norm_num) (by norm_num) ⟨8388608, by norm_num⟩ (by norm_num) (by norm_num)
  have hm : roundFloat ((-1) / 134217728) = (-(1 / 134217728)) := by
    rw [show ((-1) / 134217728 : ℚ) = -(1 / 134217728) by norm_num [ieeeConsts]]
    rw [show roundFloat (-(1 / 134217728)) = -roundFloat (1 / 134217728) from roundNearest_neg 24 _]
    rw [roundFloat_eq (1 / 134217728) (1 / 134217728) (-27)
      (by norm_num) (by norm_num) ⟨8388608, by norm_num⟩ (by norm_num) (by norm_num)]
  have h1 : roundFloat ((1 / 134217728)) = (1 / 134217728) := by
    rw [show ((1 / 134217728) : ℚ) = (1 / 134217728) by norm_num [ieeeConsts]]
    exact roundFloat_eq (1 / 134217728) (1 / 134217728) (-27)
      (by norm_num) (by norm_num) ⟨8388608, by norm_num⟩ (by norm_num) (by norm_num)
  have hw3 : roundDouble (2 * ieeeConsts.pi - (1 / 134217728))
      = (884279717954979 / 140737488355328) := by
    rw [show (2 * ieeeConsts.pi - (1 / 134217728) : ℚ)
        = (884279717954979 / 140737488355328) by norm_num [ieeeConsts]]
    exact roundDouble_eq (884279717954979 / 140737488355328) (884279717954979 / 140737488355328) (2)
      (by norm_num) (by norm_num) ⟨7074237743639832, by norm_num⟩ (by norm_num) (by norm_num)
  have h3 : roundFloat ((884279717954979 / 140737488355328)) = (13176795 / 2097152) := by
    rw [show ((884279717954979 / 140737488355328) : ℚ)
        = (884279717954979 / 140737488355328) by norm_num [ieeeConsts]]
    exact roundFloat_eq (884279717954979 / 140737488355328) (13176795 / 2097152) (2)
      (by norm_num) (by norm_num) ⟨13176795, by norm_num⟩ (by norm_num) (by norm_num)
  have he1 : roundDouble ((13176795 / 2097152) * 180) = (592955775 / 524288) := by
    rw [show ((13176795 / 2097152) * 180 : ℚ) = (592955775 / 524288) by norm_num [ieeeConsts]]
    exact roundDouble_eq (592955775 / 524288) (592955775 / 524288) (10)
      (by norm_num) (by norm_num) ⟨4974073557811200, by norm_num⟩ (by norm_num) (by norm_num)
  have he2 : roundDouble ((592955775 / 524288) / ieeeConsts.pi)
      = (6333187152226743 / 17592186044416) := by
    rw [show ((592955775 / 524288) / ieeeConsts.pi : ℚ)
        = (63668141539983360 / 176855943800711) by norm_num [ieeeConsts]]
    exact roundDouble_eq (63668141539983360 / 176855943800711) (6333187152226743 / 17592186044416) (8)
      (by norm_num) (by norm_num) ⟨6333187152226743, by norm_num⟩ (by norm_num) (by norm_num)
  have he3 : roundFloat ((6333187152226743 / 17592186044416)) = 360 := by
    rw [show ((6333187152226743 / 17592186044416) : ℚ)
        = (6333187152226743 / 17592186044416) by norm_num [ieeeConsts]]
    exact roundFloat_eq (6333187152226743 / 17592186044416) 360 (8)
      (by norm_num) (by norm_num) ⟨11796480, by norm_num⟩ (by norm_num) (by norm_num)
  have hat : arctanD ieeeConsts |(-(1 / 134217728))| = (1 / 134217728) := by
    rw [show |((-(1 / 134217728)) : ℚ)| = (1 / 134217728) by norm_num [abs_of_neg, abs_of_pos]]
    rw [arctanD_eq_branches, if_neg (by norm_num [abs_of_pos]), arctanBranchesD,
      if_pos (lt_of_lt_of_le (by norm_num [abs_lt]) arctanD_consts.1.1)]
  refine getAngleF_eval ieeeConsts _ _ _ _ (-1) 134217728 (-(1 / 134217728))
    (1 / 134217728) (1 / 134217728) (13176795 / 2097152) _ (by norm_num) (by norm_num)
    (floatOf_eval _ _ hdx (by norm_num [floatMax, abs_of_neg]))
    (floatOf_eval _ _ hdy (by norm_num [floatMax, abs_of_pos]))
    (floatOf_eval _ _ hm (by norm_num [floatMax, abs_of_neg])) (by rw [hat, h1]) ?_ ?_ ?_
  · rw [if_neg (by norm_num)]
  · rw [if_pos (by norm_num), hw3, h3]
  · simp only [toDegreesF, he1, he2, he3]

/-- C18, as the code has it: with `pi` the double nearest to π, whenever `getAngle` returns
a value on floats (the two differences and their quotient being finite), the value lies in
the closed quadrant of point 1 relative to point 2, up to one `float` step below `90` and
`180`: in `[0, 90]` when `x1 > x2` and `y1 > y2`, in `[90 - 2^-17, 180]` when `x1 > x2` and
`y1 < y2`, in `[180 - 2^-16, 270]` when `x1 < x2` and `y1 < y2`, in `[270, 360]` when
`x1 < x2` and `y1 > y2`; together with the axis-aligned cases the result is in `[0, 360]`.
Every bound follows from the monotonicity of the roundings and the values at the ends. -/
theorem getAngleF_quadrant (x1 y1 x2 y2 g : ℚ)
    (h : getAngleF ieeeConsts x1 y1 x2 y2 = some g) :
    (x1 > x2 → y1 > y2 → 0 ≤ g ∧ g ≤ 90) ∧
      (x1 > x2 → y1 < y2 → 90 - 1 / 2 ^ 17 ≤ g ∧ g ≤ 180) ∧
      (x1 < x2 → y1 < y2 → 180 - 1 / 2 ^ 16 ≤ g ∧ g ≤ 270) ∧
      (x1 < x2 → y1 > y2 → 270 ≤ g ∧ g ≤ 360) ∧
      (0 ≤ g ∧ g ≤ 360) := by
  obtain ⟨pf, d0, d90, l2, u2, dl2, du2, l3, u3, dl3, du3, l4, u4, du4⟩ :=
    getAngleF_extremes
  have hpi : (2 : ℚ) ≤ ieeeConsts.pi := by norm_num [ieeeConsts]
  -- the float holding the arctangent lies between 0 and the float nearest pi/2
  have hr1 : ∀ m : ℚ, 0 ≤ roundFloat (arctanD ieeeConsts |m|) ∧
      roundFloat (arctanD ieeeConsts |m|) ≤ 13176795 / 8388608 := by
    intro m
    obtain ⟨a0, a1⟩ := (arctanD_range ieeeConsts roundDouble_half_pi hpi |m|).1 (abs_nonneg m)
    refine ⟨roundFloat_nonneg a0, ?_⟩
    have := roundFloat_mono a1
    rwa [pf] at this
  have hr2 : ∀ m : ℚ, 6588397 / 4194304
        ≤ roundFloat (roundDouble (ieeeConsts.pi - roundFloat (arctanD ieeeConsts |m|))) ∧
      roundFloat (roundDouble (ieeeConsts.pi - roundFloat (arctanD ieeeConsts |m|)))
        ≤ 13176795 / 4194304 := by
    intro m
    obtain ⟨a0, a1⟩ := hr1 m
    constructor
    · have := roundFloat_mono (roundDouble_mono (show ieeeConsts.pi - 13176795 / 8388608
        ≤ ieeeConsts.pi - roundFloat (arctanD ieeeConsts |m|) by linarith))
      rwa [l2] at this
    · have := roundFloat_mono (roundDouble_mono
        (show ieeeConsts.pi - roundFloat (arctanD ieeeConsts |m|) ≤ ieeeConsts.pi - 0 by
          linarith))
      rwa [u2] at this
  have q1 : x1 > x2 → y1 > y2 → 0 ≤ g ∧ g ≤ 90 := by
    intro hx hy
    obtain ⟨m, hm⟩ := getAngleF_shape _ _ _ _ _ g hx.ne' hy.ne' h
    rw [if_neg (not_lt.mpr hx.le), if_neg (not_lt.mpr hy.le)] at hm
    obtain ⟨a0, a1⟩ := hr1 m
    have b0 := toDegreesF_mono ieeeConsts a0
    have b1 := toDegreesF_mono ieeeConsts a1
    rw [d0] at b0
    rw [d90] at b1
    rw [hm]
    exact ⟨b0, b1⟩
  have q2 : x1 > x2 → y1 < y2 → 90 - 1 / 2 ^ 17 ≤ g ∧ g ≤ 180 := by
    intro hx hy
    obtain ⟨m, hm⟩ := getAngleF_shape _ _ _ _ _ g hx.ne' hy.ne h
    rw [if_neg (not_lt.mpr hx.le), if_pos hy] at hm
    obtain ⟨a0, a1⟩ := hr2 m
    have b0 := toDegreesF_mono ieeeConsts a0
    have b1 := toDegreesF_mono ieeeConsts a1
    rw [dl2] at b0
    rw [du2] at b1
    rw [hm]
    exact ⟨le_trans (by norm_num) b0, b1⟩
  have q3 : x1 < x2 → y1 < y2 → 180 - 1 / 2 ^ 16 ≤ g ∧ g ≤ 270 := by
    intro hx hy
    obtain ⟨m, hm⟩ := getAngleF_shape _ _ _ _ _ g hx.ne hy.ne h
    rw [if_pos hx, if_pos hy] at hm
    obtain ⟨a0, a1⟩ := hr2 m
    have c0 := roundFloat_mono (roundDouble_mono (show 2 * ieeeConsts.pi - 13176795 / 4194304
        ≤ 2 * ieeeConsts.pi
          - roundFloat (roundDouble (ieeeConsts.pi - roundFloat (arctanD ieeeConsts |m|))) by
      linarith))
    have c1 := roundFloat_mono (roundDouble_mono (show 2 * ieeeConsts.pi
          - roundFloat (roundDouble (ieeeConsts.pi - roundFloat (arctanD ieeeConsts |m|)))
        ≤ 2 * ieeeConsts.pi - 6588397 / 4194304 by linarith))
    rw [l3] at c0
    rw [u3] at c1
    have b0 := toDegreesF_mono ieeeConsts c0
    have b1 := toDegreesF_mono ieeeConsts c1
    rw [dl3] at b0
    rw [du3] at b1
    rw [hm]
    exact ⟨le_trans (by norm_num) b0, b1⟩
  have q4 : x1 < x2 → y1 > y2 → 270 ≤ g ∧ g ≤ 360 := by
    intro hx hy
    obtain ⟨m, hm⟩ := getAngleF_shape _ _ _ _ _ g hx.ne hy.ne' h
    rw [if_pos hx, if_neg (not_lt.mpr hy.le)] at hm
    obtain ⟨a0, a1⟩ := hr1 m
    have c0 := roundFloat_mono (roundDouble_mono (show 2 * ieeeConsts.pi - 13176795 / 8388608
        ≤ 2 * ieeeConsts.pi - roundFloat (arctanD ieeeConsts |m|) by linarith))
    have c1 := roundFloat_mono (roundDouble_mono (show 2 * ieeeConsts.pi
          - roundFloat (arctanD ieeeConsts |m|) ≤ 2 * ieeeConsts.pi - 0 by linarith))
    rw [l4] at c0
    rw [u4] at c1
    have b0 := toDegreesF_mono ieeeConsts c0
    have b1 := toDegreesF_mono ieeeConsts c1
    rw [du3] at b0
    rw [du4] at b1
    rw [hm]
    exact ⟨b0, b1⟩
  refine ⟨q1, q2, q3, q4, ?_⟩
  by_cases hx : x1 = x2
  · simp only [getAngleF, if_pos hx, Option.some.injEq] at h
    rw [← h]
    split_ifs <;> norm_num
  · by_cases hy : y1 = y2
    · simp only [getAngleF, if_neg hx, if_pos hy, Option.some.injEq] at h
      rw [← h]
      split_ifs <;> norm_num
    · rcases lt_or_gt_of_ne hx with hx' | hx' <;> rcases lt_or_gt_of_ne hy with hy' | hy'
      · have := q3 hx' hy'
        constructor <;> norm_num at this ⊢ <;> linarith [this.1, this.2]
      · have := q4 hx' hy'
        constructor <;> linarith [this.1, this.2]
      · have := q2 hx' hy'
        constructor <;> norm_num at this ⊢ <;> linarith [this.1, this.2]
      · have := q1 hx' hy'
        constructor <;> linarith [this.1, this.2]

/-- C18 at the points `(-1, 2^27)` and `(0, 0)`: point 1 is to the left and above, and the
value returned, `360`, is in `[270, 360]`. -/
theorem getAngleF_quadrant_witness :
    getAngleF ieeeConsts (-1) (2 ^ 27) 0 0 = some 360 ∧ ((270 : ℚ) ≤ 360 ∧ (360 : ℚ) ≤ 360) :=
  ⟨getAngleF_run_left_above,
    (getAngleF_quadrant (-1) (2 ^ 27) 0 0 360 getAngleF_run_left_above).2.2.2.1
      (by norm_num) (by norm_num)⟩

/-- C18, the claim as stated fails on floats: for the point `(2^27, -1)` relative to
`(0, 0)`, to the right and below, `getAngle` returns `90 - 2^-17`, which is not in
`(90, 180)`; and for the point `(-1, 2^27)`, to the left and above, it returns `360`, which
is not in `(270, 360)` nor in `[0, 360)`. -/
theorem getAngleF_outside_open_quadrant :
    (¬ ∃ g, getAngleF ieeeConsts (2 ^ 27) (-1) 0 0 = some g ∧ 90 < g ∧ g < 180) ∧
      ¬ ∃ g, getAngleF ieeeConsts (-1) (2 ^ 27) 0 0 = some g ∧ 0 ≤ g ∧ g < 360 := by
  constructor
  · rw [getAngleF_run_right_below]
    rintro ⟨g, hg, h1, _⟩
    simp only [Option.some.injEq] at hg
    rw [← hg] at h1
    norm_num at h1
  · rw [getAngleF_run_left_above]
    rintro ⟨g, hg, _, h2⟩
    simp only [Option.some.injEq] at hg
    rw [← hg] at h2
    norm_num at h2

end SceneLab
